import Mathlib

/-!
# Vertex welding, triangle de-duplication and flattening of `BabylonMesh`

A shallow embedding of the mesh-indexing part of
`Exporters/FBX/BabylonFbxNative/BabylonMesh.cpp`: the comparison operators of
`triangle` and `BabylonVertex`, the per-material `SubmeshData`, the polygon pass of
`BabylonMesh::BabylonMesh(BabylonNode*)` (lines 516-606) and its flatten loop
(lines 607-650).

Conventions of the embedding.

* The definitions are parametric in the carrier `F` of `float`, with its comparison
  `<`, its `0` and `1` and its subtraction; nothing is assumed about `<`.
  `WithNaN F` is a carrier with NaN: every comparison with NaN is false, as for the
  `float` of the source, and a difference with NaN is NaN. A key with a NaN component
  is neither less nor greater than a key that differs from it in that component alone,
  so `knownVertices` takes the two for one key. The theorems that rest on welding by
  key equality are stated over `WithNaN F` with the hypothesis that no key has a NaN
  component; the theorems stated over a linearly ordered ring `F` are about runs all of
  whose `float` values are numbers.
* Numbers are exact (`1.0 - w0 - w1 - w2` is not rounded), and `-0.0` and `+0.0`, which
  neither `<` nor `==` tells apart, are one number.
* `std::uint32_t` values are natural numbers; every narrowing store into a
  `std::uint32_t` is written `u32` (reduction modulo `2 ^ 32`).
* `std::vector` is `List` (`push_back` appends at the end).
* `std::map` and `std::set` are lists of entries in insertion order, searched with the
  equivalence induced by the comparison operator (neither key is less than the other),
  which is what `find`, `operator[]` and `insert` observe.
* `submeshes[materialIndex]` with an index outside the vector has no defined behaviour
  in the source; the polygon pass returns `none` there.
* The polygon count is an `int` and the source evaluates
  `triangleIndex * 3 + cornerIndex` in `int` for every corner, so a run with defined
  behaviour has fewer than `2 ^ 31` corners. The theorems that need the `std::uint32_t`
  stores not to wrap around assume the weaker bound `3 * polygons < 2 ^ 32`.
-/

set_option linter.unusedSectionVars false

namespace BabylonFbx

/-! ## Scalars and small vectors -/

/-- Narrowing conversion to `std::uint32_t`. -/
def u32 (n : Nat) : Nat := n % 2 ^ 32

/-- Two-component vector of the exporter (`babylon_vector2`). -/
structure babylon_vector2 (F : Type) where
  x : F
  y : F
deriving DecidableEq, Repr

/-- Three-component vector of the exporter (`babylon_vector3`). -/
structure babylon_vector3 (F : Type) where
  x : F
  y : F
  z : F
deriving DecidableEq, Repr

/-- Four-component vector of the exporter (`babylon_vector4`). -/
structure babylon_vector4 (F : Type) where
  x : F
  y : F
  z : F
  w : F
deriving DecidableEq, Repr

/-- Colour of the exporter (`babylon_color`). -/
structure babylon_color (F : Type) where
  r : F
  g : F
  b : F
  a : F
deriving DecidableEq, Repr

/-- A C array of four elements (`std::uint32_t boneIndices[4]`, `float boneWeights[4]`):
`e0` is element `[0]`, and so on. -/
structure Array4 (α : Type) where
  e0 : α
  e1 : α
  e2 : α
  e3 : α
deriving DecidableEq, Repr

section Definitions

variable {F : Type} [LT F] [∀ a b : F, Decidable (a < b)] [DecidableEq F]
  [Zero F] [One F] [Sub F]

/-- A `float` value of the source: NaN, or a number of the carrier `F`. -/
inductive WithNaN (F : Type) where
  | nan : WithNaN F
  | num : F → WithNaN F
deriving DecidableEq, Repr

/-- The comparison `a < b` of two `float` values: both are numbers and the first is the
smaller one; a comparison with NaN is false. -/
def WithNaN.lt : WithNaN F → WithNaN F → Prop
  | .num x, .num y => x < y
  | .num _, .nan => False
  | .nan, _ => False

instance WithNaN.instLT : LT (WithNaN F) := ⟨WithNaN.lt⟩

instance WithNaN.instDecidableLT : ∀ a b : WithNaN F, Decidable (a < b)
  | .num x, .num y => inferInstanceAs (Decidable (x < y))
  | .num _, .nan => isFalse (fun h => h)
  | .nan, _ => isFalse (fun h => h)

instance WithNaN.instZero : Zero (WithNaN F) := ⟨.num 0⟩

instance WithNaN.instOne : One (WithNaN F) := ⟨.num 1⟩

/-- The difference `a - b` of two `float` values; NaN when one of them is NaN. -/
def WithNaN.sub : WithNaN F → WithNaN F → WithNaN F
  | .num x, .num y => .num (x - y)
  | .num _, .nan => .nan
  | .nan, _ => .nan

instance WithNaN.instSub : Sub (WithNaN F) := ⟨WithNaN.sub⟩

/-- Whether a `float` value is a number, that is, not NaN. -/
def WithNaN.isNum : WithNaN F → Bool
  | .num _ => true
  | .nan => false

/-- Modelled from the spec: `operator<` of `babylon_vector2` is declared in a header
that is not among the sources; the spec says each vector field is compared
lexicographically over its components. -/
def babylon_vector2.lt (lhs rhs : babylon_vector2 F) : Bool :=
  if lhs.x < rhs.x then true
  else if rhs.x < lhs.x then false
  else decide (lhs.y < rhs.y)

/-- Modelled from the spec: `operator<` of `babylon_vector3` is declared in a header
that is not among the sources; the spec says each vector field is compared
lexicographically over its components. -/
def babylon_vector3.lt (lhs rhs : babylon_vector3 F) : Bool :=
  if lhs.x < rhs.x then true
  else if rhs.x < lhs.x then false
  else if lhs.y < rhs.y then true
  else if rhs.y < lhs.y then false
  else decide (lhs.z < rhs.z)

/-- Modelled from the spec: `operator<` of `babylon_color` is declared in a header
that is not among the sources; the spec says each colour field is compared
lexicographically over its components. -/
def babylon_color.lt (lhs rhs : babylon_color F) : Bool :=
  if lhs.r < rhs.r then true
  else if rhs.r < lhs.r then false
  else if lhs.g < rhs.g then true
  else if rhs.g < lhs.g then false
  else if lhs.b < rhs.b then true
  else if rhs.b < lhs.b then false
  else decide (lhs.a < rhs.a)

/-! ## `BabylonVertex` and `triangle` (lines 9-144) -/

/-- The vertex key (`struct BabylonVertex`, lines 9-29). -/
structure BabylonVertex (F : Type) where
  position : babylon_vector3 F
  normal : babylon_vector3 F
  uv : babylon_vector2 F
  uv2 : babylon_vector2 F
  color : babylon_color F
  boneIndices : Array4 Nat
  boneWeights : Array4 F
deriving DecidableEq, Repr

/-- An index triple (`struct triangle`, lines 31-33); `i0` is `indices[0]`. -/
structure triangle where
  i0 : Nat
  i1 : Nat
  i2 : Nat
deriving DecidableEq, Repr

/-- Comparison of index triples (`operator<(const triangle&, const triangle&)`,
lines 34-49). -/
def triangle.lt (lhs rhs : triangle) : Bool :=
  if lhs.i0 < rhs.i0 then true
  else if rhs.i0 < lhs.i0 then false
  else if lhs.i1 < rhs.i1 then true
  else if rhs.i1 < lhs.i1 then false
  else decide (lhs.i2 < rhs.i2)

/-- Comparison of vertex keys (`operator<(const BabylonVertex&, const BabylonVertex&)`,
lines 51-144). -/
def BabylonVertex.lt (lhs rhs : BabylonVertex F) : Bool :=
  if lhs.position.lt rhs.position then true
  else if rhs.position.lt lhs.position then false
  else if lhs.normal.lt rhs.normal then true
  else if rhs.normal.lt lhs.normal then false
  else if lhs.uv.lt rhs.uv then true
  else if rhs.uv.lt lhs.uv then false
  else if lhs.uv2.lt rhs.uv2 then true
  else if rhs.uv2.lt lhs.uv2 then false
  else if lhs.color.lt rhs.color then true
  else if rhs.color.lt lhs.color then false
  else if lhs.boneIndices.e0 < rhs.boneIndices.e0 then true
  else if rhs.boneIndices.e0 < lhs.boneIndices.e0 then false
  else if lhs.boneIndices.e1 < rhs.boneIndices.e1 then true
  else if rhs.boneIndices.e1 < lhs.boneIndices.e1 then false
  else if lhs.boneIndices.e2 < rhs.boneIndices.e2 then true
  else if rhs.boneIndices.e2 < lhs.boneIndices.e2 then false
  else if lhs.boneIndices.e3 < rhs.boneIndices.e3 then true
  else if rhs.boneIndices.e3 < lhs.boneIndices.e3 then false
  else if lhs.boneWeights.e0 < rhs.boneWeights.e0 then true
  else if rhs.boneWeights.e0 < lhs.boneWeights.e0 then false
  else if lhs.boneWeights.e1 < rhs.boneWeights.e1 then true
  else if rhs.boneWeights.e1 < lhs.boneWeights.e1 then false
  else if lhs.boneWeights.e2 < rhs.boneWeights.e2 then true
  else if rhs.boneWeights.e2 < lhs.boneWeights.e2 then false
  else if lhs.boneWeights.e3 < rhs.boneWeights.e3 then true
  else if rhs.boneWeights.e3 < lhs.boneWeights.e3 then false
  else false

/-! ## Ordered containers -/

/-- Equivalence of two keys under a comparison: neither is less than the other. This
is the relation with which `std::map` and `std::set` identify keys. -/
def keyEquiv {α : Type} (lt : α → α → Bool) (a b : α) : Bool :=
  !lt a b && !lt b a

/-- Lookup in a `std::map` (`find`): the value stored under the key equivalent to `k`,
or `none` for `end()`. -/
def stdMapFind {α β : Type} (lt : α → α → Bool) : List (α × β) → α → Option β
  | [], _ => none
  | (key, value) :: rest, k =>
    if keyEquiv lt key k then some value else stdMapFind lt rest k

/-- Assignment through `operator[]` of a `std::map` (`m[k] = value`): overwrites the
value of the equivalent key when there is one, inserts a new entry otherwise. -/
def stdMapAssign {α β : Type} (lt : α → α → Bool) : List (α × β) → α → β → List (α × β)
  | [], k, value => [(k, value)]
  | (key, old) :: rest, k, value =>
    if keyEquiv lt key k then (key, value) :: rest
    else (key, old) :: stdMapAssign lt rest k value

/-- Insertion into a `std::set` (`insert(k)`): the set afterwards and the `.second` of
the returned pair, which is `true` exactly when the element was inserted. -/
def stdSetInsert {α : Type} (lt : α → α → Bool) (s : List α) (k : α) : List α × Bool :=
  if s.any (fun key => keyEquiv lt key k) then (s, false) else (s ++ [k], true)

/-! ## `SubmeshData` and the polygon pass (lines 147-152, 516-606) -/

/-- Per-material accumulation state (`struct SubmeshData`, lines 147-152). -/
structure SubmeshData (F : Type) where
  knownVertices : List (BabylonVertex F × Nat)
  knownTriangles : List triangle
  vertices : List (BabylonVertex F)
  indices : List Nat

/-- A default-constructed `SubmeshData`, as created by `submeshes.resize`. -/
def SubmeshData.empty : SubmeshData F :=
  { knownVertices := [], knownTriangles := [], vertices := [], indices := [] }

/-- The welding step (lines 584-595): look the key up in `knownVertices`; when found
return the stored index, otherwise append the key to `vertices`, record it under the
old size of `vertices` and return that size. The result is the submesh afterwards and
the value stored in `t.indices[cornerIndex]`. -/
def weld (submesh : SubmeshData F) (v : BabylonVertex F) : SubmeshData F × Nat :=
  match stdMapFind BabylonVertex.lt submesh.knownVertices v with
  | some second => (submesh, second)
  | none =>
    let index := submesh.vertices.length
    ({ submesh with
        vertices := submesh.vertices ++ [v]
        knownVertices := stdMapAssign BabylonVertex.lt submesh.knownVertices v (u32 index) },
     u32 index)

/-- The corner loop of one polygon (lines 532-596) once the three keys are built: the
corners are welded in the order 0, 1, 2 and their indices fill the triangle `t`. -/
def weldCorners (submesh : SubmeshData F) (v0 v1 v2 : BabylonVertex F) :
    SubmeshData F × triangle :=
  let r0 := weld submesh v0
  let r1 := weld r0.1 v1
  let r2 := weld r1.1 v2
  (r2.1, { i0 := r0.2, i1 := r1.2, i2 := r2.2 })

/-- The triangle de-duplication step (lines 597-604): `knownTriangles.insert(t)`, and
the three indices are appended to `indices` only when the insertion took place. -/
def insertTriangle (submesh : SubmeshData F) (t : triangle) : SubmeshData F :=
  let r := stdSetInsert triangle.lt submesh.knownTriangles t
  if r.2 then
    { submesh with knownTriangles := r.1, indices := submesh.indices ++ [t.i0, t.i1, t.i2] }
  else
    { submesh with knownTriangles := r.1 }

/-- One skin influence of a control point (an element of
`skinInfo.controlPointBoneIndicesAndWeights(controlPointIndex)`). -/
structure BoneIndexAndWeight (F : Type) where
  index : Nat
  weight : F
deriving DecidableEq, Repr

/-- What the scene reader delivers for one polygon corner: the values the source
stores into `v.position`, `v.normal`, `v.color`, `v.uv` and `v.uv2` (lines 535-571,
after mapping-mode resolution and the sign change of `z`), and the skin influences of
the corner's control point. -/
structure SourceCorner (F : Type) where
  position : babylon_vector3 F
  normal : babylon_vector3 F
  uv : babylon_vector2 F
  uv2 : babylon_vector2 F
  color : babylon_color F
  skinData : List (BoneIndexAndWeight F)
deriving DecidableEq, Repr

/-- A polygon of the triangulated source mesh: its three corners in corner order. -/
structure SourceTriangle (F : Type) where
  corner0 : SourceCorner F
  corner1 : SourceCorner F
  corner2 : SourceCorner F
deriving DecidableEq, Repr

/-- The mapping modes of an FBX layer element (`FbxLayerElement::EMappingMode`). -/
inductive EMappingMode where
  | eNone
  | eByControlPoint
  | eByPolygonVertex
  | eByPolygon
  | eByEdge
  | eAllSame
deriving DecidableEq, Repr

/-- The material layer element (`baseLayer->GetMaterials()`): its mapping mode and its
index array, read through `GetIndexArray().GetAt`. -/
structure MaterialElement where
  mappingMode : EMappingMode
  indexArray : Nat → Int

/-- The source mesh as the conversion reads it from line 497 on: the material count
of the node, the material layer element (`none` for a null pointer), the presence of
the normal, colour and UV layer elements, the skin (`skinInfo.hasSkin()`,
`skinInfo.bonesCount()`), and the polygons in polygon order. -/
structure SourceMesh (F : Type) where
  materialCount : Nat
  materials : Option MaterialElement
  normals : Bool
  colors : Bool
  uvs : Bool
  uvs2 : Bool
  hasSkin : Bool
  bonesCount : Nat
  triangles : List (SourceTriangle F)

/-- Slot `boneix` of the bone indices of a corner (lines 574-582): the supplied index
when the control point has more than `boneix` influences, the bone count otherwise. -/
def boneIndexSlot (bonesCount : Nat) (skinData : List (BoneIndexAndWeight F)) (boneix : Nat) :
    Nat :=
  match skinData[boneix]? with
  | some p => u32 p.index
  | none => u32 bonesCount

/-- Slot `boneix` of the bone weights of a corner (lines 574-582): the supplied weight
when the control point has more than `boneix` influences, zero otherwise. -/
def boneWeightSlot (skinData : List (BoneIndexAndWeight F)) (boneix : Nat) : F :=
  match skinData[boneix]? with
  | some p => p.weight
  | none => 0

/-- The vertex key of a corner (lines 538-583): the resolved attributes, and the four
bone slots, which the constructor of `BabylonVertex` sets to zero (lines 18-28) and
which are filled from the skin only when the mesh has one. -/
def makeVertex (src : SourceMesh F) (c : SourceCorner F) : BabylonVertex F :=
  { position := c.position
    normal := c.normal
    uv := c.uv
    uv2 := c.uv2
    color := c.color
    boneIndices :=
      if src.hasSkin then
        { e0 := boneIndexSlot src.bonesCount c.skinData 0
          e1 := boneIndexSlot src.bonesCount c.skinData 1
          e2 := boneIndexSlot src.bonesCount c.skinData 2
          e3 := boneIndexSlot src.bonesCount c.skinData 3 }
      else { e0 := 0, e1 := 0, e2 := 0, e3 := 0 }
    boneWeights :=
      if src.hasSkin then
        { e0 := boneWeightSlot c.skinData 0
          e1 := boneWeightSlot c.skinData 1
          e2 := boneWeightSlot c.skinData 2
          e3 := boneWeightSlot c.skinData 3 }
      else { e0 := 0, e1 := 0, e2 := 0, e3 := 0 } }

/-- The body of the polygon loop for one submesh (lines 531-604): weld the three
corners, then de-duplicate the triangle. -/
def addTriangle (src : SourceMesh F) (submesh : SubmeshData F) (tri : SourceTriangle F) :
    SubmeshData F :=
  let r := weldCorners submesh (makeVertex src tri.corner0) (makeVertex src tri.corner1)
    (makeVertex src tri.corner2)
  insertTriangle r.1 r.2

/-- The number of submeshes (lines 499-503): the material count of the node, or one
when the node declares no material. -/
def submeshCount (src : SourceMesh F) : Nat :=
  if src.materialCount = 0 then 1 else src.materialCount

/-- The material slot of polygon `triangleIndex` (lines 519-528). -/
def materialIndexOf (src : SourceMesh F) (triangleIndex : Nat) : Int :=
  match src.materials with
  | some materials =>
    if submeshCount src > 0 then
      match materials.mappingMode with
      | .eAllSame => materials.indexArray 0
      | .eByPolygon => materials.indexArray triangleIndex
      | _ => 0
    else 0
  | none => 0

/-- One iteration of the polygon loop (lines 517-606): route the polygon to
`submeshes[materialIndex]` and process it there. The result is `none` when
`materialIndex` is not an index of `submeshes`. -/
def polygonStep (src : SourceMesh F) (submeshes : List (SubmeshData F)) (triangleIndex : Nat)
    (tri : SourceTriangle F) : Option (List (SubmeshData F)) :=
  let materialIndex := materialIndexOf src triangleIndex
  if 0 ≤ materialIndex then
    match submeshes[materialIndex.toNat]? with
    | some submesh => some (submeshes.set materialIndex.toNat (addTriangle src submesh tri))
    | none => none
  else none

/-- The polygon loop (lines 516-606) from polygon `triangleIndex` on, over the
polygons that are left. -/
def polygonLoop (src : SourceMesh F) :
    Nat → List (SourceTriangle F) → List (SubmeshData F) → Option (List (SubmeshData F))
  | _, [], submeshes => some submeshes
  | triangleIndex, tri :: rest, submeshes =>
    match polygonStep src submeshes triangleIndex tri with
    | some submeshes1 => polygonLoop src (triangleIndex + 1) rest submeshes1
    | none => none

/-- The polygon pass (lines 497-606): one empty `SubmeshData` per slot, then the
polygon loop over all polygons. -/
def polygonPass (src : SourceMesh F) : Option (List (SubmeshData F)) :=
  polygonLoop src 0 src.triangles (List.replicate (submeshCount src) SubmeshData.empty)

/-! ## The flattened mesh and the flatten loop (lines 607-650) -/

/-- A submesh descriptor (`BabylonSubmesh`). Its declaration is in a header that is
not among the sources; the five fields are the ones the source assigns and serialises,
taken as natural numbers. -/
structure BabylonSubmesh where
  materialIndex : Nat
  verticesStart : Nat
  verticesCount : Nat
  indexStart : Nat
  indexCount : Nat
deriving DecidableEq, Repr

/-- The output arrays of `BabylonMesh` (`_positions`, `_normals`, `_uvs`, `_uvs2`,
`_colors`, `_indices`, `_boneIndices`, `_boneWeights`, `_submeshes`). -/
structure BabylonMesh (F : Type) where
  positions : List (babylon_vector3 F)
  normals : List (babylon_vector3 F)
  uvs : List (babylon_vector2 F)
  uvs2 : List (babylon_vector2 F)
  colors : List (babylon_color F)
  indices : List Nat
  boneIndices : List Nat
  boneWeights : List (babylon_vector4 F)
  submeshes : List BabylonSubmesh
deriving DecidableEq, Repr

/-- The arrays of a freshly constructed `BabylonMesh`: all empty. -/
def BabylonMesh.empty : BabylonMesh F :=
  { positions := [], normals := [], uvs := [], uvs2 := [], colors := [], indices := [],
    boneIndices := [], boneWeights := [], submeshes := [] }

/-- The packed bone weights of a vertex (lines 632-634, 640). -/
def packBoneWeights (v : BabylonVertex F) : babylon_vector4 F :=
  let weight0 := v.boneWeights.e0
  let weight1 := v.boneWeights.e1
  let weight2 := v.boneWeights.e2
  { x := weight0, y := weight1, z := weight2, w := 1 - weight0 - weight1 - weight2 }

/-- The packed bone indices of a vertex (lines 635-638, 641), stored as a
`std::uint32_t`. -/
def packBoneIndices (v : BabylonVertex F) : Nat :=
  let bone0 := v.boneIndices.e0
  let bone1 := v.boneIndices.e1
  let bone2 := v.boneIndices.e2
  let bone3 := v.boneIndices.e3
  u32 ((bone3 <<< 24) ||| (bone2 <<< 16) ||| (bone1 <<< 8) ||| bone0)

/-- The body of the vertex loop of the flatten step (lines 618-642). -/
def pushVertex (src : SourceMesh F) (mesh : BabylonMesh F) (v : BabylonVertex F) :
    BabylonMesh F :=
  { mesh with
    positions := mesh.positions ++ [v.position]
    normals := if src.normals then mesh.normals ++ [v.normal] else mesh.normals
    colors := if src.colors then mesh.colors ++ [v.color] else mesh.colors
    uvs := if src.uvs then mesh.uvs ++ [v.uv] else mesh.uvs
    uvs2 := if src.uvs2 then mesh.uvs2 ++ [v.uv2] else mesh.uvs2
    boneWeights :=
      if src.hasSkin then mesh.boneWeights ++ [packBoneWeights v] else mesh.boneWeights
    boneIndices :=
      if src.hasSkin then mesh.boneIndices ++ [packBoneIndices v] else mesh.boneIndices }

/-- One iteration of the flatten loop (lines 610-649) for submesh `matIndex`; the
state is the mesh built so far and `vertexOffset`. -/
def flattenStep (src : SourceMesh F) (state : BabylonMesh F × Nat) (matIndex : Nat)
    (submesh : SubmeshData F) : BabylonMesh F × Nat :=
  let mesh := state.1
  let vertexOffset := state.2
  let babsubmesh : BabylonSubmesh :=
    { indexCount := submesh.indices.length
      indexStart := mesh.indices.length
      materialIndex := matIndex
      verticesCount := submesh.vertices.length
      verticesStart := mesh.positions.length }
  let mesh1 := submesh.vertices.foldl (pushVertex src) mesh
  let mesh2 : BabylonMesh F :=
    { mesh1 with indices := mesh1.indices ++ submesh.indices.map (fun i => u32 (i + vertexOffset)) }
  ({ mesh2 with submeshes := mesh2.submeshes ++ [babsubmesh] }, u32 mesh2.positions.length)

/-- The flatten loop (lines 607-650) from submesh `matIndex` on, over the submeshes
that are left. -/
def flattenLoop (src : SourceMesh F) :
    Nat → List (SubmeshData F) → BabylonMesh F × Nat → BabylonMesh F × Nat
  | _, [], state => state
  | matIndex, submesh :: rest, state =>
    flattenLoop src (matIndex + 1) rest (flattenStep src state matIndex submesh)

/-- The flatten step (lines 607-650): `vertexOffset` starts at zero and the arrays of
the mesh start empty. -/
def flatten (src : SourceMesh F) (submeshes : List (SubmeshData F)) : BabylonMesh F :=
  (flattenLoop src 0 submeshes (BabylonMesh.empty, 0)).1

/-- The conversion (lines 497-650): the polygon pass followed by the flatten step.
The result is `none` when a polygon is routed to a slot that does not exist. -/
def convert (src : SourceMesh F) : Option (BabylonMesh F) :=
  match polygonPass src with
  | some submeshes => some (flatten src submeshes)
  | none => none


/-! ## Observations of a submesh and reference functions -/

/-- The three indices of a triangle as the source appends them to `indices`. -/
def triangle.toList (t : triangle) : List Nat := [t.i0, t.i1, t.i2]

/-- The same three indices in rotated order `(i1, i2, i0)`. -/
def triangle.rotate (t : triangle) : triangle := { i0 := t.i1, i1 := t.i2, i2 := t.i0 }

/-- An index list read back as ordered triples, three entries at a time. -/
def indexTriples : List Nat → List triangle
  | a :: b :: c :: rest => { i0 := a, i1 := b, i2 := c } :: indexTriples rest
  | _ => []

/-- The vertex keys of the three corners of a polygon, in corner order. -/
def triangleKeys (src : SourceMesh F) (tri : SourceTriangle F) : List (BabylonVertex F) :=
  [makeVertex src tri.corner0, makeVertex src tri.corner1, makeVertex src tri.corner2]

/-- The vertex keys of all corners of a polygon sequence, in processing order. -/
def cornerKeys (src : SourceMesh F) (tris : List (SourceTriangle F)) : List (BabylonVertex F) :=
  tris.flatMap (triangleKeys src)

/-- A submesh after it has processed a sequence of polygons (the polygon loop body
iterated on one `SubmeshData`). -/
def processTriangles (src : SourceMesh F) (submesh : SubmeshData F)
    (tris : List (SourceTriangle F)) : SubmeshData F :=
  tris.foldl (addTriangle src) submesh

/-- The triangles `t` that the corner loop fills while a submesh processes a sequence
of polygons, one per polygon, in processing order. -/
def weldedTriangles (src : SourceMesh F) :
    SubmeshData F → List (SourceTriangle F) → List triangle
  | _, [] => []
  | submesh, tri :: rest =>
    (weldCorners submesh (makeVertex src tri.corner0) (makeVertex src tri.corner1)
        (makeVertex src tri.corner2)).2 ::
      weldedTriangles src (addTriangle src submesh tri) rest

/-- The index the welding step returns for each corner while a submesh processes a
sequence of polygons, in processing order. -/
def cornerIndices (src : SourceMesh F) (submesh : SubmeshData F)
    (tris : List (SourceTriangle F)) : List Nat :=
  (weldedTriangles src submesh tris).flatMap triangle.toList

/-- A submesh after a sequence of index triples has been fed to its triangle
de-duplication step. -/
def feedTriangles (submesh : SubmeshData F) (ts : List triangle) : SubmeshData F :=
  ts.foldl insertTriangle submesh

/-- Whether the de-duplication step accepts `t` in the given state: the `.second` of
`knownTriangles.insert(t)` (line 597). -/
def accepts (submesh : SubmeshData F) (t : triangle) : Bool :=
  (stdSetInsert triangle.lt submesh.knownTriangles t).2

/-- The distinct elements of a list in order of first occurrence: every later repeat
of an earlier element is removed. -/
def firstOccurrences {α : Type} [DecidableEq α] : List α → List α
  | [] => []
  | a :: l => a :: (firstOccurrences l).filter (fun b => b ≠ a)

/-- The ordered triple of the positions of a polygon's three keys in a vertex list. -/
def positionTriple (src : SourceMesh F) (vs : List (BabylonVertex F))
    (tri : SourceTriangle F) : triangle :=
  { i0 := vs.indexOf (makeVertex src tri.corner0)
    i1 := vs.indexOf (makeVertex src tri.corner1)
    i2 := vs.indexOf (makeVertex src tri.corner2) }

/-- The polygons routed to slot `m`, in polygon order, among the polygons from
polygon `triangleIndex` on. -/
def routedTo (src : SourceMesh F) (m : Nat) : Nat → List (SourceTriangle F) →
    List (SourceTriangle F)
  | _, [] => []
  | triangleIndex, tri :: rest =>
    if materialIndexOf src triangleIndex = (m : Int) then
      tri :: routedTo src m (triangleIndex + 1) rest
    else routedTo src m (triangleIndex + 1) rest

/-- The triples the de-duplication step accepts when a sequence of index triples is
fed to a submesh, in feeding order. -/
def acceptedTriangles : SubmeshData F → List triangle → List triangle
  | _, [] => []
  | submesh, t :: rest =>
    if accepts submesh t then t :: acceptedTriangles (insertTriangle submesh t) rest
    else acceptedTriangles (insertTriangle submesh t) rest

/-! ## Sample inputs -/

/-- A corner at `(x, 0, 0)` with a fixed normal and colour and no skin influence. -/
def sampleCorner (x : Int) : SourceCorner Int :=
  { position := { x := x, y := 0, z := 0 }
    normal := { x := 0, y := 0, z := 1 }
    uv := { x := 0, y := 0 }
    uv2 := { x := 0, y := 0 }
    color := { r := 1, g := 1, b := 1, a := 1 }
    skinData := [] }

/-- A polygon with corners at `(a, 0, 0)`, `(b, 0, 0)` and `(c, 0, 0)`. -/
def sampleTriangle (a b c : Int) : SourceTriangle Int :=
  { corner0 := sampleCorner a, corner1 := sampleCorner b, corner2 := sampleCorner c }

/-- A mesh with two material slots and four polygons; polygon 1 is routed to slot 1,
the others to slot 0, and polygon 2 repeats polygon 0. -/
def sampleMesh : SourceMesh Int :=
  { materialCount := 2
    materials := some { mappingMode := .eByPolygon, indexArray := fun i => if i = 1 then 1 else 0 }
    normals := true
    colors := false
    uvs := false
    uvs2 := false
    hasSkin := false
    bonesCount := 0
    triangles := [sampleTriangle 0 1 2, sampleTriangle 0 1 3, sampleTriangle 0 1 2,
      sampleTriangle 2 1 0] }

/-- The total number of vertices of a list of submeshes. -/
def vertexTotal : List (SubmeshData F) → Nat
  | [] => 0
  | s :: rest => s.vertices.length + vertexTotal rest

/-- The total number of local indices of a list of submeshes. -/
def indexTotal : List (SubmeshData F) → Nat
  | [] => 0
  | s :: rest => s.indices.length + indexTotal rest

/-- The descriptors the flatten loop records for the submeshes from slot `k` on, when
the global arrays already hold `vs` vertices and `is` indices. -/
def layout : Nat → Nat → Nat → List (SubmeshData F) → List BabylonSubmesh
  | _, _, _, [] => []
  | k, vs, is, s :: rest =>
    { materialIndex := k, verticesStart := vs, verticesCount := s.vertices.length,
      indexStart := is, indexCount := s.indices.length } ::
      layout (k + 1) (vs + s.vertices.length) (is + s.indices.length) rest

/-- The indices the flatten loop appends for a list of submeshes, when the global
position array already holds `vs` entries. -/
def globalIndices : Nat → List (SubmeshData F) → List Nat
  | _, [] => []
  | vs, s :: rest =>
    s.indices.map (fun i => u32 (i + u32 vs)) ++ globalIndices (vs + s.vertices.length) rest

/-- The positions the flatten loop appends for a list of submeshes. -/
def globalPositions : List (SubmeshData F) → List (babylon_vector3 F)
  | [] => []
  | s :: rest => s.vertices.map (fun v => v.position) ++ globalPositions rest

/-- The flattened mesh of `sampleMesh`: slot 0 holds the vertices at `0, 1, 2` and the
triangles `(0,1,2)` and `(2,1,0)`, slot 1 the vertices at `0, 1, 3` and one triangle. -/
def sampleOut : BabylonMesh Int :=
  { positions := [{ x := 0, y := 0, z := 0 }, { x := 1, y := 0, z := 0 },
      { x := 2, y := 0, z := 0 }, { x := 0, y := 0, z := 0 }, { x := 1, y := 0, z := 0 },
      { x := 3, y := 0, z := 0 }]
    normals := List.replicate 6 { x := 0, y := 0, z := 1 }
    uvs := []
    uvs2 := []
    colors := []
    indices := [0, 1, 2, 2, 1, 0, 3, 4, 5]
    boneIndices := []
    boneWeights := []
    submeshes :=
      [{ materialIndex := 0, verticesStart := 0, verticesCount := 3, indexStart := 0,
         indexCount := 6 },
       { materialIndex := 1, verticesStart := 3, verticesCount := 3, indexStart := 6,
         indexCount := 3 }] }

/-- The material slots used by the polygons of the source mesh, each once, in order of
first use. -/
def usedSlots (src : SourceMesh F) : List Int :=
  firstOccurrences ((List.range src.triangles.length).map (materialIndexOf src))

/-- The number of distinct material slots used by the polygons of the source mesh. -/
def distinctSlotsUsed (src : SourceMesh F) : Nat :=
  (usedSlots src).length

/-- A mesh that declares no material and has no material layer element, with two
polygons. -/
def sampleMeshNoMaterial : SourceMesh Int :=
  { materialCount := 0
    materials := none
    normals := true
    colors := false
    uvs := false
    uvs2 := false
    hasSkin := false
    bonesCount := 0
    triangles := [sampleTriangle 0 1 2, sampleTriangle 2 1 3] }

/-- A mesh that declares two materials while every polygon uses slot 0. -/
def sampleMeshUnusedSlot : SourceMesh Int :=
  { materialCount := 2
    materials := some { mappingMode := .eAllSame, indexArray := fun _ => 0 }
    normals := true
    colors := false
    uvs := false
    uvs2 := false
    hasSkin := false
    bonesCount := 0
    triangles := [sampleTriangle 0 1 2] }

/-- The values the flatten loop appends to one attribute array for a list of
submeshes, when the array is present: `f` of every vertex, submesh after submesh. -/
def globalAttribute {α : Type} (f : BabylonVertex F → α) : List (SubmeshData F) → List α
  | [] => []
  | s :: rest => s.vertices.map f ++ globalAttribute f rest

/-- Byte `k` of a packed word: `(word >> 8k) & 0xFF`. -/
def byteOf (word k : Nat) : Nat :=
  (word >>> (8 * k)) &&& 0xFF

/-- A corner at `(x, 0, 0)` whose control point has the given skin influences. -/
def skinnedCorner (x : Int) (skinData : List (BoneIndexAndWeight Int)) : SourceCorner Int :=
  { position := { x := x, y := 0, z := 0 }
    normal := { x := 0, y := 0, z := 1 }
    uv := { x := 0, y := 0 }
    uv2 := { x := 0, y := 0 }
    color := { r := 1, g := 1, b := 1, a := 1 }
    skinData := skinData }

/-- A skinned mesh with three bones and one polygon: the first corner has one
influence, the second has two, the third has five influences of weight 1 each. -/
def sampleMeshSkin : SourceMesh Int :=
  { materialCount := 1
    materials := none
    normals := true
    colors := false
    uvs := true
    uvs2 := false
    hasSkin := true
    bonesCount := 3
    triangles :=
      [{ corner0 := skinnedCorner 0 [{ index := 2, weight := 1 }]
         corner1 := skinnedCorner 1 [{ index := 0, weight := 1 }, { index := 1, weight := 0 }]
         corner2 := skinnedCorner 2
           [{ index := 0, weight := 1 }, { index := 1, weight := 1 }, { index := 2, weight := 1 },
            { index := 0, weight := 1 }, { index := 1, weight := 1 }] }] }

/-- A skinned mesh with 300 bones and one polygon whose first corner is bound to bone
256; every corner supplies four influences, so no slot holds the sentinel. -/
def sampleMeshWideBone : SourceMesh Int :=
  { materialCount := 1
    materials := none
    normals := true
    colors := false
    uvs := false
    uvs2 := false
    hasSkin := true
    bonesCount := 300
    triangles :=
      [{ corner0 := skinnedCorner 0
           [{ index := 256, weight := 1 }, { index := 0, weight := 0 },
            { index := 0, weight := 0 }, { index := 0, weight := 0 }]
         corner1 := skinnedCorner 1
           [{ index := 0, weight := 1 }, { index := 0, weight := 0 },
            { index := 0, weight := 0 }, { index := 0, weight := 0 }]
         corner2 := skinnedCorner 2
           [{ index := 0, weight := 1 }, { index := 0, weight := 0 },
            { index := 0, weight := 0 }, { index := 0, weight := 0 }] }] }

/-- The lexicographic strict order on vertex keys over the field sequence position,
normal, uv, uv2, color, `boneIndices[0..3]`, `boneWeights[0..3]`: the first field in
which the keys differ decides, by that field's own `<`. -/
def BabylonVertex.lexLt (a b : BabylonVertex F) : Prop :=
  a.position.lt b.position = true ∨ (a.position = b.position ∧
  (a.normal.lt b.normal = true ∨ (a.normal = b.normal ∧
  (a.uv.lt b.uv = true ∨ (a.uv = b.uv ∧
  (a.uv2.lt b.uv2 = true ∨ (a.uv2 = b.uv2 ∧
  (a.color.lt b.color = true ∨ (a.color = b.color ∧
  (a.boneIndices.e0 < b.boneIndices.e0 ∨ (a.boneIndices.e0 = b.boneIndices.e0 ∧
  (a.boneIndices.e1 < b.boneIndices.e1 ∨ (a.boneIndices.e1 = b.boneIndices.e1 ∧
  (a.boneIndices.e2 < b.boneIndices.e2 ∨ (a.boneIndices.e2 = b.boneIndices.e2 ∧
  (a.boneIndices.e3 < b.boneIndices.e3 ∨ (a.boneIndices.e3 = b.boneIndices.e3 ∧
  (a.boneWeights.e0 < b.boneWeights.e0 ∨ (a.boneWeights.e0 = b.boneWeights.e0 ∧
  (a.boneWeights.e1 < b.boneWeights.e1 ∨ (a.boneWeights.e1 = b.boneWeights.e1 ∧
  (a.boneWeights.e2 < b.boneWeights.e2 ∨ (a.boneWeights.e2 = b.boneWeights.e2 ∧
  a.boneWeights.e3 < b.boneWeights.e3)))))))))))))))))))))))

/-- A comparison chain: compare the values of `p` with `lt`, and fall through to the
comparison `rest` when neither is less than the other. -/
def lexThen {T α : Type} (lt : α → α → Bool) (p : T → α) (rest : T → T → Bool) :
    T → T → Bool :=
  fun a b => if lt (p a) (p b) then true else if lt (p b) (p a) then false else rest a b

/-- The comparison `<` of a linearly ordered type as a Boolean function. -/
def ltB {α : Type} [LinearOrder α] (a b : α) : Bool := decide (a < b)

/-- A Boolean comparison is a strict total order. -/
structure StrictTotalB {α : Type} (lt : α → α → Bool) : Prop where
  irrefl : ∀ a, lt a a = false
  trans : ∀ a b c, lt a b = true → lt b c = true → lt a c = true
  tri : ∀ a b, lt a b = true ∨ a = b ∨ lt b a = true

/-- A Boolean comparison is irreflexive, transitive and total up to the relation `E`
(`E` is agreement on the fields the comparison looks at). -/
structure LexGood {T : Type} (R : T → T → Bool) (E : T → T → Prop) : Prop where
  irrefl : ∀ a, R a a = false
  trans : ∀ a b c, R a b = true → R b c = true → R a c = true
  tri : ∀ a b, R a b = true ∨ E a b ∨ R b a = true

/-- Element `[i]` of a four-element C array, for `i` in `0..3`. -/
def Array4.get {α : Type} (a : Array4 α) (i : Nat) : α :=
  match i with
  | 0 => a.e0
  | 1 => a.e1
  | 2 => a.e2
  | _ => a.e3

/-- What the flattened mesh stores at global vertex `g` for a source corner: the
position; the normal, UV, second UV and colour of the corner in the arrays that are
present; and, when the mesh has a skin, the packed weights and the packed index word of
the corner's four bone slots. -/
def storedAt (src : SourceMesh F) (out : BabylonMesh F) (g : Nat) (c : SourceCorner F) : Prop :=
  out.positions[g]? = some c.position ∧
  (src.normals = true → out.normals[g]? = some c.normal) ∧
  (src.uvs = true → out.uvs[g]? = some c.uv) ∧
  (src.uvs2 = true → out.uvs2[g]? = some c.uv2) ∧
  (src.colors = true → out.colors[g]? = some c.color) ∧
  (src.hasSkin = true →
    out.boneWeights[g]? = some (packBoneWeights (makeVertex src c)) ∧
    out.boneIndices[g]? = some (packBoneIndices (makeVertex src c)))

/-- A triple with every index raised by `vs`: the re-based form of a local triple. -/
def triangle.shift (vs : Nat) (t : triangle) : triangle :=
  { i0 := t.i0 + vs, i1 := t.i1 + vs, i2 := t.i2 + vs }

/-- The re-based triples of a list of submeshes, submesh after submesh, when the
global position array already holds `vs` entries. -/
def globalTriangles : Nat → List (SubmeshData F) → List triangle
  | _, [] => []
  | vs, s :: rest =>
    (indexTriples s.indices).map (triangle.shift vs) ++
      globalTriangles (vs + s.vertices.length) rest

/-- The index list of a submesh is made of distinct ordered triples whose indices are
positions of its vertex buffer. -/
structure SubmeshOk (s : SubmeshData F) : Prop where
  triples : s.indices = (indexTriples s.indices).flatMap triangle.toList
  nodup : (indexTriples s.indices).Nodup
  bound : ∀ i ∈ s.indices, i < s.vertices.length

/-- No component of the vector is NaN. -/
def babylon_vector2.noNaN (v : babylon_vector2 (WithNaN F)) : Bool :=
  v.x.isNum && v.y.isNum

/-- No component of the vector is NaN. -/
def babylon_vector3.noNaN (v : babylon_vector3 (WithNaN F)) : Bool :=
  v.x.isNum && v.y.isNum && v.z.isNum

/-- No component of the colour is NaN. -/
def babylon_color.noNaN (c : babylon_color (WithNaN F)) : Bool :=
  c.r.isNum && c.g.isNum && c.b.isNum && c.a.isNum

/-- No `float` component of the vertex key is NaN: position, normal, both UV sets,
colour and the four bone weights. -/
def BabylonVertex.noNaN (v : BabylonVertex (WithNaN F)) : Bool :=
  v.position.noNaN && v.normal.noNaN && v.uv.noNaN && v.uv2.noNaN && v.color.noNaN &&
    v.boneWeights.e0.isNum && v.boneWeights.e1.isNum && v.boneWeights.e2.isNum &&
    v.boneWeights.e3.isNum

/-- A corner at `(x, 0, 0)`, where `x` is any `float` value, with a fixed normal and
colour and no skin influence. -/
def floatCorner (x : WithNaN Int) : SourceCorner (WithNaN Int) :=
  { position := { x := x, y := .num 0, z := .num 0 }
    normal := { x := .num 0, y := .num 0, z := .num 1 }
    uv := { x := .num 0, y := .num 0 }
    uv2 := { x := .num 0, y := .num 0 }
    color := { r := .num 1, g := .num 1, b := .num 1, a := .num 1 }
    skinData := [] }

/-- A polygon with corners at `(a, 0, 0)`, `(b, 0, 0)` and `(c, 0, 0)`. -/
def floatTriangle (a b c : WithNaN Int) : SourceTriangle (WithNaN Int) :=
  { corner0 := floatCorner a, corner1 := floatCorner b, corner2 := floatCorner c }

/-- A mesh without material element and one polygon, with corners at `(NaN, 0, 0)`,
`(5, 0, 0)` and `(7, 0, 0)`. -/
def sampleMeshNaN : SourceMesh (WithNaN Int) :=
  { materialCount := 1
    materials := none
    normals := true
    colors := false
    uvs := false
    uvs2 := false
    hasSkin := false
    bonesCount := 0
    triangles := [floatTriangle .nan (.num 5) (.num 7)] }

/-- The mesh `sampleMesh` with `float` components, none of them NaN: two material
slots and four polygons; polygon 1 is routed to slot 1, the others to slot 0, and
polygon 2 repeats polygon 0. -/
def sampleMeshNumbers : SourceMesh (WithNaN Int) :=
  { materialCount := 2
    materials := some { mappingMode := .eByPolygon, indexArray := fun i => if i = 1 then 1 else 0 }
    normals := true
    colors := false
    uvs := false
    uvs2 := false
    hasSkin := false
    bonesCount := 0
    triangles := [floatTriangle (.num 0) (.num 1) (.num 2),
      floatTriangle (.num 0) (.num 1) (.num 3), floatTriangle (.num 0) (.num 1) (.num 2),
      floatTriangle (.num 2) (.num 1) (.num 0)] }

/-- The vertex key of the corner at `(x, 0, 0)` in `sampleMeshNaN`. -/
def floatKey (x : WithNaN Int) : BabylonVertex (WithNaN Int) :=
  makeVertex sampleMeshNaN (floatCorner x)

/-- The submesh after welding the key at `(NaN, 0, 0)` into the empty submesh. -/
def submeshWithNaN : SubmeshData (WithNaN Int) :=
  (weld SubmeshData.empty (floatKey .nan)).1

/-- The submesh after welding the keys at `(0, 0, 0)` and `(1, 0, 0)` into the empty
submesh. -/
def submeshTwoKeys : SubmeshData (WithNaN Int) :=
  (weld (weld SubmeshData.empty (floatKey (.num 0))).1 (floatKey (.num 1))).1

/-- The flattened mesh of `sampleMeshNumbers`: slot 0 holds the vertices at `0, 1, 2`
and the triangles `(0,1,2)` and `(2,1,0)`, slot 1 the vertices at `0, 1, 3` and one
triangle. -/
def sampleOutNumbers : BabylonMesh (WithNaN Int) :=
  { positions := [{ x := .num 0, y := .num 0, z := .num 0 },
      { x := .num 1, y := .num 0, z := .num 0 }, { x := .num 2, y := .num 0, z := .num 0 },
      { x := .num 0, y := .num 0, z := .num 0 }, { x := .num 1, y := .num 0, z := .num 0 },
      { x := .num 3, y := .num 0, z := .num 0 }]
    normals := List.replicate 6 { x := .num 0, y := .num 0, z := .num 1 }
    uvs := []
    uvs2 := []
    colors := []
    indices := [0, 1, 2, 2, 1, 0, 3, 4, 5]
    boneIndices := []
    boneWeights := []
    submeshes :=
      [{ materialIndex := 0, verticesStart := 0, verticesCount := 3, indexStart := 0,
         indexCount := 6 },
       { materialIndex := 1, verticesStart := 3, verticesCount := 3, indexStart := 6,
         indexCount := 3 }] }

/-- A corner at `(0, 0, 0)` with one influence, of bone 0 with weight `w`, where `w` is
any `float` value. -/
def weightCorner (w : WithNaN Int) : SourceCorner (WithNaN Int) :=
  { position := { x := .num 0, y := .num 0, z := .num 0 }
    normal := { x := .num 0, y := .num 0, z := .num 1 }
    uv := { x := .num 0, y := .num 0 }
    uv2 := { x := .num 0, y := .num 0 }
    color := { r := .num 1, g := .num 1, b := .num 1, a := .num 1 }
    skinData := [{ index := 0, weight := w }] }

/-- A skinned mesh with one bone and one polygon whose corners differ in the weight of
their influence alone: NaN, 5 and 7. -/
def sampleMeshNaNWeight : SourceMesh (WithNaN Int) :=
  { materialCount := 1
    materials := none
    normals := true
    colors := false
    uvs := false
    uvs2 := false
    hasSkin := true
    bonesCount := 1
    triangles :=
      [{ corner0 := weightCorner .nan, corner1 := weightCorner (.num 5),
         corner2 := weightCorner (.num 7) }] }

/-- The vertex key of the corner with weight `w` in `sampleMeshNaNWeight`. -/
def weightKey (w : WithNaN Int) : BabylonVertex (WithNaN Int) :=
  makeVertex sampleMeshNaNWeight (weightCorner w)

/-- The submesh after welding the key with weight NaN into the empty submesh. -/
def submeshWithNaNWeight : SubmeshData (WithNaN Int) :=
  (weld SubmeshData.empty (weightKey .nan)).1

/-- A list paired with consecutive numbers from `n` on: the contents of
`knownVertices` when the keys of `vertices` were recorded one after the other. -/
def numberFrom {α : Type} : Nat → List α → List (α × Nat)
  | _, [] => []
  | n, a :: l => (a, n) :: numberFrom (n + 1) l

/-- The state of a submesh that has welded the keys `ks` and has been fed the
triples `ts`, written with the reference functions. -/
structure Tracks (submesh : SubmeshData F) (ks : List (BabylonVertex F))
    (ts : List triangle) : Prop where
  vertices : submesh.vertices = firstOccurrences ks
  knownVertices : submesh.knownVertices = numberFrom 0 (firstOccurrences ks)
  knownTriangles : submesh.knownTriangles = firstOccurrences ts
  indices : submesh.indices = (firstOccurrences ts).flatMap triangle.toList

end Definitions

variable {F : Type} [LinearOrderedRing F]

variable {G : Type} [LT G] [∀ a b : G, Decidable (a < b)] [DecidableEq G]
  [Zero G] [One G] [Sub G]

/-! ## Comparison operators -/

theorem lex_step_iff {α : Type} [LinearOrder α] (a b : α) (r s : Bool) :
    ((if a < b then true else if b < a then false else r) = false ∧
      (if b < a then true else if a < b then false else s) = false) ↔
    (a = b ∧ r = false ∧ s = false) := by
  rcases lt_trichotomy a b with h | h | h
  · have h2 : ¬ b < a := not_lt_of_lt h
    simp [h, h2, ne_of_lt h]
  · subst h
    simp
  · have h2 : ¬ a < b := not_lt_of_lt h
    simp [h, h2, ne_of_gt h]

theorem lex_last_iff {α : Type} [LinearOrder α] (a b : α) :
    (decide (a < b) = false ∧ decide (b < a) = false) ↔ a = b := by
  simp only [decide_eq_false_iff_not, not_lt]
  constructor
  · rintro ⟨h1, h2⟩
    exact le_antisymm h2 h1
  · rintro rfl
    exact ⟨le_refl _, le_refl _⟩

theorem lex_stepB_iff {α : Type} (lt : α → α → Bool)
    (hlt : ∀ a b, (lt a b = false ∧ lt b a = false) ↔ a = b) (a b : α) (r s : Bool) :
    ((if lt a b = true then true else if lt b a = true then false else r) = false ∧
      (if lt b a = true then true else if lt a b = true then false else s) = false) ↔
    (a = b ∧ r = false ∧ s = false) := by
  have h := hlt a b
  cases hab : lt a b <;> cases hba : lt b a <;> simp [hab, hba] at h ⊢
  · simp [h]
  · exact fun e => absurd e h
  · exact fun e => absurd e h
  · exact fun e => absurd e h

theorem babylon_vector2_lt_equiv (a b : babylon_vector2 F) :
    (a.lt b = false ∧ b.lt a = false) ↔ a = b := by
  unfold babylon_vector2.lt
  rw [lex_step_iff, lex_last_iff]
  cases a; cases b; simp

theorem babylon_vector3_lt_equiv (a b : babylon_vector3 F) :
    (a.lt b = false ∧ b.lt a = false) ↔ a = b := by
  unfold babylon_vector3.lt
  rw [lex_step_iff, lex_step_iff, lex_last_iff]
  cases a; cases b; simp

theorem babylon_color_lt_equiv (a b : babylon_color F) :
    (a.lt b = false ∧ b.lt a = false) ↔ a = b := by
  unfold babylon_color.lt
  rw [lex_step_iff, lex_step_iff, lex_step_iff, lex_last_iff]
  cases a; cases b; simp

theorem triangle_lt_equiv (a b : triangle) :
    (a.lt b = false ∧ b.lt a = false) ↔ a = b := by
  unfold triangle.lt
  rw [lex_step_iff, lex_step_iff, lex_last_iff]
  cases a; cases b; simp


theorem BabylonVertex_lt_equiv (a b : BabylonVertex F) :
    (a.lt b = false ∧ b.lt a = false) ↔ a = b := by
  unfold BabylonVertex.lt
  rw [lex_stepB_iff _ babylon_vector3_lt_equiv, lex_stepB_iff _ babylon_vector3_lt_equiv,
    lex_stepB_iff _ babylon_vector2_lt_equiv, lex_stepB_iff _ babylon_vector2_lt_equiv,
    lex_stepB_iff _ babylon_color_lt_equiv, lex_step_iff, lex_step_iff, lex_step_iff,
    lex_step_iff, lex_step_iff, lex_step_iff, lex_step_iff, lex_step_iff]
  obtain ⟨p, n, u, u2, c, ⟨i0, i1, i2, i3⟩, ⟨w0, w1, w2, w3⟩⟩ := a
  obtain ⟨p', n', u', u2', c', ⟨j0, j1, j2, j3⟩, ⟨x0, x1, x2, x3⟩⟩ := b
  simp only [BabylonVertex.mk.injEq, Array4.mk.injEq, and_true, and_assoc]

theorem keyEquiv_vertex (a b : BabylonVertex F) :
    keyEquiv BabylonVertex.lt a b = decide (a = b) := by
  have h := BabylonVertex_lt_equiv a b
  unfold keyEquiv
  by_cases e : a = b
  · subst e
    have h2 := h.mpr rfl
    simp [h2.1]
  · have h3 : ¬ (a.lt b = false ∧ b.lt a = false) := fun hh => e (h.mp hh)
    cases hab : a.lt b <;> cases hba : b.lt a <;> simp_all

theorem keyEquiv_triangle (a b : triangle) :
    keyEquiv triangle.lt a b = decide (a = b) := by
  have h := triangle_lt_equiv a b
  unfold keyEquiv
  by_cases e : a = b
  · subst e
    have h2 := h.mpr rfl
    simp [h2.1]
  · have h3 : ¬ (a.lt b = false ∧ b.lt a = false) := fun hh => e (h.mp hh)
    cases hab : a.lt b <;> cases hba : b.lt a <;> simp_all


/-! ## Reference functions and containers -/

theorem u32_of_lt {n : Nat} (h : n < 2 ^ 32) : u32 n = n :=
  Nat.mod_eq_of_lt h

theorem mem_firstOccurrences {α : Type} [DecidableEq α] (a : α) (l : List α) :
    a ∈ firstOccurrences l ↔ a ∈ l := by
  induction l with
  | nil => simp [firstOccurrences]
  | cons b l ih =>
    simp only [firstOccurrences, List.mem_cons, List.mem_filter, ih]
    by_cases h : a = b
    · simp [h]
    · simp [h]

theorem firstOccurrences_snoc {α : Type} [DecidableEq α] (l : List α) (a : α) :
    firstOccurrences (l ++ [a]) =
      if a ∈ l then firstOccurrences l else firstOccurrences l ++ [a] := by
  induction l with
  | nil => simp [firstOccurrences]
  | cons b l ih =>
    rw [List.cons_append, firstOccurrences, ih, firstOccurrences]
    by_cases hab : a = b
    · subst hab
      by_cases hal : a ∈ l
      · simp [hal]
      · simp [hal, List.filter_append]
    · by_cases hal : a ∈ l
      · simp [hal]
      · simp [hal, hab, List.filter_append]

theorem nodup_firstOccurrences {α : Type} [DecidableEq α] (l : List α) :
    (firstOccurrences l).Nodup := by
  induction l with
  | nil => simp [firstOccurrences]
  | cons b l ih =>
    simp only [firstOccurrences, List.nodup_cons, List.mem_filter]
    refine ⟨by simp, ih.filter _⟩

theorem length_firstOccurrences_le {α : Type} [DecidableEq α] (l : List α) :
    (firstOccurrences l).length ≤ l.length := by
  induction l with
  | nil => simp [firstOccurrences]
  | cons b l ih =>
    simp only [firstOccurrences, List.length_cons]
    have := List.length_filter_le (fun c => decide (c ≠ b)) (firstOccurrences l)
    omega

theorem firstOccurrences_append_prefix {α : Type} [DecidableEq α] (l1 l2 : List α) :
    ∃ e, firstOccurrences (l1 ++ l2) = firstOccurrences l1 ++ e := by
  induction l2 using List.reverseRecOn with
  | nil => exact ⟨[], by simp⟩
  | append_singleton l2 a ih =>
    obtain ⟨e, he⟩ := ih
    rw [← List.append_assoc, firstOccurrences_snoc]
    split
    · exact ⟨e, he⟩
    · exact ⟨e ++ [a], by rw [he, List.append_assoc]⟩

theorem numberFrom_snoc {α : Type} (n : Nat) (l : List α) (a : α) :
    numberFrom n (l ++ [a]) = numberFrom n l ++ [(a, n + l.length)] := by
  induction l generalizing n with
  | nil => simp [numberFrom]
  | cons b l ih =>
    have e : n + 1 + l.length = n + (l.length + 1) := by omega
    simp [numberFrom, ih, e]

theorem stdMapFind_numberFrom (n : Nat) (vs : List (BabylonVertex F)) (k : BabylonVertex F) :
    stdMapFind BabylonVertex.lt (numberFrom n vs) k =
      if k ∈ vs then some (n + vs.indexOf k) else none := by
  induction vs generalizing n with
  | nil => simp [numberFrom, stdMapFind]
  | cons b l ih =>
    simp only [numberFrom, stdMapFind, keyEquiv_vertex, ih, List.mem_cons]
    by_cases hbk : b = k
    · subst hbk
      simp
    · have hkb : ¬ k = b := fun e => hbk e.symm
      simp only [hbk, decide_False, hkb, false_or, List.indexOf_cons_ne _ hbk]
      by_cases hkl : k ∈ l
      · simp [hkl]
        omega
      · simp [hkl]

theorem stdMapAssign_numberFrom (n : Nat) (vs : List (BabylonVertex F)) (k : BabylonVertex F)
    (i : Nat) (h : k ∉ vs) :
    stdMapAssign BabylonVertex.lt (numberFrom n vs) k i = numberFrom n vs ++ [(k, i)] := by
  induction vs generalizing n with
  | nil => simp [numberFrom, stdMapAssign]
  | cons b l ih =>
    simp only [List.mem_cons, not_or] at h
    have hbk : ¬ b = k := fun e => h.1 e.symm
    simp [numberFrom, stdMapAssign, keyEquiv_vertex, hbk, ih _ h.2]

theorem stdSetInsert_triangle (s : List triangle) (t : triangle) :
    stdSetInsert triangle.lt s t = if t ∈ s then (s, false) else (s ++ [t], true) := by
  unfold stdSetInsert
  have h : (s.any fun key => keyEquiv triangle.lt key t) = decide (t ∈ s) := by
    rw [Bool.eq_iff_iff]
    simp [List.any_eq_true, keyEquiv_triangle]
  rw [h]
  by_cases hm : t ∈ s <;> simp [hm]

theorem indexOf_firstOccurrences_append {α : Type} [DecidableEq α] (l1 l2 : List α) (a : α)
    (h : a ∈ l1) :
    (firstOccurrences (l1 ++ l2)).indexOf a = (firstOccurrences l1).indexOf a := by
  obtain ⟨e, he⟩ := firstOccurrences_append_prefix l1 l2
  rw [he]
  exact List.indexOf_append_of_mem ((mem_firstOccurrences a l1).mpr h)

/-! ## One submesh: the state after welding and de-duplication -/

theorem tracks_empty : Tracks (SubmeshData.empty : SubmeshData G) [] [] :=
  ⟨rfl, rfl, rfl, rfl⟩

theorem weld_tracks {submesh : SubmeshData F} {ks : List (BabylonVertex F)}
    {ts : List triangle} (h : Tracks submesh ks ts) (hb : ks.length < 2 ^ 32)
    (k : BabylonVertex F) :
    Tracks (weld submesh k).1 (ks ++ [k]) ts ∧
      (weld submesh k).2 = (firstOccurrences (ks ++ [k])).indexOf k := by
  have hlen : (firstOccurrences ks).length < 2 ^ 32 :=
    lt_of_le_of_lt (length_firstOccurrences_le ks) hb
  have hsn := firstOccurrences_snoc ks k
  unfold weld
  rw [h.knownVertices, stdMapFind_numberFrom]
  by_cases hk : k ∈ ks
  · have hk2 : k ∈ firstOccurrences ks := (mem_firstOccurrences k ks).mpr hk
    rw [if_pos hk] at hsn
    simp only [hk2, if_true, Nat.zero_add]
    refine ⟨⟨?_, ?_, h.knownTriangles, h.indices⟩, ?_⟩
    · rw [hsn]
      exact h.vertices
    · rw [hsn]
      exact h.knownVertices
    · rw [hsn]
  · have hk2 : k ∉ firstOccurrences ks := fun hh => hk ((mem_firstOccurrences k ks).mp hh)
    rw [if_neg hk] at hsn
    simp only [hk2, if_false]
    rw [stdMapAssign_numberFrom _ _ _ _ hk2, h.vertices, u32_of_lt hlen]
    refine ⟨⟨?_, ?_, h.knownTriangles, h.indices⟩, ?_⟩
    · rw [hsn]
    · rw [hsn, numberFrom_snoc]
      simp
    · rw [hsn, List.indexOf_append_of_not_mem hk2]
      simp

theorem insertTriangle_tracks {submesh : SubmeshData G} {ks : List (BabylonVertex G)}
    {ts : List triangle} (h : Tracks submesh ks ts) (t : triangle) :
    Tracks (insertTriangle submesh t) ks (ts ++ [t]) := by
  have hsn := firstOccurrences_snoc ts t
  unfold insertTriangle
  rw [stdSetInsert_triangle, h.knownTriangles]
  by_cases ht : t ∈ ts
  · have ht2 : t ∈ firstOccurrences ts := (mem_firstOccurrences t ts).mpr ht
    rw [if_pos ht] at hsn
    simp only [ht2, if_true]
    refine ⟨h.vertices, h.knownVertices, ?_, ?_⟩
    · rw [hsn]
      simp
    · rw [hsn]
      simpa using h.indices
  · have ht2 : t ∉ firstOccurrences ts := fun hh => ht ((mem_firstOccurrences t ts).mp hh)
    rw [if_neg ht] at hsn
    simp only [ht2, if_false]
    refine ⟨h.vertices, h.knownVertices, ?_, ?_⟩
    · rw [hsn]
      simp
    · rw [hsn]
      simp [h.indices, List.flatMap_append, triangle.toList]

theorem weldCorners_tracks {submesh : SubmeshData F} {ks : List (BabylonVertex F)}
    {ts : List triangle} (h : Tracks submesh ks ts) (hb : ks.length + 3 ≤ 2 ^ 32)
    (v0 v1 v2 : BabylonVertex F) :
    Tracks (weldCorners submesh v0 v1 v2).1 (ks ++ [v0, v1, v2]) ts ∧
      (weldCorners submesh v0 v1 v2).2 =
        { i0 := (firstOccurrences (ks ++ [v0, v1, v2])).indexOf v0
          i1 := (firstOccurrences (ks ++ [v0, v1, v2])).indexOf v1
          i2 := (firstOccurrences (ks ++ [v0, v1, v2])).indexOf v2 } := by
  obtain ⟨t0, e0⟩ := weld_tracks h (by omega) v0
  obtain ⟨t1, e1⟩ := weld_tracks t0 (by simp; omega) v1
  obtain ⟨t2, e2⟩ := weld_tracks t1 (by simp; omega) v2
  have a1 : ks ++ [v0] ++ [v1] ++ [v2] = ks ++ [v0, v1, v2] := by simp
  have a2 : ks ++ [v0, v1, v2] = (ks ++ [v0]) ++ [v1, v2] := by simp
  have a3 : ks ++ [v0, v1, v2] = (ks ++ [v0] ++ [v1]) ++ [v2] := by simp
  unfold weldCorners
  refine ⟨a1 ▸ t2, ?_⟩
  simp only [e0, e1, e2, triangle.mk.injEq]
  refine ⟨?_, ?_, ?_⟩
  · rw [a2, indexOf_firstOccurrences_append (ks ++ [v0]) [v1, v2] v0 (by simp)]
  · rw [a3, indexOf_firstOccurrences_append (ks ++ [v0] ++ [v1]) [v2] v1 (by simp)]
  · rw [a1]

theorem positionTriple_append (src : SourceMesh G) (ks more : List (BabylonVertex G))
    (tri : SourceTriangle G) :
    positionTriple src (firstOccurrences (ks ++ triangleKeys src tri ++ more)) tri =
      positionTriple src (firstOccurrences (ks ++ triangleKeys src tri)) tri := by
  unfold positionTriple
  rw [indexOf_firstOccurrences_append (ks ++ triangleKeys src tri) more
      (makeVertex src tri.corner0) (by simp [triangleKeys]),
    indexOf_firstOccurrences_append (ks ++ triangleKeys src tri) more
      (makeVertex src tri.corner1) (by simp [triangleKeys]),
    indexOf_firstOccurrences_append (ks ++ triangleKeys src tri) more
      (makeVertex src tri.corner2) (by simp [triangleKeys])]

theorem addTriangle_tracks (src : SourceMesh F) {submesh : SubmeshData F}
    {ks : List (BabylonVertex F)} {ts : List triangle} (h : Tracks submesh ks ts)
    (hb : ks.length + 3 ≤ 2 ^ 32) (tri : SourceTriangle F) :
    Tracks (addTriangle src submesh tri) (ks ++ triangleKeys src tri)
        (ts ++ [positionTriple src (firstOccurrences (ks ++ triangleKeys src tri)) tri]) ∧
      (weldCorners submesh (makeVertex src tri.corner0) (makeVertex src tri.corner1)
          (makeVertex src tri.corner2)).2 =
        positionTriple src (firstOccurrences (ks ++ triangleKeys src tri)) tri := by
  obtain ⟨t, e⟩ := weldCorners_tracks h hb (makeVertex src tri.corner0)
    (makeVertex src tri.corner1) (makeVertex src tri.corner2)
  have e2 : (weldCorners submesh (makeVertex src tri.corner0) (makeVertex src tri.corner1)
      (makeVertex src tri.corner2)).2 =
        positionTriple src (firstOccurrences (ks ++ triangleKeys src tri)) tri := e
  refine ⟨?_, e2⟩
  have h3 := insertTriangle_tracks t (weldCorners submesh (makeVertex src tri.corner0)
    (makeVertex src tri.corner1) (makeVertex src tri.corner2)).2
  have hadd : insertTriangle (weldCorners submesh (makeVertex src tri.corner0)
      (makeVertex src tri.corner1) (makeVertex src tri.corner2)).1
      (weldCorners submesh (makeVertex src tri.corner0)
      (makeVertex src tri.corner1) (makeVertex src tri.corner2)).2 =
      addTriangle src submesh tri := rfl
  rw [hadd, e2] at h3
  exact h3

theorem processTriangles_tracks (src : SourceMesh F) (tris : List (SourceTriangle F)) :
    ∀ (submesh : SubmeshData F) (ks : List (BabylonVertex F)) (ts : List triangle),
      Tracks submesh ks ts → ks.length + 3 * tris.length ≤ 2 ^ 32 →
      Tracks (processTriangles src submesh tris) (ks ++ cornerKeys src tris)
          (ts ++ tris.map (positionTriple src (firstOccurrences (ks ++ cornerKeys src tris)))) ∧
        weldedTriangles src submesh tris =
          tris.map (positionTriple src (firstOccurrences (ks ++ cornerKeys src tris))) := by
  induction tris with
  | nil =>
    intro submesh ks ts h _
    simpa [processTriangles, cornerKeys, weldedTriangles] using h
  | cons tri rest ih =>
    intro submesh ks ts h hb
    simp only [List.length_cons] at hb
    obtain ⟨t1, e1⟩ := addTriangle_tracks src h (by omega) tri
    have hlen : (ks ++ triangleKeys src tri).length = ks.length + 3 := by
      simp [triangleKeys]
    obtain ⟨t2, e2⟩ := ih _ _ _ t1 (by rw [hlen]; omega)
    have hk : ks ++ cornerKeys src (tri :: rest) =
        ks ++ triangleKeys src tri ++ cornerKeys src rest := by
      simp [cornerKeys]
    have hp := positionTriple_append src ks (cornerKeys src rest) tri
    rw [hk]
    constructor
    · have : processTriangles src submesh (tri :: rest) =
          processTriangles src (addTriangle src submesh tri) rest := rfl
      rw [this, List.map_cons, hp]
      simpa using t2
    · rw [weldedTriangles, e1, e2, List.map_cons, hp]


theorem feedTriangles_tracks (pre : List triangle) :
    ∀ (submesh : SubmeshData G) (ks : List (BabylonVertex G)) (ts : List triangle),
      Tracks submesh ks ts → Tracks (feedTriangles submesh pre) ks (ts ++ pre) := by
  induction pre with
  | nil =>
    intro submesh ks ts h
    simpa [feedTriangles] using h
  | cons t rest ih =>
    intro submesh ks ts h
    have h2 := ih _ _ _ (insertTriangle_tracks h t)
    have e : feedTriangles submesh (t :: rest) = feedTriangles (insertTriangle submesh t) rest :=
      rfl
    rw [e]
    simpa using h2

theorem accepts_tracks {submesh : SubmeshData G} {ks : List (BabylonVertex G)}
    {ts : List triangle} (h : Tracks submesh ks ts) (t : triangle) :
    accepts submesh t = decide (t ∉ ts) := by
  unfold accepts
  rw [stdSetInsert_triangle, h.knownTriangles]
  by_cases ht : t ∈ ts
  · have ht2 : t ∈ firstOccurrences ts := (mem_firstOccurrences t ts).mpr ht
    simp [ht, ht2]
  · have ht2 : t ∉ firstOccurrences ts := fun hh => ht ((mem_firstOccurrences t ts).mp hh)
    simp [ht, ht2]

theorem acceptedTriangles_tracks (pre : List triangle) :
    ∀ (submesh : SubmeshData G) (ks : List (BabylonVertex G)) (ts : List triangle),
      Tracks submesh ks ts →
      acceptedTriangles submesh pre = (firstOccurrences pre).filter (fun t => t ∉ ts) := by
  induction pre with
  | nil =>
    intro submesh ks ts _
    simp [acceptedTriangles, firstOccurrences]
  | cons t rest ih =>
    intro submesh ks ts h
    have h2 := ih _ _ _ (insertTriangle_tracks h t)
    have hf : List.filter (fun u => decide (u ∉ ts))
        (List.filter (fun b => decide (b ≠ t)) (firstOccurrences rest)) =
        List.filter (fun u => decide (u ∉ ts ++ [t])) (firstOccurrences rest) := by
      rw [List.filter_filter]
      congr 1
      funext u
      simp [Bool.and_comm]
    rw [acceptedTriangles, accepts_tracks h, h2, firstOccurrences, List.filter_cons, hf]

theorem indexTriples_flatMap (l : List triangle) :
    indexTriples (l.flatMap triangle.toList) = l := by
  induction l with
  | nil => simp [indexTriples]
  | cons t rest ih =>
    have e : (t :: rest).flatMap triangle.toList =
        t.i0 :: t.i1 :: t.i2 :: rest.flatMap triangle.toList := by
      simp [triangle.toList]
    rw [e, indexTriples, ih]

theorem flatMap_positionTriple (src : SourceMesh G) (vs : List (BabylonVertex G))
    (tris : List (SourceTriangle G)) :
    (tris.map (positionTriple src vs)).flatMap triangle.toList =
      (cornerKeys src tris).map (fun k => vs.indexOf k) := by
  induction tris with
  | nil => simp [cornerKeys]
  | cons tri rest ih =>
    simp only [cornerKeys, List.flatMap_cons, List.map_append] at ih ⊢
    rw [List.map_cons, List.flatMap_cons, ih]
    simp [triangle.toList, positionTriple, triangleKeys]

theorem length_cornerKeys (src : SourceMesh G) (tris : List (SourceTriangle G)) :
    (cornerKeys src tris).length = 3 * tris.length := by
  induction tris with
  | nil => simp [cornerKeys]
  | cons tri rest ih =>
    simp only [cornerKeys, List.flatMap_cons, List.length_append] at ih ⊢
    rw [ih]
    simp [triangleKeys]
    omega

/-- The state of one submesh after a polygon sequence, from the empty submesh. -/
theorem processTriangles_empty (src : SourceMesh F) (tris : List (SourceTriangle F))
    (hb : 3 * tris.length < 2 ^ 32) :
    Tracks (processTriangles src SubmeshData.empty tris) (cornerKeys src tris)
        (tris.map (positionTriple src (firstOccurrences (cornerKeys src tris)))) ∧
      weldedTriangles src SubmeshData.empty tris =
        tris.map (positionTriple src (firstOccurrences (cornerKeys src tris))) := by
  have h := processTriangles_tracks src tris SubmeshData.empty [] [] tracks_empty
    (by simp; omega)
  simpa using h


/-! ## Claims about one submesh -/

/-- C4. Duplicate rejection. Feeding a triple twice into a fresh de-duplicator accepts
it the first time, rejects it the second time and leaves it once in the index list.
After any feeding sequence, a triple is accepted exactly when no identical ordered
triple was accepted before; fed a second time it is rejected, and the index list
holds it exactly once. -/
theorem duplicate_triple_rejected (pre : List triangle) (t : triangle) :
    (accepts (SubmeshData.empty : SubmeshData F) t = true ∧
      accepts (insertTriangle (SubmeshData.empty : SubmeshData F) t) t = false ∧
      (feedTriangles (SubmeshData.empty : SubmeshData F) [t, t]).indices = t.toList) ∧
    (accepts (feedTriangles (SubmeshData.empty : SubmeshData F) pre) t = true ↔
      t ∉ acceptedTriangles (SubmeshData.empty : SubmeshData F) pre) ∧
    indexTriples (feedTriangles (SubmeshData.empty : SubmeshData F) pre).indices =
      acceptedTriangles (SubmeshData.empty : SubmeshData F) pre ∧
    accepts (insertTriangle (feedTriangles (SubmeshData.empty : SubmeshData F) pre) t) t =
      false ∧
    (indexTriples
      (feedTriangles (SubmeshData.empty : SubmeshData F) (pre ++ [t, t])).indices).count t =
      1 := by
  have t0 : Tracks (SubmeshData.empty : SubmeshData F) [] [] := tracks_empty
  have tp := feedTriangles_tracks pre _ _ _ t0
  have tpt := insertTriangle_tracks tp t
  have tall := feedTriangles_tracks (pre ++ [t, t]) _ _ _ t0
  have hacc := acceptedTriangles_tracks pre _ _ _ t0
  simp only [List.nil_append] at tp tpt tall
  have hacc2 : acceptedTriangles (SubmeshData.empty : SubmeshData F) pre =
      firstOccurrences pre := by
    rw [hacc]
    simp
  refine ⟨⟨?_, ?_, ?_⟩, ?_, ?_, ?_, ?_⟩
  · rw [accepts_tracks t0]
    simp
  · rw [accepts_tracks (insertTriangle_tracks t0 t)]
    simp
  · have h2 := (feedTriangles_tracks [t, t] _ _ _ t0).indices
    rw [h2]
    simp [firstOccurrences]
  · rw [accepts_tracks tp, hacc2, mem_firstOccurrences]
    simp
  · rw [tp.indices, indexTriples_flatMap, hacc2]
  · rw [accepts_tracks tpt]
    simp
  · rw [tall.indices, indexTriples_flatMap]
    exact List.count_eq_one_of_mem (nodup_firstOccurrences _)
      ((mem_firstOccurrences _ _).mpr (by simp))

/-- C5, as stated, fails. The accepted triple `(0,0,0)` equals its own rotation, so
feeding the rotation is rejected and the index list keeps one triple; and after
`(0,1,2)` and `(1,2,0)` were accepted, feeding the rotation `(1,2,0)` of the accepted
`(0,1,2)` is rejected as well. -/
theorem rotation_rejected_counterexample :
    (accepts (SubmeshData.empty : SubmeshData Int) { i0 := 0, i1 := 0, i2 := 0 } = true ∧
      accepts (feedTriangles (SubmeshData.empty : SubmeshData Int) [{ i0 := 0, i1 := 0, i2 := 0 }])
        (triangle.rotate { i0 := 0, i1 := 0, i2 := 0 }) = false ∧
      (feedTriangles (SubmeshData.empty : SubmeshData Int)
        [{ i0 := 0, i1 := 0, i2 := 0 }, triangle.rotate { i0 := 0, i1 := 0, i2 := 0 }]).indices =
        [0, 0, 0]) ∧
    (acceptedTriangles (SubmeshData.empty : SubmeshData Int)
        [{ i0 := 0, i1 := 1, i2 := 2 }, { i0 := 1, i1 := 2, i2 := 0 }] =
        [{ i0 := 0, i1 := 1, i2 := 2 }, { i0 := 1, i1 := 2, i2 := 0 }] ∧
      accepts (feedTriangles (SubmeshData.empty : SubmeshData Int)
        [{ i0 := 0, i1 := 1, i2 := 2 }, { i0 := 1, i1 := 2, i2 := 0 }])
        (triangle.rotate { i0 := 0, i1 := 1, i2 := 2 }) = false) := by
  decide

/-- C5, amended. For every triple accepted by a submesh's de-duplicator whose rotation
`(i1, i2, i0)` has not been accepted before, feeding the rotation is accepted; it is a
second triangle, distinct from the first, its three indices are appended to the index
list, and both triples are in the index list afterwards. -/
theorem rotation_accepted_when_new (pre : List triangle) (t : triangle)
    (ht : t ∈ acceptedTriangles (SubmeshData.empty : SubmeshData F) pre)
    (hr : t.rotate ∉ acceptedTriangles (SubmeshData.empty : SubmeshData F) pre) :
    accepts (feedTriangles (SubmeshData.empty : SubmeshData F) pre) t.rotate = true ∧
    t.rotate ≠ t ∧
    (feedTriangles (SubmeshData.empty : SubmeshData F) (pre ++ [t.rotate])).indices =
      (feedTriangles (SubmeshData.empty : SubmeshData F) pre).indices ++ t.rotate.toList ∧
    t ∈ indexTriples
      (feedTriangles (SubmeshData.empty : SubmeshData F) (pre ++ [t.rotate])).indices ∧
    t.rotate ∈ indexTriples
      (feedTriangles (SubmeshData.empty : SubmeshData F) (pre ++ [t.rotate])).indices := by
  have t0 : Tracks (SubmeshData.empty : SubmeshData F) [] [] := tracks_empty
  have tp := feedTriangles_tracks pre _ _ _ t0
  have tall := feedTriangles_tracks (pre ++ [t.rotate]) _ _ _ t0
  have hacc := acceptedTriangles_tracks pre _ _ _ t0
  simp only [List.nil_append] at tp tall
  have hacc2 : acceptedTriangles (SubmeshData.empty : SubmeshData F) pre =
      firstOccurrences pre := by
    rw [hacc]
    simp
  rw [hacc2, mem_firstOccurrences] at ht hr
  have hr2 : t.rotate ∉ firstOccurrences pre := fun hh => hr ((mem_firstOccurrences _ _).mp hh)
  refine ⟨?_, ?_, ?_, ?_, ?_⟩
  · rw [accepts_tracks tp]
    simp [hr]
  · intro e
    rw [e] at hr
    exact hr ht
  · rw [tall.indices, tp.indices, firstOccurrences_snoc, if_neg hr]
    simp [List.flatMap_append]
  · rw [tall.indices, indexTriples_flatMap, mem_firstOccurrences]
    simp [ht]
  · rw [tall.indices, indexTriples_flatMap, mem_firstOccurrences]
    simp

/-- Witness of the amended C5: after `(0,1,2)` was accepted, its rotation `(1,2,0)` is
accepted. -/
theorem rotation_accepted_when_new_witness :
    accepts (feedTriangles (SubmeshData.empty : SubmeshData Int) [{ i0 := 0, i1 := 1, i2 := 2 }])
      (triangle.rotate { i0 := 0, i1 := 1, i2 := 2 }) = true :=
  (rotation_accepted_when_new [{ i0 := 0, i1 := 1, i2 := 2 }] { i0 := 0, i1 := 1, i2 := 2 }
    (by decide) (by decide)).1


/-! ## The polygon loop: routing to submeshes -/

theorem polygonStep_eq_some {src : SourceMesh G} {submeshes submeshes1 : List (SubmeshData G)}
    {triangleIndex : Nat} {tri : SourceTriangle G}
    (h : polygonStep src submeshes triangleIndex tri = some submeshes1) :
    ∃ (m : Nat) (submesh : SubmeshData G), materialIndexOf src triangleIndex = (m : Int) ∧
      submeshes[m]? = some submesh ∧
      submeshes1 = submeshes.set m (addTriangle src submesh tri) := by
  unfold polygonStep at h
  simp only at h
  split at h
  · rename_i hpos
    split at h
    · rename_i submesh hs
      refine ⟨(materialIndexOf src triangleIndex).toNat, submesh, ?_, hs, ?_⟩
      · exact (Int.toNat_of_nonneg hpos).symm
      · simpa using h.symm
    · exact absurd h (by simp)
  · exact absurd h (by simp)

theorem polygonLoop_routes (src : SourceMesh G) (tris : List (SourceTriangle G)) :
    ∀ (start : Nat) (submeshes submeshes1 : List (SubmeshData G)),
      polygonLoop src start tris submeshes = some submeshes1 →
      submeshes1.length = submeshes.length ∧
      ∀ m, submeshes1[m]? =
        (submeshes[m]?).map (fun sm => processTriangles src sm (routedTo src m start tris)) := by
  induction tris with
  | nil =>
    intro start submeshes submeshes1 h
    simp only [polygonLoop, Option.some.injEq] at h
    subst h
    refine ⟨rfl, fun m => ?_⟩
    cases submeshes[m]? <;> simp [routedTo, processTriangles]
  | cons tri rest ih =>
    intro start submeshes submeshes1 h
    rw [polygonLoop] at h
    split at h
    · rename_i mid hstep
      obtain ⟨m0, sm0, hmi, hs0, hmid⟩ := polygonStep_eq_some hstep
      obtain ⟨hl, hr⟩ := ih _ _ _ h
      subst hmid
      refine ⟨by simpa using hl, fun m => ?_⟩
      rw [hr m, routedTo, hmi]
      by_cases hm : m0 = m
      · subst hm
        have hlt : m0 < submeshes.length := by
          rcases List.getElem?_eq_some.mp hs0 with ⟨hlt, _⟩
          exact hlt
        rw [List.getElem?_set_self hlt, hs0]
        simp [processTriangles]
      · have hne : ¬ ((m0 : Int) = (m : Int)) := fun e => hm (by exact_mod_cast e)
        rw [List.getElem?_set_ne hm, if_neg hne]
    · exact absurd h (by simp)

theorem polygonLoop_isSome (src : SourceMesh G) (tris : List (SourceTriangle G)) :
    ∀ (start : Nat) (submeshes : List (SubmeshData G)),
      (∀ i, i < tris.length → 0 ≤ materialIndexOf src (start + i) ∧
        (materialIndexOf src (start + i)).toNat < submeshes.length) →
      ∃ submeshes1, polygonLoop src start tris submeshes = some submeshes1 := by
  induction tris with
  | nil =>
    intro start submeshes _
    exact ⟨submeshes, rfl⟩
  | cons tri rest ih =>
    intro start submeshes h
    obtain ⟨h0, h1⟩ := h 0 (by simp)
    simp only [Nat.add_zero] at h0 h1
    have hstep : polygonStep src submeshes start tri =
        some (submeshes.set (materialIndexOf src start).toNat
          (addTriangle src submeshes[(materialIndexOf src start).toNat] tri)) := by
      unfold polygonStep
      simp [h0, List.getElem?_eq_getElem h1]
    rw [polygonLoop, hstep]
    apply ih
    intro i hi
    have := h (i + 1) (by simpa using hi)
    have e : start + (i + 1) = start + 1 + i := by omega
    rw [e] at this
    simpa using this

theorem length_routedTo_le (src : SourceMesh G) (m : Nat) (tris : List (SourceTriangle G)) :
    ∀ start, (routedTo src m start tris).length ≤ tris.length := by
  induction tris with
  | nil => intro start; simp [routedTo]
  | cons tri rest ih =>
    intro start
    rw [routedTo]
    split
    · simpa using ih (start + 1)
    · have := ih (start + 1)
      simp only [List.length_cons]
      omega

/-- The submesh of every slot after the polygon pass: the empty submesh after the
polygons routed to the slot, in polygon order. -/
theorem polygonPass_slot {src : SourceMesh G} {submeshes : List (SubmeshData G)}
    (h : polygonPass src = some submeshes) :
    submeshes.length = submeshCount src ∧
    ∀ m, m < submeshCount src →
      submeshes[m]? =
        some (processTriangles src SubmeshData.empty (routedTo src m 0 src.triangles)) := by
  obtain ⟨hl, hr⟩ := polygonLoop_routes src src.triangles 0 _ _ h
  refine ⟨by simpa using hl, fun m hm => ?_⟩
  rw [hr m, List.getElem?_replicate_of_lt hm]
  rfl

/-- The polygon pass, and so the conversion, produces a result when every polygon is
routed to an existing slot. -/
theorem polygonPass_isSome (src : SourceMesh G)
    (h : ∀ i, i < src.triangles.length → 0 ≤ materialIndexOf src i ∧
      (materialIndexOf src i).toNat < submeshCount src) :
    ∃ submeshes, polygonPass src = some submeshes := by
  apply polygonLoop_isSome
  intro i hi
  simpa using h i hi


/-! ## The flatten loop -/

theorem foldl_pushVertex (src : SourceMesh G) (vs : List (BabylonVertex G)) :
    ∀ mesh : BabylonMesh G,
      (vs.foldl (pushVertex src) mesh).positions =
          mesh.positions ++ vs.map (fun v => v.position) ∧
        (vs.foldl (pushVertex src) mesh).indices = mesh.indices ∧
        (vs.foldl (pushVertex src) mesh).submeshes = mesh.submeshes := by
  induction vs with
  | nil => intro mesh; simp
  | cons v rest ih =>
    intro mesh
    obtain ⟨h1, h2, h3⟩ := ih (pushVertex src mesh v)
    rw [List.foldl_cons, h1, h2, h3]
    simp [pushVertex]

theorem flattenStep_fields (src : SourceMesh G) (state : BabylonMesh G × Nat) (matIndex : Nat)
    (submesh : SubmeshData G) :
    (flattenStep src state matIndex submesh).1.positions =
        state.1.positions ++ submesh.vertices.map (fun v => v.position) ∧
      (flattenStep src state matIndex submesh).1.indices =
        state.1.indices ++ submesh.indices.map (fun i => u32 (i + state.2)) ∧
      (flattenStep src state matIndex submesh).1.submeshes =
        state.1.submeshes ++
          [{ materialIndex := matIndex, verticesStart := state.1.positions.length,
             verticesCount := submesh.vertices.length,
             indexStart := state.1.indices.length,
             indexCount := submesh.indices.length }] ∧
      (flattenStep src state matIndex submesh).2 =
        u32 (state.1.positions.length + submesh.vertices.length) := by
  obtain ⟨h1, h2, h3⟩ := foldl_pushVertex src submesh.vertices state.1
  unfold flattenStep
  simp only [h1, h2, h3, List.length_append, List.length_map]
  exact ⟨trivial, trivial, trivial, trivial⟩

theorem flattenLoop_fields (src : SourceMesh G) (submeshes : List (SubmeshData G)) :
    ∀ (k : Nat) (state : BabylonMesh G × Nat), state.2 = u32 state.1.positions.length →
      (flattenLoop src k submeshes state).1.positions =
          state.1.positions ++ globalPositions submeshes ∧
        (flattenLoop src k submeshes state).1.indices =
          state.1.indices ++ globalIndices state.1.positions.length submeshes ∧
        (flattenLoop src k submeshes state).1.submeshes =
          state.1.submeshes ++
            layout k state.1.positions.length state.1.indices.length submeshes := by
  induction submeshes with
  | nil =>
    intro k state _
    simp [flattenLoop, globalPositions, globalIndices, layout]
  | cons s rest ih =>
    intro k state hst
    obtain ⟨h1, h2, h3, h4⟩ := flattenStep_fields src state k s
    have hst2 : (flattenStep src state k s).2 =
        u32 (flattenStep src state k s).1.positions.length := by
      rw [h4, h1]
      simp
    obtain ⟨g1, g2, g3⟩ := ih (k + 1) (flattenStep src state k s) hst2
    rw [flattenLoop, g1, g2, g3, h1, h2, h3, hst]
    simp [globalPositions, globalIndices, layout, List.append_assoc]

/-- The arrays of the flattened mesh, written with the reference functions. -/
theorem flatten_fields (src : SourceMesh G) (submeshes : List (SubmeshData G)) :
    (flatten src submeshes).positions = globalPositions submeshes ∧
      (flatten src submeshes).indices = globalIndices 0 submeshes ∧
      (flatten src submeshes).submeshes = layout 0 0 0 submeshes := by
  have h := flattenLoop_fields src submeshes 0 (BabylonMesh.empty, 0) (by simp [BabylonMesh.empty, u32])
  simpa [flatten, BabylonMesh.empty] using h

theorem length_globalPositions (submeshes : List (SubmeshData G)) :
    (globalPositions submeshes).length = vertexTotal submeshes := by
  induction submeshes with
  | nil => rfl
  | cons s rest ih => simp [globalPositions, vertexTotal, ih]

theorem length_globalIndices (submeshes : List (SubmeshData G)) :
    ∀ vs, (globalIndices vs submeshes).length = indexTotal submeshes := by
  induction submeshes with
  | nil => intro vs; rfl
  | cons s rest ih => intro vs; simp [globalIndices, indexTotal, ih]

theorem layout_getElem? (submeshes : List (SubmeshData G)) :
    ∀ (k vs is m : Nat),
      (layout k vs is submeshes)[m]? =
        (submeshes[m]?).map (fun s =>
          { materialIndex := k + m
            verticesStart := vs + vertexTotal (submeshes.take m)
            verticesCount := s.vertices.length
            indexStart := is + indexTotal (submeshes.take m)
            indexCount := s.indices.length }) := by
  induction submeshes with
  | nil => intro k vs is m; simp [layout]
  | cons s rest ih =>
    intro k vs is m
    cases m with
    | zero => simp [layout, vertexTotal, indexTotal]
    | succ m =>
      simp only [layout, List.getElem?_cons_succ, ih, List.take_succ_cons, vertexTotal,
        indexTotal]
      cases rest[m]? with
      | none => rfl
      | some s2 =>
        simp only [Option.map_some', Option.some.injEq, BabylonSubmesh.mk.injEq]
        exact ⟨by omega, by omega, trivial, by omega, trivial⟩

theorem vertexTotal_take_le (submeshes : List (SubmeshData G)) :
    ∀ (m : Nat) (s : SubmeshData G), submeshes[m]? = some s →
      vertexTotal (submeshes.take m) + s.vertices.length ≤ vertexTotal submeshes := by
  induction submeshes with
  | nil => intro m s h; simp at h
  | cons s0 rest ih =>
    intro m s h
    cases m with
    | zero =>
      simp only [List.getElem?_cons_zero, Option.some.injEq] at h
      subst h
      simp [vertexTotal]
    | succ m =>
      simp only [List.getElem?_cons_succ] at h
      have := ih m s h
      simp only [List.take_succ_cons, vertexTotal]
      omega

theorem globalIndices_getElem? (submeshes : List (SubmeshData G)) :
    ∀ (vs m : Nat) (s : SubmeshData G) (j i : Nat), submeshes[m]? = some s →
      s.indices[j]? = some i →
      (globalIndices vs submeshes)[indexTotal (submeshes.take m) + j]? =
        some (u32 (i + u32 (vs + vertexTotal (submeshes.take m)))) := by
  induction submeshes with
  | nil => intro vs m s j i h; simp at h
  | cons s0 rest ih =>
    intro vs m s j i h hj
    cases m with
    | zero =>
      simp only [List.getElem?_cons_zero, Option.some.injEq] at h
      subst h
      have hlt : j < s0.indices.length := (List.getElem?_eq_some.mp hj).1
      simp only [globalIndices, List.take_zero, indexTotal, vertexTotal, Nat.zero_add,
        Nat.add_zero]
      rw [List.getElem?_append_left (by simpa using hlt), List.getElem?_map, hj]
      rfl
    | succ m =>
      simp only [List.getElem?_cons_succ] at h
      have := ih (vs + s0.vertices.length) m s j i h hj
      simp only [globalIndices, List.take_succ_cons, indexTotal, vertexTotal]
      rw [List.getElem?_append_right (by simp; omega)]
      have e : s0.indices.length + indexTotal (List.take m rest) + j -
          (List.map (fun i => u32 (i + u32 vs)) s0.indices).length =
          indexTotal (List.take m rest) + j := by
        simp
        omega
      rw [e, this, Nat.add_assoc]


/-! ## Sizes after the polygon pass -/

theorem weld_vertices_length_le (submesh : SubmeshData G) (v : BabylonVertex G) :
    (weld submesh v).1.vertices.length ≤ submesh.vertices.length + 1 ∧
      (weld submesh v).1.indices = submesh.indices := by
  unfold weld
  cases stdMapFind BabylonVertex.lt submesh.knownVertices v <;> simp

theorem insertTriangle_fields (submesh : SubmeshData G) (t : triangle) :
    (insertTriangle submesh t).vertices = submesh.vertices ∧
      ((insertTriangle submesh t).indices = submesh.indices ∨
        (insertTriangle submesh t).indices = submesh.indices ++ [t.i0, t.i1, t.i2]) := by
  unfold insertTriangle
  simp only
  split
  · exact ⟨rfl, Or.inr rfl⟩
  · exact ⟨rfl, Or.inl rfl⟩

theorem addTriangle_sizes (src : SourceMesh G) (submesh : SubmeshData G)
    (tri : SourceTriangle G) :
    (addTriangle src submesh tri).vertices.length ≤ submesh.vertices.length + 3 ∧
      (addTriangle src submesh tri).indices.length % 3 = submesh.indices.length % 3 := by
  obtain ⟨a0, b0⟩ := weld_vertices_length_le submesh (makeVertex src tri.corner0)
  obtain ⟨a1, b1⟩ := weld_vertices_length_le (weld submesh (makeVertex src tri.corner0)).1
    (makeVertex src tri.corner1)
  obtain ⟨a2, b2⟩ := weld_vertices_length_le
    (weld (weld submesh (makeVertex src tri.corner0)).1 (makeVertex src tri.corner1)).1
    (makeVertex src tri.corner2)
  obtain ⟨c1, c2⟩ := insertTriangle_fields
    (weldCorners submesh (makeVertex src tri.corner0) (makeVertex src tri.corner1)
      (makeVertex src tri.corner2)).1
    (weldCorners submesh (makeVertex src tri.corner0) (makeVertex src tri.corner1)
      (makeVertex src tri.corner2)).2
  have hv : (weldCorners submesh (makeVertex src tri.corner0) (makeVertex src tri.corner1)
      (makeVertex src tri.corner2)).1 =
      (weld (weld (weld submesh (makeVertex src tri.corner0)).1
        (makeVertex src tri.corner1)).1 (makeVertex src tri.corner2)).1 := rfl
  have hadd : addTriangle src submesh tri = insertTriangle
      (weldCorners submesh (makeVertex src tri.corner0) (makeVertex src tri.corner1)
        (makeVertex src tri.corner2)).1
      (weldCorners submesh (makeVertex src tri.corner0) (makeVertex src tri.corner1)
        (makeVertex src tri.corner2)).2 := rfl
  have hw1 : (weldCorners submesh (makeVertex src tri.corner0) (makeVertex src tri.corner1)
      (makeVertex src tri.corner2)).1.vertices.length ≤ submesh.vertices.length + 3 := by
    rw [hv]
    omega
  have hwi : (weldCorners submesh (makeVertex src tri.corner0) (makeVertex src tri.corner1)
      (makeVertex src tri.corner2)).1.indices = submesh.indices := by
    rw [hv, b2, b1, b0]
  constructor
  · rw [hadd, c1]
    exact hw1
  · rcases c2 with c2 | c2
    · rw [hadd, c2, hwi]
    · rw [hadd, c2, hwi]
      simp

theorem processTriangles_indices_mod (src : SourceMesh G) (tris : List (SourceTriangle G)) :
    ∀ submesh : SubmeshData G,
      (processTriangles src submesh tris).indices.length % 3 = submesh.indices.length % 3 := by
  induction tris with
  | nil => intro submesh; rfl
  | cons tri rest ih =>
    intro submesh
    have e : processTriangles src submesh (tri :: rest) =
        processTriangles src (addTriangle src submesh tri) rest := rfl
    rw [e, ih, (addTriangle_sizes src submesh tri).2]

theorem vertexTotal_set (submeshes : List (SubmeshData G)) :
    ∀ (m : Nat) (s x : SubmeshData G), submeshes[m]? = some s →
      vertexTotal (submeshes.set m x) + s.vertices.length =
        vertexTotal submeshes + x.vertices.length := by
  induction submeshes with
  | nil => intro m s x h; simp at h
  | cons s0 rest ih =>
    intro m s x h
    cases m with
    | zero =>
      simp only [List.getElem?_cons_zero, Option.some.injEq] at h
      subst h
      simp only [List.set_cons_zero, vertexTotal]
      omega
    | succ m =>
      simp only [List.getElem?_cons_succ] at h
      have := ih m s x h
      simp only [List.set_cons_succ, vertexTotal]
      omega

theorem polygonLoop_vertexTotal_le (src : SourceMesh G) (tris : List (SourceTriangle G)) :
    ∀ (start : Nat) (submeshes submeshes1 : List (SubmeshData G)),
      polygonLoop src start tris submeshes = some submeshes1 →
      vertexTotal submeshes1 ≤ vertexTotal submeshes + 3 * tris.length := by
  induction tris with
  | nil =>
    intro start submeshes submeshes1 h
    simp only [polygonLoop, Option.some.injEq] at h
    subst h
    simp
  | cons tri rest ih =>
    intro start submeshes submeshes1 h
    rw [polygonLoop] at h
    split at h
    · rename_i mid hstep
      obtain ⟨m0, sm0, _, hs0, hmid⟩ := polygonStep_eq_some hstep
      have h1 := ih _ _ _ h
      have h2 := vertexTotal_set submeshes m0 sm0 (addTriangle src sm0 tri) hs0
      have h3 := (addTriangle_sizes src sm0 tri).1
      rw [← hmid] at h2
      simp only [List.length_cons]
      omega
    · exact absurd h (by simp)

theorem vertexTotal_replicate_empty (n : Nat) :
    vertexTotal (List.replicate n (SubmeshData.empty : SubmeshData G)) = 0 := by
  induction n with
  | zero => rfl
  | succ n ih =>
    rw [List.replicate_succ, vertexTotal, ih]
    rfl

theorem polygonPass_vertexTotal_le {src : SourceMesh G} {submeshes : List (SubmeshData G)}
    (h : polygonPass src = some submeshes) :
    vertexTotal submeshes ≤ 3 * src.triangles.length := by
  have := polygonLoop_vertexTotal_le src src.triangles 0 _ _ h
  rw [vertexTotal_replicate_empty] at this
  omega

/-- Every local index of a submesh is a position of its vertex buffer. -/
theorem processTriangles_index_lt (src : SourceMesh F) (tris : List (SourceTriangle F))
    (hb : 3 * tris.length < 2 ^ 32) (i : Nat)
    (hi : i ∈ (processTriangles src SubmeshData.empty tris).indices) :
    i < (processTriangles src SubmeshData.empty tris).vertices.length := by
  obtain ⟨ht, _⟩ := processTriangles_empty src tris hb
  rw [ht.indices] at hi
  rw [ht.vertices]
  obtain ⟨t, htm, hit⟩ := List.mem_flatMap.mp hi
  rw [mem_firstOccurrences] at htm
  obtain ⟨tri, htri, rfl⟩ := List.mem_map.mp htm
  have hkey : ∀ k ∈ triangleKeys src tri,
      (firstOccurrences (cornerKeys src tris)).indexOf k <
        (firstOccurrences (cornerKeys src tris)).length := by
    intro k hk
    apply List.indexOf_lt_length.mpr
    rw [mem_firstOccurrences]
    exact List.mem_flatMap.mpr ⟨tri, htri, hk⟩
  simp only [triangle.toList, positionTriple, List.mem_cons, List.mem_singleton,
    List.not_mem_nil, or_false] at hit
  rcases hit with rfl | rfl | rfl
  · exact hkey _ (by simp [triangleKeys])
  · exact hkey _ (by simp [triangleKeys])
  · exact hkey _ (by simp [triangleKeys])

theorem indexTotal_mod (submeshes : List (SubmeshData G))
    (h : ∀ s ∈ submeshes, s.indices.length % 3 = 0) : indexTotal submeshes % 3 = 0 := by
  induction submeshes with
  | nil => rfl
  | cons s rest ih =>
    have h1 := h s (by simp)
    have h2 := ih (fun s2 hs2 => h s2 (List.mem_cons_of_mem _ hs2))
    simp only [indexTotal]
    omega

theorem layout_sums (submeshes : List (SubmeshData G)) :
    ∀ (k vs is : Nat),
      ((layout k vs is submeshes).map (fun S => S.verticesCount)).sum = vertexTotal submeshes ∧
      ((layout k vs is submeshes).map (fun S => S.indexCount)).sum = indexTotal submeshes := by
  induction submeshes with
  | nil => intro k vs is; simp [layout, vertexTotal, indexTotal]
  | cons s rest ih =>
    intro k vs is
    obtain ⟨h1, h2⟩ := ih (k + 1) (vs + s.vertices.length) (is + s.indices.length)
    simp [layout, vertexTotal, indexTotal, h1, h2]


theorem totals_take_succ (submeshes : List (SubmeshData G)) :
    ∀ (m : Nat) (s : SubmeshData G), submeshes[m]? = some s →
      vertexTotal (submeshes.take (m + 1)) = vertexTotal (submeshes.take m) + s.vertices.length ∧
      indexTotal (submeshes.take (m + 1)) = indexTotal (submeshes.take m) + s.indices.length := by
  induction submeshes with
  | nil => intro m s h; simp at h
  | cons s0 rest ih =>
    intro m s h
    cases m with
    | zero =>
      simp only [List.getElem?_cons_zero, Option.some.injEq] at h
      subst h
      simp [vertexTotal, indexTotal]
    | succ m =>
      simp only [List.getElem?_cons_succ] at h
      obtain ⟨h1, h2⟩ := ih m s h
      simp only [List.take_succ_cons, vertexTotal, indexTotal, h1, h2]
      omega

/-! ## The conversion -/

theorem convert_eq_some {src : SourceMesh G} {out : BabylonMesh G}
    (h : convert src = some out) :
    ∃ submeshes, polygonPass src = some submeshes ∧ out = flatten src submeshes := by
  unfold convert at h
  split at h
  · rename_i submeshes hp
    exact ⟨submeshes, hp, by simpa using h.symm⟩
  · exact absurd h (by simp)

theorem flatten_positions_length (src : SourceMesh G) (submeshes : List (SubmeshData G)) :
    (flatten src submeshes).positions.length = vertexTotal submeshes := by
  rw [(flatten_fields src submeshes).1, length_globalPositions]

/-- The conversion produces a mesh when every polygon is routed to an existing slot. -/
theorem convert_isSome (src : SourceMesh G)
    (h : ∀ i, i < src.triangles.length → 0 ≤ materialIndexOf src i ∧
      (materialIndexOf src i).toNat < submeshCount src) :
    ∃ out, convert src = some out := by
  obtain ⟨submeshes, hp⟩ := polygonPass_isSome src h
  exact ⟨flatten src submeshes, by simp [convert, hp]⟩

/-- The descriptor of slot `m` in the flattened mesh. -/
theorem flatten_descriptor (src : SourceMesh G) (submeshes : List (SubmeshData G)) (m : Nat) :
    (flatten src submeshes).submeshes[m]? =
      (submeshes[m]?).map (fun s =>
        { materialIndex := m
          verticesStart := vertexTotal (submeshes.take m)
          verticesCount := s.vertices.length
          indexStart := indexTotal (submeshes.take m)
          indexCount := s.indices.length }) := by
  rw [(flatten_fields src submeshes).2.2, layout_getElem?]
  simp

/-- The global index of every local index of slot `m`, after a polygon pass with
fewer than `2 ^ 32` corners: the local index is a position of the slot's vertex
buffer, and the global entry is the local index plus the vertex count of the earlier
slots. -/
theorem flatten_rebased {src : SourceMesh F} {submeshes : List (SubmeshData F)}
    (h : polygonPass src = some submeshes) (hb : 3 * src.triangles.length < 2 ^ 32)
    (m : Nat) (sm : SubmeshData F) (hm : submeshes[m]? = some sm) (j i : Nat)
    (hj : sm.indices[j]? = some i) :
    i < sm.vertices.length ∧
      (flatten src submeshes).indices[indexTotal (submeshes.take m) + j]? =
        some (i + vertexTotal (submeshes.take m)) := by
  obtain ⟨hl, hslot⟩ := polygonPass_slot h
  have hlt : m < submeshCount src := by
    rw [← hl]
    exact (List.getElem?_eq_some.mp hm).1
  have hsm := hslot m hlt
  rw [hm, Option.some.injEq] at hsm
  have hr := length_routedTo_le src m src.triangles 0
  have hi : i < sm.vertices.length := by
    rw [hsm]
    apply processTriangles_index_lt src _ (by omega)
    rw [← hsm]
    exact List.getElem?_mem hj
  have htot := polygonPass_vertexTotal_le h
  have htake := vertexTotal_take_le submeshes m sm hm
  have e1 : u32 (vertexTotal (submeshes.take m)) = vertexTotal (submeshes.take m) :=
    u32_of_lt (by omega)
  have e2 : u32 (i + vertexTotal (submeshes.take m)) = i + vertexTotal (submeshes.take m) :=
    u32_of_lt (by omega)
  refine ⟨hi, ?_⟩
  rw [(flatten_fields src submeshes).2.1, globalIndices_getElem? submeshes 0 m sm j i hm hj,
    Nat.zero_add, e1, e2]

/-- C2. Index range invariant (fewer than `2 ^ 32` corners): for every submesh
descriptor `S` of the flattened mesh, every entry of the global index array at a
position in `[S.indexStart, S.indexStart + S.indexCount)` exists and has a value in
`[S.verticesStart, S.verticesStart + S.verticesCount)`. -/
theorem index_range_invariant (src : SourceMesh F) (out : BabylonMesh F)
    (hb : 3 * src.triangles.length < 2 ^ 32) (h : convert src = some out)
    (S : BabylonSubmesh) (hS : S ∈ out.submeshes) (p : Nat) (hp1 : S.indexStart ≤ p)
    (hp2 : p < S.indexStart + S.indexCount) :
    ∃ g, out.indices[p]? = some g ∧ S.verticesStart ≤ g ∧
      g < S.verticesStart + S.verticesCount := by
  obtain ⟨submeshes, hpass, rfl⟩ := convert_eq_some h
  obtain ⟨m, hm⟩ := List.mem_iff_getElem?.mp hS
  rw [flatten_descriptor] at hm
  cases hsm : submeshes[m]? with
  | none => simp [hsm] at hm
  | some sm =>
    rw [hsm, Option.map_some', Option.some.injEq] at hm
    subst hm
    simp only at hp1 hp2 ⊢
    have hj : p - indexTotal (submeshes.take m) < sm.indices.length := by omega
    obtain ⟨hi, hg⟩ := flatten_rebased hpass hb m sm hsm (p - indexTotal (submeshes.take m))
      sm.indices[p - indexTotal (submeshes.take m)] (List.getElem?_eq_getElem hj)
    have e : indexTotal (submeshes.take m) + (p - indexTotal (submeshes.take m)) = p := by
      omega
    rw [e] at hg
    exact ⟨_, hg, by omega, by omega⟩

/-- Witness of C2 on the sample mesh: position 7 lies in the index range `[6, 9)` of
the second submesh and its entry lies in that submesh's vertex range `[3, 6)`. -/
theorem index_range_invariant_witness :
    convert sampleMesh = some sampleOut ∧
    ∃ g, sampleOut.indices[7]? = some g ∧ 3 ≤ g ∧ g < 3 + 3 :=
  ⟨by decide,
    index_range_invariant sampleMesh sampleOut (by decide) (by decide)
      { materialIndex := 1, verticesStart := 3, verticesCount := 3, indexStart := 6,
        indexCount := 3 } (by decide) 7 (by decide) (by decide)⟩

/-- C3. Conservation: in the flattened mesh the vertex counts of the submeshes sum to
the length of the positions array, their index counts sum to the length of the global
index array, and that length is a multiple of 3. -/
theorem conservation (src : SourceMesh F) (out : BabylonMesh F)
    (h : convert src = some out) :
    (out.submeshes.map (fun S => S.verticesCount)).sum = out.positions.length ∧
    (out.submeshes.map (fun S => S.indexCount)).sum = out.indices.length ∧
    out.indices.length % 3 = 0 := by
  obtain ⟨submeshes, hpass, rfl⟩ := convert_eq_some h
  obtain ⟨f1, f2, f3⟩ := flatten_fields src submeshes
  obtain ⟨s1, s2⟩ := layout_sums submeshes 0 0 0
  obtain ⟨hl, hslot⟩ := polygonPass_slot hpass
  rw [f1, f2, f3, s1, s2, length_globalPositions, length_globalIndices]
  refine ⟨rfl, rfl, indexTotal_mod submeshes ?_⟩
  intro s hs
  obtain ⟨m, hm⟩ := List.mem_iff_getElem?.mp hs
  have hlt : m < submeshCount src := by
    rw [← hl]
    exact (List.getElem?_eq_some.mp hm).1
  have e := hslot m hlt
  rw [hm, Option.some.injEq] at e
  rw [e, processTriangles_indices_mod]
  rfl

/-- Witness of C3 on the sample mesh: `3 + 3 = 6` vertices and `6 + 3 = 9` indices. -/
theorem conservation_witness :
    convert sampleMesh = some sampleOut ∧
    (sampleOut.submeshes.map (fun S => S.verticesCount)).sum = sampleOut.positions.length ∧
    (sampleOut.submeshes.map (fun S => S.indexCount)).sum = sampleOut.indices.length ∧
    sampleOut.indices.length % 3 = 0 :=
  ⟨by decide, conservation sampleMesh sampleOut (by decide)⟩

/-- C6. Re-basing (fewer than `2 ^ 32` corners): the flattened mesh is the flatten step
applied to the submeshes of the polygon pass; for every slot `m` with submesh `sm` and
descriptor `S`, the index count is the length of the local index list, `verticesStart`
is the number of global vertices before the vertices of this submesh were appended
(the length of the positions array after flattening the earlier submeshes only), and
for every position `k` of the local index list the global entry at `S.indexStart + k`
is the `k`-th local index plus `S.verticesStart`. -/
theorem rebased_global_indices (src : SourceMesh F) (out : BabylonMesh F)
    (hb : 3 * src.triangles.length < 2 ^ 32) (h : convert src = some out) :
    ∃ submeshes, polygonPass src = some submeshes ∧ out = flatten src submeshes ∧
      out.submeshes.length = submeshes.length ∧
      ∀ (m : Nat) (sm : SubmeshData F) (S : BabylonSubmesh),
        submeshes[m]? = some sm → out.submeshes[m]? = some S →
        S.indexCount = sm.indices.length ∧
        S.verticesStart = (flatten src (submeshes.take m)).positions.length ∧
        ∀ (k i : Nat), sm.indices[k]? = some i →
          out.indices[S.indexStart + k]? = some (i + S.verticesStart) := by
  obtain ⟨submeshes, hpass, rfl⟩ := convert_eq_some h
  refine ⟨submeshes, hpass, rfl, ?_, ?_⟩
  · have hlen : ∀ (l : List (SubmeshData F)) (k vs is : Nat),
        (layout k vs is l).length = l.length := by
      intro l
      induction l with
      | nil => intro k vs is; rfl
      | cons s rest ih => intro k vs is; simp [layout, ih]
    rw [(flatten_fields src submeshes).2.2, hlen]
  · intro m sm S hsm hS
    rw [flatten_descriptor, hsm, Option.map_some', Option.some.injEq] at hS
    subst hS
    refine ⟨rfl, ?_, ?_⟩
    · rw [flatten_positions_length]
    · intro k i hk
      exact (flatten_rebased hpass hb m sm hsm k i hk).2

/-- Witness of C6 on the sample mesh: the three local indices `0, 1, 2` of slot 1 are
stored at positions `6, 7, 8` as `3, 4, 5`. -/
theorem rebased_global_indices_witness :
    convert sampleMesh = some sampleOut ∧
    sampleOut.indices[6 + 1]? = some (1 + 3) ∧
    ∃ submeshes, polygonPass sampleMesh = some submeshes ∧
      sampleOut = flatten sampleMesh submeshes ∧
      sampleOut.submeshes.length = submeshes.length ∧
      ∀ (m : Nat) (sm : SubmeshData Int) (S : BabylonSubmesh),
        submeshes[m]? = some sm → sampleOut.submeshes[m]? = some S →
        S.indexCount = sm.indices.length ∧
        S.verticesStart = (flatten sampleMesh (submeshes.take m)).positions.length ∧
        ∀ (k i : Nat), sm.indices[k]? = some i →
          sampleOut.indices[S.indexStart + k]? = some (i + S.verticesStart) :=
  ⟨by decide, by decide, rebased_global_indices sampleMesh sampleOut (by decide) (by decide)⟩

/-- C7. Tiling: in the flattened mesh the first descriptor starts at vertex 0 and
index 0; every later descriptor starts where the one before it ends, in the vertex
array and in the index array; the last descriptor ends at the end of both arrays; and
a slot to which no polygon is routed has a vertex count and an index count of zero. -/
theorem submeshes_tile (src : SourceMesh F) (out : BabylonMesh F)
    (h : convert src = some out) :
    (∀ S, out.submeshes[0]? = some S → S.verticesStart = 0 ∧ S.indexStart = 0) ∧
    (∀ (m : Nat) (A B : BabylonSubmesh),
      out.submeshes[m]? = some A → out.submeshes[m + 1]? = some B →
      B.verticesStart = A.verticesStart + A.verticesCount ∧
      B.indexStart = A.indexStart + A.indexCount) ∧
    (∀ (m : Nat) (S : BabylonSubmesh),
      out.submeshes[m]? = some S → m + 1 = out.submeshes.length →
      S.verticesStart + S.verticesCount = out.positions.length ∧
      S.indexStart + S.indexCount = out.indices.length) ∧
    (∀ (m : Nat) (S : BabylonSubmesh),
      out.submeshes[m]? = some S → routedTo src m 0 src.triangles = [] →
      S.verticesCount = 0 ∧ S.indexCount = 0) := by
  obtain ⟨submeshes, hpass, rfl⟩ := convert_eq_some h
  obtain ⟨hl, hslot⟩ := polygonPass_slot hpass
  have hdesc : ∀ (m : Nat) (S : BabylonSubmesh), (flatten src submeshes).submeshes[m]? = some S →
      ∃ sm, submeshes[m]? = some sm ∧
        S = { materialIndex := m
              verticesStart := vertexTotal (submeshes.take m)
              verticesCount := sm.vertices.length
              indexStart := indexTotal (submeshes.take m)
              indexCount := sm.indices.length } := by
    intro m S hS
    rw [flatten_descriptor] at hS
    cases hsm : submeshes[m]? with
    | none => simp [hsm] at hS
    | some sm =>
      rw [hsm, Option.map_some', Option.some.injEq] at hS
      exact ⟨sm, rfl, hS.symm⟩
  refine ⟨?_, ?_, ?_, ?_⟩
  · intro S hS
    obtain ⟨sm, _, rfl⟩ := hdesc 0 S hS
    exact ⟨rfl, rfl⟩
  · intro m A B hA hB
    obtain ⟨sa, hsa, rfl⟩ := hdesc m A hA
    obtain ⟨sb, _, rfl⟩ := hdesc (m + 1) B hB
    exact totals_take_succ submeshes m sa hsa
  · intro m S hS hlast
    obtain ⟨sm, hsm, rfl⟩ := hdesc m S hS
    obtain ⟨h1, h2⟩ := totals_take_succ submeshes m sm hsm
    have hlen : m + 1 = submeshes.length := by
      have hlay : ∀ (l : List (SubmeshData F)) (k vs is : Nat),
          (layout k vs is l).length = l.length := by
        intro l
        induction l with
        | nil => intro k vs is; rfl
        | cons s rest ih => intro k vs is; simp [layout, ih]
      rw [(flatten_fields src submeshes).2.2, hlay] at hlast
      exact hlast
    rw [hlen, List.take_length] at h1 h2
    rw [flatten_positions_length, (flatten_fields src submeshes).2.1, length_globalIndices]
    exact ⟨h1.symm, h2.symm⟩
  · intro m S hS hempty
    obtain ⟨sm, hsm, rfl⟩ := hdesc m S hS
    have hlt : m < submeshCount src := by
      rw [← hl]
      exact (List.getElem?_eq_some.mp hsm).1
    have e := hslot m hlt
    rw [hsm, hempty, Option.some.injEq] at e
    subst e
    exact ⟨rfl, rfl⟩

/-- Witness of C7 on the sample mesh: the descriptor of slot 1 starts where the
descriptor of slot 0 ends, at vertex `0 + 3` and index `0 + 6`. -/
theorem submeshes_tile_witness :
    convert sampleMesh = some sampleOut ∧
    ({ materialIndex := 1, verticesStart := 3, verticesCount := 3, indexStart := 6,
       indexCount := 3 } : BabylonSubmesh).verticesStart =
      ({ materialIndex := 0, verticesStart := 0, verticesCount := 3, indexStart := 0,
         indexCount := 6 } : BabylonSubmesh).verticesStart +
      ({ materialIndex := 0, verticesStart := 0, verticesCount := 3, indexStart := 0,
         indexCount := 6 } : BabylonSubmesh).verticesCount ∧
    ({ materialIndex := 1, verticesStart := 3, verticesCount := 3, indexStart := 6,
       indexCount := 3 } : BabylonSubmesh).indexStart =
      ({ materialIndex := 0, verticesStart := 0, verticesCount := 3, indexStart := 0,
         indexCount := 6 } : BabylonSubmesh).indexStart +
      ({ materialIndex := 0, verticesStart := 0, verticesCount := 3, indexStart := 0,
         indexCount := 6 } : BabylonSubmesh).indexCount :=
  ⟨by decide,
    (submeshes_tile sampleMesh sampleOut (by decide)).2.1 0 _ _ (by decide) (by decide)⟩

theorem globalPositions_getElem? (submeshes : List (SubmeshData G)) :
    ∀ (m : Nat) (s : SubmeshData G) (j : Nat) (v : BabylonVertex G), submeshes[m]? = some s →
      s.vertices[j]? = some v →
      (globalPositions submeshes)[vertexTotal (submeshes.take m) + j]? = some v.position := by
  induction submeshes with
  | nil => intro m s j v h; simp at h
  | cons s0 rest ih =>
    intro m s j v h hj
    cases m with
    | zero =>
      simp only [List.getElem?_cons_zero, Option.some.injEq] at h
      subst h
      have hlt : j < s0.vertices.length := (List.getElem?_eq_some.mp hj).1
      simp only [globalPositions, List.take_zero, vertexTotal, Nat.zero_add]
      rw [List.getElem?_append_left (by simpa using hlt), List.getElem?_map, hj]
      rfl
    | succ m =>
      simp only [List.getElem?_cons_succ] at h
      have := ih m s j v h hj
      simp only [globalPositions, List.take_succ_cons, vertexTotal]
      rw [List.getElem?_append_right (by simp; omega)]
      have e : s0.vertices.length + vertexTotal (List.take m rest) + j -
          (List.map (fun v => v.position) s0.vertices).length =
          vertexTotal (List.take m rest) + j := by
        simp
        omega
      rw [e, this]

theorem weldedTriangles_append (src : SourceMesh G) (pre post : List (SourceTriangle G)) :
    ∀ submesh : SubmeshData G,
      weldedTriangles src submesh (pre ++ post) =
        weldedTriangles src submesh pre ++
          weldedTriangles src (processTriangles src submesh pre) post := by
  induction pre with
  | nil => intro submesh; rfl
  | cons tri rest ih =>
    intro submesh
    have e : processTriangles src submesh (tri :: rest) =
        processTriangles src (addTriangle src submesh tri) rest := rfl
    rw [List.cons_append, weldedTriangles, weldedTriangles, ih, e, List.cons_append]

/-- The first corner of a slot: its key opens the vertex buffer, it is welded to local
index 0, and the index list of the slot starts with 0. -/
theorem first_corner_of_slot (src : SourceMesh F) (tri : SourceTriangle F)
    (rest : List (SourceTriangle F)) (hb : 3 * (tri :: rest).length < 2 ^ 32) :
    (cornerIndices src SubmeshData.empty (tri :: rest))[0]? = some 0 ∧
    (processTriangles src SubmeshData.empty (tri :: rest)).vertices[0]? =
      some (makeVertex src tri.corner0) ∧
    (processTriangles src SubmeshData.empty (tri :: rest)).indices[0]? = some 0 ∧
    (processTriangles src SubmeshData.empty (tri :: rest)).vertices.count
      (makeVertex src tri.corner0) = 1 := by
  obtain ⟨ht, hw⟩ := processTriangles_empty src (tri :: rest) hb
  have hk : cornerKeys src (tri :: rest) =
      makeVertex src tri.corner0 ::
        (makeVertex src tri.corner1 :: makeVertex src tri.corner2 :: cornerKeys src rest) := by
    simp [cornerKeys, triangleKeys]
  have hV : firstOccurrences (cornerKeys src (tri :: rest)) =
      makeVertex src tri.corner0 ::
        (firstOccurrences (makeVertex src tri.corner1 :: makeVertex src tri.corner2 ::
          cornerKeys src rest)).filter (fun b => b ≠ makeVertex src tri.corner0) := by
    rw [hk, firstOccurrences]
  have hi0 : (positionTriple src (firstOccurrences (cornerKeys src (tri :: rest))) tri).i0 =
      0 := by
    simp only [positionTriple]
    rw [hV]
    exact List.indexOf_cons_self _ _
  refine ⟨?_, ?_, ?_, ?_⟩
  · unfold cornerIndices
    rw [hw, List.map_cons, List.flatMap_cons]
    simp only [triangle.toList, List.cons_append, List.getElem?_cons_zero, hi0]
  · rw [ht.vertices, hV, List.getElem?_cons_zero]
  · rw [ht.indices, List.map_cons, firstOccurrences, List.flatMap_cons]
    simp only [triangle.toList, List.cons_append, List.getElem?_cons_zero, hi0]
  · rw [ht.vertices]
    apply List.count_eq_one_of_mem (nodup_firstOccurrences _)
    rw [hV]
    exact List.mem_cons_self _ _

/-- C10. Independent welding per material slot (fewer than `2 ^ 32` corners). After
the polygon pass the submesh of each slot is the empty submesh after the polygons
routed to that slot alone, and the indices welded for a prefix of those polygons do
not depend on what follows. When slot 0 and slot 1 both receive polygons and their
first corners carry the same key `v`, each first corner gets local index 0; in the
flattened mesh their global indices, stored at the start of each submesh's index
range, are 0 and the vertex count of submesh 0; `v` occurs once in the vertex buffer of
each of the two submeshes, and its position is stored at global vertices 0 and
`verticesCount` of submesh 0. -/
theorem slots_weld_independently (src : SourceMesh F) (out : BabylonMesh F)
    (hb : 3 * src.triangles.length < 2 ^ 32) (h : convert src = some out) :
    ∃ submeshes, polygonPass src = some submeshes ∧ out = flatten src submeshes ∧
      (∀ m, m < submeshCount src →
        submeshes[m]? =
          some (processTriangles src SubmeshData.empty (routedTo src m 0 src.triangles))) ∧
      (∀ pre post : List (SourceTriangle F),
        cornerIndices src SubmeshData.empty (pre ++ post) =
          cornerIndices src SubmeshData.empty pre ++
            cornerIndices src (processTriangles src SubmeshData.empty pre) post) ∧
      (∀ (tri0 tri1 : SourceTriangle F) (rest0 rest1 : List (SourceTriangle F)),
        routedTo src 0 0 src.triangles = tri0 :: rest0 →
        routedTo src 1 0 src.triangles = tri1 :: rest1 →
        makeVertex src tri0.corner0 = makeVertex src tri1.corner0 →
        ∃ (sm0 sm1 : SubmeshData F) (S0 S1 : BabylonSubmesh),
          submeshes[0]? = some sm0 ∧ submeshes[1]? = some sm1 ∧
          out.submeshes[0]? = some S0 ∧ out.submeshes[1]? = some S1 ∧
          (cornerIndices src SubmeshData.empty (routedTo src 0 0 src.triangles))[0]? = some 0 ∧
          (cornerIndices src SubmeshData.empty (routedTo src 1 0 src.triangles))[0]? = some 0 ∧
          sm0.indices[0]? = some 0 ∧ sm1.indices[0]? = some 0 ∧
          out.indices[S0.indexStart]? = some 0 ∧
          out.indices[S1.indexStart]? = some S0.verticesCount ∧
          sm0.vertices.count (makeVertex src tri0.corner0) = 1 ∧
          sm1.vertices.count (makeVertex src tri0.corner0) = 1 ∧
          out.positions[0]? = some (makeVertex src tri0.corner0).position ∧
          out.positions[S0.verticesCount]? = some (makeVertex src tri0.corner0).position) := by
  obtain ⟨submeshes, hpass, rfl⟩ := convert_eq_some h
  obtain ⟨hl, hslot⟩ := polygonPass_slot hpass
  refine ⟨submeshes, hpass, rfl, hslot, ?_, ?_⟩
  · intro pre post
    unfold cornerIndices
    rw [weldedTriangles_append, List.flatMap_append]
  · intro tri0 tri1 rest0 rest1 h0 h1 hkey
    have hr0 := length_routedTo_le src 0 src.triangles 0
    have hr1 := length_routedTo_le src 1 src.triangles 0
    have hcount : 1 < submeshCount src := by
      by_contra hc
      have hnone : submeshes[1]? = none := List.getElem?_eq_none (by omega)
      obtain ⟨_, hr⟩ := polygonLoop_routes src src.triangles 0 _ _ hpass
      have := hr 1
      rw [hnone, List.getElem?_replicate] at this
      split at this
      · omega
      · have hlist : ∀ (l : List (SourceTriangle F)) (start : Nat)
            (subs subs1 : List (SubmeshData F)),
            polygonLoop src start l subs = some subs1 → subs[1]? = none →
            routedTo src 1 start l = [] := by
          intro l
          induction l with
          | nil => intro start subs subs1 _ _; rfl
          | cons t l ih =>
            intro start subs subs1 hp hn
            rw [polygonLoop] at hp
            split at hp
            · rename_i mid hstep
              obtain ⟨m0, s0, hmi, hs0, hmid⟩ := polygonStep_eq_some hstep
              have hm0 : m0 ≠ 1 := by
                intro e
                rw [e, hn] at hs0
                exact absurd hs0 (by simp)
              have hne : ¬ ((m0 : Int) = ((1 : Nat) : Int)) := fun e => hm0 (by exact_mod_cast e)
              rw [routedTo, hmi, if_neg hne]
              apply ih _ _ _ hp
              rw [hmid, List.getElem?_set_ne hm0, hn]
            · exact absurd hp (by simp)
        have hempty := hlist src.triangles 0 _ _ hpass
          (by rw [List.getElem?_replicate]; simp; omega)
        rw [h1] at hempty
        exact absurd hempty (by simp)
    have hs0 := hslot 0 (by omega)
    have hs1 := hslot 1 hcount
    have hb0 : 3 * (tri0 :: rest0).length < 2 ^ 32 := by
      rw [← h0]
      omega
    have hb1 : 3 * (tri1 :: rest1).length < 2 ^ 32 := by
      rw [← h1]
      omega
    obtain ⟨a1, a2, a3, a4⟩ := first_corner_of_slot src tri0 rest0 hb0
    obtain ⟨b1, b2, b3, b4⟩ := first_corner_of_slot src tri1 rest1 hb1
    rw [← h0] at a1 a2 a3 a4
    rw [← h1] at b1 b2 b3 b4
    rw [← hkey] at b2 b4
    have d0 := flatten_descriptor src submeshes 0
    have d1 := flatten_descriptor src submeshes 1
    rw [hs0, Option.map_some'] at d0
    rw [hs1, Option.map_some'] at d1
    have g0 := (flatten_rebased hpass hb 0 _ hs0 0 0 a3).2
    have g1 := (flatten_rebased hpass hb 1 _ hs1 0 0 b3).2
    have p0 := globalPositions_getElem? submeshes 0 _ 0 _ hs0 a2
    have p1 := globalPositions_getElem? submeshes 1 _ 0 _ hs1 b2
    have t1 := (totals_take_succ submeshes 0 _ hs0).1
    simp only [List.take_zero, vertexTotal, indexTotal, Nat.zero_add, Nat.add_zero] at g0 g1 p0 p1 t1
    rw [t1] at g1 p1
    refine ⟨_, _, _, _, hs0, hs1, d0, d1, a1, b1, a3, b3, ?_, ?_, a4, b4, ?_, ?_⟩
    · simpa [vertexTotal, indexTotal] using g0
    · simpa using g1
    · rw [(flatten_fields src submeshes).1]
      exact p0
    · rw [(flatten_fields src submeshes).1]
      simpa using p1


/-- Witness of C10 on the sample mesh: the first corners of slot 0 and slot 1 are both
at `(0, 0, 0)`; their global indices are 0 and 3, the vertex count of submesh 0. -/
theorem slots_weld_independently_witness :
    convert sampleMesh = some sampleOut ∧
    ∃ S0 S1 : BabylonSubmesh,
      sampleOut.submeshes[0]? = some S0 ∧ sampleOut.submeshes[1]? = some S1 ∧
      S0.verticesCount = 3 ∧
      sampleOut.indices[S0.indexStart]? = some 0 ∧
      sampleOut.indices[S1.indexStart]? = some S0.verticesCount ∧
      sampleOut.positions[0]? = some (makeVertex sampleMesh (sampleCorner 0)).position ∧
      sampleOut.positions[S0.verticesCount]? =
        some (makeVertex sampleMesh (sampleCorner 0)).position := by
  refine ⟨by decide, ?_⟩
  obtain ⟨submeshes, _, _, _, _, hsc⟩ :=
    slots_weld_independently sampleMesh sampleOut (by decide) (by decide)
  obtain ⟨sm0, sm1, S0, S1, _, _, d0, d1, _, _, _, _, g0, g1, _, _, p0, p1⟩ :=
    hsc (sampleTriangle 0 1 2) (sampleTriangle 0 1 3)
      [sampleTriangle 0 1 2, sampleTriangle 2 1 0] [] (by decide) (by decide) (by decide)
  have hc : S0.verticesCount = 3 := by
    have e : sampleOut.submeshes[0]? =
        some { materialIndex := 0, verticesStart := 0, verticesCount := 3, indexStart := 0,
               indexCount := 6 } := by decide
    rw [e, Option.some.injEq] at d0
    rw [← d0]
  exact ⟨S0, S1, d0, d1, hc, g0, g1, p0, p1⟩


/-! ## The number of submeshes -/

theorem length_layout (submeshes : List (SubmeshData G)) :
    ∀ (k vs is : Nat), (layout k vs is submeshes).length = submeshes.length := by
  induction submeshes with
  | nil => intro k vs is; rfl
  | cons s rest ih => intro k vs is; simp [layout, ih]

/-- The flattened mesh has one descriptor per slot of the polygon pass. -/
theorem convert_submeshes_length {src : SourceMesh G} {out : BabylonMesh G}
    (h : convert src = some out) : out.submeshes.length = submeshCount src := by
  obtain ⟨submeshes, hpass, rfl⟩ := convert_eq_some h
  rw [(flatten_fields src submeshes).2.2, length_layout]
  exact (polygonPass_slot hpass).1

theorem polygonLoop_in_range (src : SourceMesh G) (tris : List (SourceTriangle G)) :
    ∀ (start : Nat) (submeshes submeshes1 : List (SubmeshData G)),
      polygonLoop src start tris submeshes = some submeshes1 →
      ∀ i, i < tris.length → 0 ≤ materialIndexOf src (start + i) ∧
        (materialIndexOf src (start + i)).toNat < submeshes.length := by
  induction tris with
  | nil => intro start submeshes submeshes1 _ i hi; simp at hi
  | cons tri rest ih =>
    intro start submeshes submeshes1 h i hi
    rw [polygonLoop] at h
    split at h
    · rename_i mid hstep
      obtain ⟨m0, sm0, hmi, hs0, hmid⟩ := polygonStep_eq_some hstep
      cases i with
      | zero =>
        rw [Nat.add_zero, hmi]
        exact ⟨by omega, by simpa using (List.getElem?_eq_some.mp hs0).1⟩
      | succ i =>
        have := ih _ _ _ h i (by simpa using hi)
        have e : start + (i + 1) = start + 1 + i := by omega
        rw [e]
        rw [hmid, List.length_set] at this
        exact this
    · exact absurd h (by simp)

/-- A successful conversion routed every polygon to an existing slot. -/
theorem convert_in_range {src : SourceMesh G} {out : BabylonMesh G}
    (h : convert src = some out) :
    ∀ i, i < src.triangles.length → 0 ≤ materialIndexOf src i ∧
      (materialIndexOf src i).toNat < submeshCount src := by
  obtain ⟨submeshes, hpass, _⟩ := convert_eq_some h
  intro i hi
  have := polygonLoop_in_range src src.triangles 0 _ _ hpass i hi
  simpa using this

/-- C11. A source mesh that declares zero materials: the conversion yields exactly one
submesh descriptor, with material index 0, vertex range `[0, length of positions)` and
index range `[0, length of the global index array)`. -/
theorem zero_materials_one_submesh (src : SourceMesh F) (out : BabylonMesh F)
    (h0 : src.materialCount = 0) (h : convert src = some out) :
    out.submeshes =
      [{ materialIndex := 0, verticesStart := 0, verticesCount := out.positions.length,
         indexStart := 0, indexCount := out.indices.length }] := by
  obtain ⟨submeshes, hpass, rfl⟩ := convert_eq_some h
  obtain ⟨hl, _⟩ := polygonPass_slot hpass
  have hc : submeshCount src = 1 := by simp [submeshCount, h0]
  rw [hc] at hl
  obtain ⟨f1, f2, f3⟩ := flatten_fields src submeshes
  match submeshes, hl with
  | [s], _ =>
    rw [f1, f2, f3]
    simp [layout, globalPositions, globalIndices]

/-- Witness of C11 on a mesh without materials and two polygons: one descriptor covers
the four vertices and the six indices. -/
theorem zero_materials_one_submesh_witness :
    sampleMeshNoMaterial.materialCount = 0 ∧
    (∃ out, convert sampleMeshNoMaterial = some out ∧
      out.positions.length = 4 ∧ out.indices = [0, 1, 2, 2, 1, 3] ∧
      out.submeshes =
        [{ materialIndex := 0, verticesStart := 0, verticesCount := out.positions.length,
           indexStart := 0, indexCount := out.indices.length }]) :=
  ⟨rfl, (flatten sampleMeshNoMaterial
      [processTriangles sampleMeshNoMaterial SubmeshData.empty
        sampleMeshNoMaterial.triangles]),
    by decide, by decide, by decide,
    zero_materials_one_submesh sampleMeshNoMaterial _ rfl (by decide)⟩

/-- C12, as stated, fails. A mesh that declares two materials and whose only polygon
uses slot 0 is converted to two submesh descriptors, while its polygons use one
distinct slot. -/
theorem unused_slot_counterexample :
    (convert sampleMeshUnusedSlot).map (fun out => out.submeshes.length) = some 2 ∧
    max 1 (distinctSlotsUsed sampleMeshUnusedSlot) = 1 := by
  decide

theorem nodup_nat_length_le (l : List Nat) (n : Nat) (hn : l.Nodup) (hlt : ∀ x ∈ l, x < n) :
    l.length ≤ n := by
  have hsub : l ⊆ List.range n := fun x hx => List.mem_range.mpr (hlt x hx)
  have := (List.subperm_of_subset hn hsub).length_le
  simpa using this

/-- C12, amended. The number of submesh descriptors of the conversion equals the number
of materials the source node declares, or one when it declares none; this number is
at least the number of distinct material slots used by the polygons. -/
theorem submesh_count_is_declared_count (src : SourceMesh F) (out : BabylonMesh F)
    (h : convert src = some out) :
    out.submeshes.length = max 1 src.materialCount ∧
    distinctSlotsUsed src ≤ out.submeshes.length := by
  have hlen := convert_submeshes_length h
  have hr := convert_in_range h
  have hc : submeshCount src = max 1 src.materialCount := by
    unfold submeshCount
    split
    · rename_i h0
      simp [h0]
    · omega
  refine ⟨by rw [hlen, hc], ?_⟩
  rw [hlen]
  unfold distinctSlotsUsed usedSlots
  have hnd := nodup_firstOccurrences
    ((List.range src.triangles.length).map (materialIndexOf src))
  have hmem : ∀ x ∈ firstOccurrences
      ((List.range src.triangles.length).map (materialIndexOf src)),
      0 ≤ x ∧ x.toNat < submeshCount src := by
    intro x hx
    rw [mem_firstOccurrences] at hx
    obtain ⟨i, hi, rfl⟩ := List.mem_map.mp hx
    exact hr i (List.mem_range.mp hi)
  have hinj : ((firstOccurrences
      ((List.range src.triangles.length).map (materialIndexOf src))).map Int.toNat).Nodup := by
    apply List.Nodup.map_on _ hnd
    intro x hx y hy e
    have hx0 := (hmem x hx).1
    have hy0 := (hmem y hy).1
    omega
  have := nodup_nat_length_le _ (submeshCount src) hinj (by
    intro x hx
    obtain ⟨y, hy, rfl⟩ := List.mem_map.mp hx
    exact (hmem y hy).2)
  simpa using this

/-- Witness of the amended C12 on the mesh with an unused second slot: two declared
materials, two descriptors. -/
theorem submesh_count_is_declared_count_witness :
    ∃ out, convert sampleMeshUnusedSlot = some out ∧
      out.submeshes.length = max 1 sampleMeshUnusedSlot.materialCount ∧
      distinctSlotsUsed sampleMeshUnusedSlot ≤ out.submeshes.length :=
  ⟨flatten sampleMeshUnusedSlot
      [processTriangles sampleMeshUnusedSlot SubmeshData.empty [sampleTriangle 0 1 2],
        SubmeshData.empty],
    by decide,
    submesh_count_is_declared_count sampleMeshUnusedSlot _ (by decide)⟩


/-! ## The attribute arrays of the flattened mesh -/

theorem foldl_pushVertex_attributes (src : SourceMesh G) (vs : List (BabylonVertex G)) :
    ∀ mesh : BabylonMesh G,
      (vs.foldl (pushVertex src) mesh).normals =
          mesh.normals ++ (if src.normals then vs.map (fun v => v.normal) else []) ∧
        (vs.foldl (pushVertex src) mesh).colors =
          mesh.colors ++ (if src.colors then vs.map (fun v => v.color) else []) ∧
        (vs.foldl (pushVertex src) mesh).uvs =
          mesh.uvs ++ (if src.uvs then vs.map (fun v => v.uv) else []) ∧
        (vs.foldl (pushVertex src) mesh).uvs2 =
          mesh.uvs2 ++ (if src.uvs2 then vs.map (fun v => v.uv2) else []) ∧
        (vs.foldl (pushVertex src) mesh).boneWeights =
          mesh.boneWeights ++ (if src.hasSkin then vs.map packBoneWeights else []) ∧
        (vs.foldl (pushVertex src) mesh).boneIndices =
          mesh.boneIndices ++ (if src.hasSkin then vs.map packBoneIndices else []) := by
  induction vs with
  | nil => intro mesh; simp
  | cons v rest ih =>
    intro mesh
    obtain ⟨h1, h2, h3, h4, h5, h6⟩ := ih (pushVertex src mesh v)
    rw [List.foldl_cons, h1, h2, h3, h4, h5, h6]
    refine ⟨?_, ?_, ?_, ?_, ?_, ?_⟩
    · cases hf : src.normals <;> simp [pushVertex, hf]
    · cases hf : src.colors <;> simp [pushVertex, hf]
    · cases hf : src.uvs <;> simp [pushVertex, hf]
    · cases hf : src.uvs2 <;> simp [pushVertex, hf]
    · cases hf : src.hasSkin <;> simp [pushVertex, hf]
    · cases hf : src.hasSkin <;> simp [pushVertex, hf]

theorem flattenStep_attributes (src : SourceMesh G) (state : BabylonMesh G × Nat)
    (matIndex : Nat) (submesh : SubmeshData G) :
    (flattenStep src state matIndex submesh).1.normals =
        state.1.normals ++
          (if src.normals then submesh.vertices.map (fun v => v.normal) else []) ∧
      (flattenStep src state matIndex submesh).1.colors =
        state.1.colors ++
          (if src.colors then submesh.vertices.map (fun v => v.color) else []) ∧
      (flattenStep src state matIndex submesh).1.uvs =
        state.1.uvs ++ (if src.uvs then submesh.vertices.map (fun v => v.uv) else []) ∧
      (flattenStep src state matIndex submesh).1.uvs2 =
        state.1.uvs2 ++ (if src.uvs2 then submesh.vertices.map (fun v => v.uv2) else []) ∧
      (flattenStep src state matIndex submesh).1.boneWeights =
        state.1.boneWeights ++
          (if src.hasSkin then submesh.vertices.map packBoneWeights else []) ∧
      (flattenStep src state matIndex submesh).1.boneIndices =
        state.1.boneIndices ++
          (if src.hasSkin then submesh.vertices.map packBoneIndices else []) :=
  foldl_pushVertex_attributes src submesh.vertices state.1

theorem flattenLoop_attributes (src : SourceMesh G) (submeshes : List (SubmeshData G)) :
    ∀ (k : Nat) (state : BabylonMesh G × Nat),
      (flattenLoop src k submeshes state).1.normals =
          state.1.normals ++
            (if src.normals then globalAttribute (fun v => v.normal) submeshes else []) ∧
        (flattenLoop src k submeshes state).1.colors =
          state.1.colors ++
            (if src.colors then globalAttribute (fun v => v.color) submeshes else []) ∧
        (flattenLoop src k submeshes state).1.uvs =
          state.1.uvs ++ (if src.uvs then globalAttribute (fun v => v.uv) submeshes else []) ∧
        (flattenLoop src k submeshes state).1.uvs2 =
          state.1.uvs2 ++
            (if src.uvs2 then globalAttribute (fun v => v.uv2) submeshes else []) ∧
        (flattenLoop src k submeshes state).1.boneWeights =
          state.1.boneWeights ++
            (if src.hasSkin then globalAttribute packBoneWeights submeshes else []) ∧
        (flattenLoop src k submeshes state).1.boneIndices =
          state.1.boneIndices ++
            (if src.hasSkin then globalAttribute packBoneIndices submeshes else []) := by
  induction submeshes with
  | nil =>
    intro k state
    simp [flattenLoop, globalAttribute]
  | cons s rest ih =>
    intro k state
    obtain ⟨h1, h2, h3, h4, h5, h6⟩ := flattenStep_attributes src state k s
    obtain ⟨g1, g2, g3, g4, g5, g6⟩ := ih (k + 1) (flattenStep src state k s)
    rw [flattenLoop, g1, g2, g3, g4, g5, g6, h1, h2, h3, h4, h5, h6]
    refine ⟨?_, ?_, ?_, ?_, ?_, ?_⟩
    · cases hf : src.normals <;> simp [globalAttribute, hf]
    · cases hf : src.colors <;> simp [globalAttribute, hf]
    · cases hf : src.uvs <;> simp [globalAttribute, hf]
    · cases hf : src.uvs2 <;> simp [globalAttribute, hf]
    · cases hf : src.hasSkin <;> simp [globalAttribute, hf]
    · cases hf : src.hasSkin <;> simp [globalAttribute, hf]

/-- The optional attribute arrays of the flattened mesh: each is empty when its layer
element is absent and holds one value per vertex, in vertex order, otherwise. -/
theorem flatten_attributes (src : SourceMesh G) (submeshes : List (SubmeshData G)) :
    (flatten src submeshes).normals =
        (if src.normals then globalAttribute (fun v => v.normal) submeshes else []) ∧
      (flatten src submeshes).colors =
        (if src.colors then globalAttribute (fun v => v.color) submeshes else []) ∧
      (flatten src submeshes).uvs =
        (if src.uvs then globalAttribute (fun v => v.uv) submeshes else []) ∧
      (flatten src submeshes).uvs2 =
        (if src.uvs2 then globalAttribute (fun v => v.uv2) submeshes else []) ∧
      (flatten src submeshes).boneWeights =
        (if src.hasSkin then globalAttribute packBoneWeights submeshes else []) ∧
      (flatten src submeshes).boneIndices =
        (if src.hasSkin then globalAttribute packBoneIndices submeshes else []) := by
  have h := flattenLoop_attributes src submeshes 0 (BabylonMesh.empty, 0)
  simpa [flatten, BabylonMesh.empty] using h

theorem length_globalAttribute {α : Type} (f : BabylonVertex G → α)
    (submeshes : List (SubmeshData G)) :
    (globalAttribute f submeshes).length = vertexTotal submeshes := by
  induction submeshes with
  | nil => rfl
  | cons s rest ih => simp [globalAttribute, vertexTotal, ih]

theorem globalPositions_eq (submeshes : List (SubmeshData G)) :
    globalPositions submeshes = globalAttribute (fun v => v.position) submeshes := by
  induction submeshes with
  | nil => rfl
  | cons s rest ih => simp [globalPositions, globalAttribute, ih]

theorem globalAttribute_getElem? {α : Type} (f : BabylonVertex G → α)
    (submeshes : List (SubmeshData G)) :
    ∀ (m : Nat) (s : SubmeshData G) (j : Nat) (v : BabylonVertex G), submeshes[m]? = some s →
      s.vertices[j]? = some v →
      (globalAttribute f submeshes)[vertexTotal (submeshes.take m) + j]? = some (f v) := by
  induction submeshes with
  | nil => intro m s j v h; simp at h
  | cons s0 rest ih =>
    intro m s j v h hj
    cases m with
    | zero =>
      simp only [List.getElem?_cons_zero, Option.some.injEq] at h
      subst h
      have hlt : j < s0.vertices.length := (List.getElem?_eq_some.mp hj).1
      simp only [globalAttribute, List.take_zero, vertexTotal, Nat.zero_add]
      rw [List.getElem?_append_left (by simpa using hlt), List.getElem?_map, hj]
      rfl
    | succ m =>
      simp only [List.getElem?_cons_succ] at h
      have := ih m s j v h hj
      simp only [globalAttribute, List.take_succ_cons, vertexTotal]
      rw [List.getElem?_append_right (by simp; omega)]
      have e : s0.vertices.length + vertexTotal (List.take m rest) + j -
          (List.map f s0.vertices).length = vertexTotal (List.take m rest) + j := by
        simp
        omega
      rw [e, this]


/-! ## Skin packing -/

theorem byteOf_eq (w k : Nat) : byteOf w k = (w >>> (8 * k)) % 2 ^ 8 := by
  unfold byteOf
  have e : (0xFF : Nat) = 2 ^ 8 - 1 := rfl
  rw [e, Nat.and_pow_two_sub_one_eq_mod]

/-- The four bytes of the packed bone index word, for arbitrary bone indices. -/
theorem packBoneIndices_bytes (v : BabylonVertex G) :
    byteOf (packBoneIndices v) 0 = v.boneIndices.e0 % 2 ^ 8 ∧
    byteOf (packBoneIndices v) 1 = (v.boneIndices.e1 ||| v.boneIndices.e0 >>> 8) % 2 ^ 8 ∧
    byteOf (packBoneIndices v) 2 =
      (v.boneIndices.e2 ||| v.boneIndices.e1 >>> 8 ||| v.boneIndices.e0 >>> 16) % 2 ^ 8 ∧
    byteOf (packBoneIndices v) 3 =
      (v.boneIndices.e3 ||| v.boneIndices.e2 >>> 8 ||| v.boneIndices.e1 >>> 16 |||
        v.boneIndices.e0 >>> 24) % 2 ^ 8 := by
  refine ⟨?_, ?_, ?_, ?_⟩
  · rw [byteOf_eq]
    apply Nat.eq_of_testBit_eq
    intro i
    simp only [packBoneIndices, u32, Nat.testBit_mod_two_pow, Nat.testBit_shiftRight,
      Nat.testBit_or, Nat.testBit_shiftLeft]
    by_cases h : i < 8
    · have h1 : i < 32 := by omega
      have h2 : ¬ 24 ≤ i := by omega
      have h3 : ¬ 16 ≤ i := by omega
      have h4 : ¬ 8 ≤ i := by omega
      simp [h, h1, h2, h3, h4]
    · simp [h]
  · rw [byteOf_eq]
    apply Nat.eq_of_testBit_eq
    intro i
    simp only [packBoneIndices, u32, Nat.testBit_mod_two_pow, Nat.testBit_shiftRight,
      Nat.testBit_or, Nat.testBit_shiftLeft]
    by_cases h : i < 8
    · have h1 : 8 * 1 + i < 32 := by omega
      have h2 : ¬ 24 ≤ 8 * 1 + i := by omega
      have h3 : ¬ 16 ≤ 8 * 1 + i := by omega
      have h4 : 8 ≤ 8 * 1 + i := by omega
      have h5 : 8 * 1 + i - 8 = i := by omega
      simp [h, h1, h2, h3, h4, h5]
    · simp [h]
  · rw [byteOf_eq]
    apply Nat.eq_of_testBit_eq
    intro i
    simp only [packBoneIndices, u32, Nat.testBit_mod_two_pow, Nat.testBit_shiftRight,
      Nat.testBit_or, Nat.testBit_shiftLeft]
    by_cases h : i < 8
    · have h1 : 8 * 2 + i < 32 := by omega
      have h2 : ¬ 24 ≤ 8 * 2 + i := by omega
      have h3 : 16 ≤ 8 * 2 + i := by omega
      have h4 : 8 ≤ 8 * 2 + i := by omega
      have h5 : 8 * 2 + i - 8 = 8 + i := by omega
      have h6 : 8 * 2 + i - 16 = i := by omega
      have h7 : 8 * 2 + i = 16 + i := by omega
      simp [h, h1, h2, h3, h4, h5, h6, h7]
    · simp [h]
  · rw [byteOf_eq]
    apply Nat.eq_of_testBit_eq
    intro i
    simp only [packBoneIndices, u32, Nat.testBit_mod_two_pow, Nat.testBit_shiftRight,
      Nat.testBit_or, Nat.testBit_shiftLeft]
    by_cases h : i < 8
    · have h1 : 8 * 3 + i < 32 := by omega
      have h2 : 24 ≤ 8 * 3 + i := by omega
      have h3 : 16 ≤ 8 * 3 + i := by omega
      have h4 : 8 ≤ 8 * 3 + i := by omega
      have h5 : 8 * 3 + i - 8 = 16 + i := by omega
      have h6 : 8 * 3 + i - 16 = 8 + i := by omega
      have h7 : 8 * 3 + i - 24 = i := by omega
      have h8 : 8 * 3 + i = 24 + i := by omega
      simp [h, h1, h2, h3, h4, h5, h6, h7, h8]
    · simp [h]


theorem shiftRight_eq_zero_of_lt {b k : Nat} (h : b < 2 ^ k) : b >>> k = 0 := by
  rw [Nat.shiftRight_eq_div_pow]
  exact Nat.div_eq_of_lt h

theorem packBoneIndices_lt (v : BabylonVertex G) (h0 : v.boneIndices.e0 < 256)
    (h1 : v.boneIndices.e1 < 256) (h2 : v.boneIndices.e2 < 256) (h3 : v.boneIndices.e3 < 256) :
    v.boneIndices.e3 <<< 24 ||| v.boneIndices.e2 <<< 16 ||| v.boneIndices.e1 <<< 8 |||
      v.boneIndices.e0 < 2 ^ 32 := by
  apply Nat.or_lt_two_pow
  · apply Nat.or_lt_two_pow
    · apply Nat.or_lt_two_pow
      · rw [Nat.shiftLeft_eq]
        omega
      · rw [Nat.shiftLeft_eq]
        omega
    · rw [Nat.shiftLeft_eq]
      omega
  · omega

/-- C13. Packed bone weights. The packed weight vector of a vertex is
`(w0, w1, w2, 1 - w0 - w1 - w2)` for its first three bone weights; it is the same for
two vertices that agree on the first three weights, whatever their fourth weight is;
its four components sum to 1; and when the mesh has a skin the bone weight array of
the flattened mesh holds this vector for every vertex, in vertex order. -/
theorem packed_weights_sum_to_one (src : SourceMesh F) (submeshes : List (SubmeshData F))
    (v : BabylonVertex F) :
    packBoneWeights v =
      { x := v.boneWeights.e0, y := v.boneWeights.e1, z := v.boneWeights.e2,
        w := 1 - v.boneWeights.e0 - v.boneWeights.e1 - v.boneWeights.e2 } ∧
    (∀ v2 : BabylonVertex F, v2.boneWeights.e0 = v.boneWeights.e0 →
      v2.boneWeights.e1 = v.boneWeights.e1 → v2.boneWeights.e2 = v.boneWeights.e2 →
      packBoneWeights v2 = packBoneWeights v) ∧
    (packBoneWeights v).x + (packBoneWeights v).y + (packBoneWeights v).z +
      (packBoneWeights v).w = 1 ∧
    (src.hasSkin = true →
      (flatten src submeshes).boneWeights = globalAttribute packBoneWeights submeshes ∧
      ∀ w ∈ (flatten src submeshes).boneWeights, w.x + w.y + w.z + w.w = 1) := by
  refine ⟨rfl, ?_, ?_, ?_⟩
  · intro v2 e0 e1 e2
    simp [packBoneWeights, e0, e1, e2]
  · simp only [packBoneWeights]
    abel
  · intro hs
    have hf := (flatten_attributes src submeshes).2.2.2.2.1
    rw [hs, if_pos rfl] at hf
    refine ⟨hf, ?_⟩
    intro w hw
    rw [hf] at hw
    have hall : ∀ l : List (SubmeshData F), ∀ w ∈ globalAttribute packBoneWeights l,
        w.x + w.y + w.z + w.w = 1 := by
      intro l
      induction l with
      | nil => intro w hw; simp [globalAttribute] at hw
      | cons s rest ih =>
        intro w hw
        simp only [globalAttribute, List.mem_append, List.mem_map] at hw
        rcases hw with ⟨u, _, rfl⟩ | hw
        · simp only [packBoneWeights]
          abel
        · exact ih w hw
    exact hall submeshes w hw

/-- Witness of C13 on the skinned sample mesh: the third corner has five influences of
weight 1 and is packed as `(1, 1, 1, -2)`. -/
theorem packed_weights_sum_to_one_witness :
    sampleMeshSkin.hasSkin = true ∧
    (flatten sampleMeshSkin
      [processTriangles sampleMeshSkin SubmeshData.empty sampleMeshSkin.triangles]).boneWeights =
      [{ x := 1, y := 0, z := 0, w := 0 }, { x := 1, y := 0, z := 0, w := 0 },
        { x := 1, y := 1, z := 1, w := -2 }] ∧
    ∀ w ∈ (flatten sampleMeshSkin
      [processTriangles sampleMeshSkin SubmeshData.empty sampleMeshSkin.triangles]).boneWeights,
      w.x + w.y + w.z + w.w = 1 :=
  ⟨rfl, by decide,
    ((packed_weights_sum_to_one sampleMeshSkin
      [processTriangles sampleMeshSkin SubmeshData.empty sampleMeshSkin.triangles]
      (makeVertex sampleMeshSkin (skinnedCorner 0 []))).2.2.2 rfl).2⟩

/-- C14. Packed bone indices. For a vertex whose four bone indices are below 256 the
packed word is `(b3 << 24) | (b2 << 16) | (b1 << 8) | b0`, it fits in 32 bits, and
byte `k` of the word, `(word >> 8k) & 0xFF`, is `bk`. -/
theorem packed_indices_roundtrip (v : BabylonVertex F) (h0 : v.boneIndices.e0 < 256)
    (h1 : v.boneIndices.e1 < 256) (h2 : v.boneIndices.e2 < 256) (h3 : v.boneIndices.e3 < 256) :
    packBoneIndices v =
      v.boneIndices.e3 <<< 24 ||| v.boneIndices.e2 <<< 16 ||| v.boneIndices.e1 <<< 8 |||
        v.boneIndices.e0 ∧
    packBoneIndices v < 2 ^ 32 ∧
    byteOf (packBoneIndices v) 0 = v.boneIndices.e0 ∧
    byteOf (packBoneIndices v) 1 = v.boneIndices.e1 ∧
    byteOf (packBoneIndices v) 2 = v.boneIndices.e2 ∧
    byteOf (packBoneIndices v) 3 = v.boneIndices.e3 := by
  have hlt := packBoneIndices_lt v h0 h1 h2 h3
  have hw : packBoneIndices v =
      v.boneIndices.e3 <<< 24 ||| v.boneIndices.e2 <<< 16 ||| v.boneIndices.e1 <<< 8 |||
        v.boneIndices.e0 := by
    simp only [packBoneIndices]
    exact u32_of_lt hlt
  obtain ⟨b0, b1, b2, b3⟩ := packBoneIndices_bytes v
  have z0 : v.boneIndices.e0 >>> 8 = 0 := shiftRight_eq_zero_of_lt (by omega)
  have z1 : v.boneIndices.e1 >>> 8 = 0 := shiftRight_eq_zero_of_lt (by omega)
  have z2 : v.boneIndices.e2 >>> 8 = 0 := shiftRight_eq_zero_of_lt (by omega)
  have y0 : v.boneIndices.e0 >>> 16 = 0 := shiftRight_eq_zero_of_lt (by omega)
  have y1 : v.boneIndices.e1 >>> 16 = 0 := shiftRight_eq_zero_of_lt (by omega)
  have x0 : v.boneIndices.e0 >>> 24 = 0 := shiftRight_eq_zero_of_lt (by omega)
  refine ⟨hw, by rw [hw]; exact hlt, ?_, ?_, ?_, ?_⟩
  · rw [b0]
    exact Nat.mod_eq_of_lt (by omega)
  · rw [b1, z0, Nat.or_zero]
    exact Nat.mod_eq_of_lt (by omega)
  · rw [b2, z1, y0, Nat.or_zero, Nat.or_zero]
    exact Nat.mod_eq_of_lt (by omega)
  · rw [b3, z2, y1, x0, Nat.or_zero, Nat.or_zero, Nat.or_zero]
    exact Nat.mod_eq_of_lt (by omega)

/-- Witness of C14 on the second corner of the skinned sample mesh, whose slots hold
the bones `0, 1` and twice the sentinel `3`: the word is `0x03030100`. -/
theorem packed_indices_roundtrip_witness :
    (makeVertex sampleMeshSkin
      (skinnedCorner 1 [{ index := 0, weight := 1 }, { index := 1, weight := 0 }])).boneIndices =
      { e0 := 0, e1 := 1, e2 := 3, e3 := 3 } ∧
    packBoneIndices (makeVertex sampleMeshSkin
      (skinnedCorner 1 [{ index := 0, weight := 1 }, { index := 1, weight := 0 }])) =
      0x03030100 ∧
    byteOf (packBoneIndices (makeVertex sampleMeshSkin
      (skinnedCorner 1 [{ index := 0, weight := 1 }, { index := 1, weight := 0 }]))) 1 = 1 :=
  ⟨by decide, by decide,
    (packed_indices_roundtrip (makeVertex sampleMeshSkin
      (skinnedCorner 1 [{ index := 0, weight := 1 }, { index := 1, weight := 0 }]))
      (by decide) (by decide) (by decide) (by decide)).2.2.2.1⟩

/-- C15, as stated, fails. A mesh whose first corner is bound to bone 256 is converted
without any failure; the packed word of that corner is 256, in which byte 0, the slot
of the bone, reads 0 and byte 1, the slot of the second bone (bone 0), reads 1. -/
theorem wide_bone_index_counterexample :
    (makeVertex sampleMeshWideBone
      (skinnedCorner 0
        [{ index := 256, weight := 1 }, { index := 0, weight := 0 },
         { index := 0, weight := 0 }, { index := 0, weight := 0 }])).boneIndices =
      { e0 := 256, e1 := 0, e2 := 0, e3 := 0 } ∧
    (convert sampleMeshWideBone).map (fun out => out.boneIndices) = some [256, 0, 0] ∧
    byteOf 256 0 = 0 ∧ byteOf 256 1 = 1 := by
  decide

/-- C15, amended. The skin packing step validates nothing and always produces a word:
when the mesh has a skin the flattened mesh holds the packed word of every vertex,
whatever its bone indices are, and byte `k` of the word is the low byte of `bk` OR-ed
with the bits that the lower slots carry above their own byte. A bone index of 256 or
more is therefore truncated in its own byte and spills into the bytes of the higher
slots. -/
theorem packing_without_validation (src : SourceMesh F) (submeshes : List (SubmeshData F))
    (v : BabylonVertex F) (hs : src.hasSkin = true) :
    (flatten src submeshes).boneIndices = globalAttribute packBoneIndices submeshes ∧
    (flatten src submeshes).boneIndices.length = (flatten src submeshes).positions.length ∧
    packBoneIndices v =
      (v.boneIndices.e3 <<< 24 ||| v.boneIndices.e2 <<< 16 ||| v.boneIndices.e1 <<< 8 |||
        v.boneIndices.e0) % 2 ^ 32 ∧
    packBoneIndices v < 2 ^ 32 ∧
    byteOf (packBoneIndices v) 0 = v.boneIndices.e0 % 2 ^ 8 ∧
    byteOf (packBoneIndices v) 1 = (v.boneIndices.e1 ||| v.boneIndices.e0 >>> 8) % 2 ^ 8 ∧
    byteOf (packBoneIndices v) 2 =
      (v.boneIndices.e2 ||| v.boneIndices.e1 >>> 8 ||| v.boneIndices.e0 >>> 16) % 2 ^ 8 ∧
    byteOf (packBoneIndices v) 3 =
      (v.boneIndices.e3 ||| v.boneIndices.e2 >>> 8 ||| v.boneIndices.e1 >>> 16 |||
        v.boneIndices.e0 >>> 24) % 2 ^ 8 := by
  have hf := (flatten_attributes src submeshes).2.2.2.2.2
  rw [hs, if_pos rfl] at hf
  refine ⟨hf, ?_, rfl, ?_, packBoneIndices_bytes v⟩
  · rw [hf, length_globalAttribute, flatten_positions_length]
  · simp only [packBoneIndices, u32]
    exact Nat.mod_lt _ (by decide)

/-- Witness of the amended C15 on the mesh bound to bone 256: byte 1 of the word of
the first corner is `(0 ||| 256 >>> 8) % 256 = 1`. -/
theorem packing_without_validation_witness :
    sampleMeshWideBone.hasSkin = true ∧
    byteOf (packBoneIndices (makeVertex sampleMeshWideBone
      (skinnedCorner 0
        [{ index := 256, weight := 1 }, { index := 0, weight := 0 },
         { index := 0, weight := 0 }, { index := 0, weight := 0 }]))) 1 =
      ((0 : Nat) ||| 256 >>> 8) % 2 ^ 8 :=
  ⟨rfl,
    (packing_without_validation sampleMeshWideBone [] (makeVertex sampleMeshWideBone
      (skinnedCorner 0
        [{ index := 256, weight := 1 }, { index := 0, weight := 0 },
         { index := 0, weight := 0 }, { index := 0, weight := 0 }])) rfl).2.2.2.2.2.1⟩


theorem attribute_array_shape {α : Type} (flag : Bool) (f : BabylonVertex G → α)
    (submeshes : List (SubmeshData G)) (arr : List α) (n : Nat)
    (harr : arr = if flag then globalAttribute f submeshes else [])
    (hn : n = vertexTotal submeshes) :
    (arr.length = 0 ∨ arr.length = n) ∧ arr.length = (if flag then n else 0) ∧
      (arr ≠ [] ↔ (flag = true ∧ 0 < n)) := by
  subst harr hn
  cases flag with
  | false => simp
  | true =>
    simp only [if_true, length_globalAttribute, true_and, or_true]
    rw [← List.length_pos, length_globalAttribute]

/-- C16. Attribute arrays. In the flattened mesh each of the arrays of normals, UVs,
second UVs, colours, packed bone indices and packed bone weights has length 0 or the
length of the positions array; its length is the length of the positions array when
the corresponding layer element (or the skin) is present and 0 otherwise; and it is
non-empty exactly when that element is present and there is at least one vertex. -/
theorem attribute_arrays_full_or_empty (src : SourceMesh F) (out : BabylonMesh F)
    (h : convert src = some out) :
    ((out.normals.length = 0 ∨ out.normals.length = out.positions.length) ∧
      out.normals.length = (if src.normals then out.positions.length else 0) ∧
      (out.normals ≠ [] ↔ (src.normals = true ∧ 0 < out.positions.length))) ∧
    ((out.uvs.length = 0 ∨ out.uvs.length = out.positions.length) ∧
      out.uvs.length = (if src.uvs then out.positions.length else 0) ∧
      (out.uvs ≠ [] ↔ (src.uvs = true ∧ 0 < out.positions.length))) ∧
    ((out.uvs2.length = 0 ∨ out.uvs2.length = out.positions.length) ∧
      out.uvs2.length = (if src.uvs2 then out.positions.length else 0) ∧
      (out.uvs2 ≠ [] ↔ (src.uvs2 = true ∧ 0 < out.positions.length))) ∧
    ((out.colors.length = 0 ∨ out.colors.length = out.positions.length) ∧
      out.colors.length = (if src.colors then out.positions.length else 0) ∧
      (out.colors ≠ [] ↔ (src.colors = true ∧ 0 < out.positions.length))) ∧
    ((out.boneIndices.length = 0 ∨ out.boneIndices.length = out.positions.length) ∧
      out.boneIndices.length = (if src.hasSkin then out.positions.length else 0) ∧
      (out.boneIndices ≠ [] ↔ (src.hasSkin = true ∧ 0 < out.positions.length))) ∧
    ((out.boneWeights.length = 0 ∨ out.boneWeights.length = out.positions.length) ∧
      out.boneWeights.length = (if src.hasSkin then out.positions.length else 0) ∧
      (out.boneWeights ≠ [] ↔ (src.hasSkin = true ∧ 0 < out.positions.length))) := by
  obtain ⟨submeshes, _, rfl⟩ := convert_eq_some h
  obtain ⟨a1, a2, a3, a4, a5, a6⟩ := flatten_attributes src submeshes
  have hp := flatten_positions_length src submeshes
  exact ⟨attribute_array_shape _ _ submeshes _ _ a1 hp,
    attribute_array_shape _ _ submeshes _ _ a3 hp,
    attribute_array_shape _ _ submeshes _ _ a4 hp,
    attribute_array_shape _ _ submeshes _ _ a2 hp,
    attribute_array_shape _ _ submeshes _ _ a6 hp,
    attribute_array_shape _ _ submeshes _ _ a5 hp⟩

/-- Witness of C16 on the skinned sample mesh (normals, first UV set and skin present,
no colours, no second UV set): three vertices, and arrays of length 3 or 0. -/
theorem attribute_arrays_full_or_empty_witness :
    ∃ out, convert sampleMeshSkin = some out ∧ out.positions.length = 3 ∧
      out.normals.length = 3 ∧ out.uvs.length = 3 ∧ out.uvs2.length = 0 ∧
      out.colors.length = 0 ∧ out.boneIndices.length = 3 ∧ out.boneWeights.length = 3 ∧
      (out.boneWeights ≠ [] ↔ (sampleMeshSkin.hasSkin = true ∧ 0 < out.positions.length)) :=
  ⟨flatten sampleMeshSkin
      [processTriangles sampleMeshSkin SubmeshData.empty sampleMeshSkin.triangles],
    by decide, by decide, by decide, by decide, by decide, by decide, by decide, by decide,
    (attribute_arrays_full_or_empty sampleMeshSkin _ (by decide)).2.2.2.2.2.2.2⟩


/-! ## Frame of one polygon -/

theorem weld_frame_fields (submesh : SubmeshData G) (v : BabylonVertex G) :
    (∃ added, (weld submesh v).1.vertices = submesh.vertices ++ added) ∧
      (weld submesh v).1.knownTriangles = submesh.knownTriangles ∧
      (weld submesh v).1.indices = submesh.indices := by
  unfold weld
  cases stdMapFind BabylonVertex.lt submesh.knownVertices v with
  | none => exact ⟨⟨[v], rfl⟩, rfl, rfl⟩
  | some i => exact ⟨⟨[], by simp⟩, rfl, rfl⟩

theorem weldCorners_frame_fields (submesh : SubmeshData G) (v0 v1 v2 : BabylonVertex G) :
    (∃ added, (weldCorners submesh v0 v1 v2).1.vertices = submesh.vertices ++ added) ∧
      (weldCorners submesh v0 v1 v2).1.knownTriangles = submesh.knownTriangles ∧
      (weldCorners submesh v0 v1 v2).1.indices = submesh.indices := by
  obtain ⟨⟨a0, e0⟩, k0, i0⟩ := weld_frame_fields submesh v0
  obtain ⟨⟨a1, e1⟩, k1, i1⟩ := weld_frame_fields (weld submesh v0).1 v1
  obtain ⟨⟨a2, e2⟩, k2, i2⟩ := weld_frame_fields (weld (weld submesh v0).1 v1).1 v2
  have hv : (weldCorners submesh v0 v1 v2).1 = (weld (weld (weld submesh v0).1 v1).1 v2).1 :=
    rfl
  rw [hv]
  refine ⟨⟨a0 ++ a1 ++ a2, ?_⟩, ?_, ?_⟩
  · rw [e2, e1, e0]
    simp
  · rw [k2, k1, k0]
  · rw [i2, i1, i0]

theorem insertTriangle_cases (submesh : SubmeshData G) (t : triangle) :
    (t ∈ submesh.knownTriangles → insertTriangle submesh t = submesh) ∧
      (t ∉ submesh.knownTriangles →
        insertTriangle submesh t =
          { submesh with
            knownTriangles := submesh.knownTriangles ++ [t]
            indices := submesh.indices ++ [t.i0, t.i1, t.i2] }) := by
  constructor
  · intro ht
    unfold insertTriangle
    rw [stdSetInsert_triangle, if_pos ht]
    rfl
  · intro ht
    unfold insertTriangle
    rw [stdSetInsert_triangle, if_neg ht]
    rfl

/-- C17. Frame of one polygon of the polygon loop. The polygon changes only the submesh
of its own slot; there it removes no vertex (the vertex buffer only grows at the end).
When the welded ordered triple is already in the set of accepted triples of that
submesh the index list is unchanged; otherwise exactly its three indices `i0, i1, i2`
are appended, in that order, to the end of the index list. -/
theorem polygon_frame (src : SourceMesh F) (submeshes submeshes1 : List (SubmeshData F))
    (triangleIndex : Nat) (tri : SourceTriangle F)
    (h : polygonStep src submeshes triangleIndex tri = some submeshes1) :
    ∃ (m : Nat) (sm sm1 : SubmeshData F) (t : triangle),
      materialIndexOf src triangleIndex = (m : Int) ∧
      submeshes[m]? = some sm ∧ submeshes1[m]? = some sm1 ∧
      submeshes1.length = submeshes.length ∧
      t = (weldCorners sm (makeVertex src tri.corner0) (makeVertex src tri.corner1)
        (makeVertex src tri.corner2)).2 ∧
      (∀ m2, m2 ≠ m → submeshes1[m2]? = submeshes[m2]?) ∧
      (∃ added, sm1.vertices = sm.vertices ++ added) ∧
      (t ∈ sm.knownTriangles → sm1.indices = sm.indices ∧
        sm1.knownTriangles = sm.knownTriangles) ∧
      (t ∉ sm.knownTriangles → sm1.indices = sm.indices ++ [t.i0, t.i1, t.i2] ∧
        sm1.knownTriangles = sm.knownTriangles ++ [t]) := by
  obtain ⟨m, sm, hmi, hsm, rfl⟩ := polygonStep_eq_some h
  have hlt : m < submeshes.length := (List.getElem?_eq_some.mp hsm).1
  obtain ⟨hv, hk, hi⟩ := weldCorners_frame_fields sm (makeVertex src tri.corner0)
    (makeVertex src tri.corner1) (makeVertex src tri.corner2)
  have hadd : addTriangle src sm tri = insertTriangle
      (weldCorners sm (makeVertex src tri.corner0) (makeVertex src tri.corner1)
        (makeVertex src tri.corner2)).1
      (weldCorners sm (makeVertex src tri.corner0) (makeVertex src tri.corner1)
        (makeVertex src tri.corner2)).2 := rfl
  refine ⟨m, sm, addTriangle src sm tri, _, hmi, hsm, ?_, by simp, rfl, ?_, ?_, ?_, ?_⟩
  · exact List.getElem?_set_self hlt
  · intro m2 hne
    exact List.getElem?_set_ne (fun e => hne e.symm)
  · rw [hadd, (insertTriangle_fields _ _).1]
    exact hv
  · intro ht
    rw [hadd, (insertTriangle_cases _ _).1 (by rw [hk]; exact ht)]
    exact ⟨hi, hk⟩
  · intro ht
    rw [hadd, (insertTriangle_cases _ _).2 (by rw [hk]; exact ht)]
    exact ⟨by rw [hi], by rw [hk]⟩

/-- Witness of C17 on the sample mesh: polygon 2 repeats polygon 0 in slot 0; after
polygons 0 and 1 it leaves both submeshes as they are. -/
theorem polygon_frame_witness :
    polygonStep sampleMesh
        [processTriangles sampleMesh SubmeshData.empty [sampleTriangle 0 1 2],
          processTriangles sampleMesh SubmeshData.empty [sampleTriangle 0 1 3]]
        2 (sampleTriangle 0 1 2) =
      some [processTriangles sampleMesh SubmeshData.empty [sampleTriangle 0 1 2],
          processTriangles sampleMesh SubmeshData.empty [sampleTriangle 0 1 3]] ∧
    ∃ (m : Nat) (sm sm1 : SubmeshData Int) (t : triangle),
      materialIndexOf sampleMesh 2 = (m : Int) ∧
      [processTriangles sampleMesh SubmeshData.empty [sampleTriangle 0 1 2],
          processTriangles sampleMesh SubmeshData.empty [sampleTriangle 0 1 3]][m]? = some sm ∧
      [processTriangles sampleMesh SubmeshData.empty [sampleTriangle 0 1 2],
          processTriangles sampleMesh SubmeshData.empty [sampleTriangle 0 1 3]][m]? = some sm1 ∧
      (t ∈ sm.knownTriangles → sm1.indices = sm.indices ∧
        sm1.knownTriangles = sm.knownTriangles) := by
  have hstep : polygonStep sampleMesh
        [processTriangles sampleMesh SubmeshData.empty [sampleTriangle 0 1 2],
          processTriangles sampleMesh SubmeshData.empty [sampleTriangle 0 1 3]]
        2 (sampleTriangle 0 1 2) =
      some [processTriangles sampleMesh SubmeshData.empty [sampleTriangle 0 1 2],
          processTriangles sampleMesh SubmeshData.empty [sampleTriangle 0 1 3]] := by
    rfl
  obtain ⟨m, sm, sm1, t, h1, h2, h3, _, _, _, _, h8, _⟩ :=
    polygon_frame sampleMesh _ _ 2 (sampleTriangle 0 1 2) hstep
  exact ⟨hstep, m, sm, sm1, t, h1, h2, h3, h8⟩


/-! ## The order on vertex keys -/

theorem strictTotalB_ltB {α : Type} [LinearOrder α] : StrictTotalB (ltB : α → α → Bool) where
  irrefl := by intro a; simp [ltB]
  trans := by
    intro a b c h1 h2
    simp only [ltB, decide_eq_true_eq] at h1 h2 ⊢
    exact lt_trans h1 h2
  tri := by
    intro a b
    simp only [ltB, decide_eq_true_eq]
    exact lt_trichotomy a b

theorem StrictTotalB.asymm {α : Type} {lt : α → α → Bool} (h : StrictTotalB lt) (a b : α)
    (hab : lt a b = true) : lt b a = false := by
  cases hba : lt b a with
  | false => rfl
  | true =>
    have := h.trans a b a hab hba
    rw [h.irrefl a] at this
    exact absurd this (by simp)

theorem lexThen_true_iff {T α : Type} {lt : α → α → Bool} (h : StrictTotalB lt) (p : T → α)
    (rest : T → T → Bool) (a b : T) :
    lexThen lt p rest a b = true ↔
      (lt (p a) (p b) = true ∨ (p a = p b ∧ rest a b = true)) := by
  unfold lexThen
  rcases h.tri (p a) (p b) with hlt | heq | hgt
  · simp [hlt]
  · rw [heq]
    simp [h.irrefl (p b)]
  · have hab := h.asymm _ _ hgt
    have hne : p a ≠ p b := by
      intro e
      rw [e, h.irrefl] at hgt
      exact absurd hgt (by simp)
    simp [hgt, hab, hne]

theorem lexGood_base {T : Type} : LexGood (fun _ _ : T => false) (fun _ _ => True) where
  irrefl := fun _ => rfl
  trans := fun _ _ _ h _ => h
  tri := fun _ _ => Or.inr (Or.inl trivial)

theorem lexGood_step {T α : Type} {lt : α → α → Bool} (h : StrictTotalB lt) (p : T → α)
    {R : T → T → Bool} {E : T → T → Prop} (g : LexGood R E) :
    LexGood (lexThen lt p R) (fun a b => p a = p b ∧ E a b) where
  irrefl := by
    intro a
    simp [lexThen, h.irrefl, g.irrefl]
  trans := by
    intro a b c h1 h2
    rw [lexThen_true_iff h] at h1 h2 ⊢
    rcases h1 with h1 | ⟨e1, r1⟩
    · rcases h2 with h2 | ⟨e2, _⟩
      · exact Or.inl (h.trans _ _ _ h1 h2)
      · rw [← e2]
        exact Or.inl h1
    · rcases h2 with h2 | ⟨e2, r2⟩
      · rw [e1]
        exact Or.inl h2
      · exact Or.inr ⟨e1.trans e2, g.trans _ _ _ r1 r2⟩
  tri := by
    intro a b
    rcases h.tri (p a) (p b) with hlt | heq | hgt
    · exact Or.inl ((lexThen_true_iff h p R a b).mpr (Or.inl hlt))
    · rcases g.tri a b with r | e | r
      · exact Or.inl ((lexThen_true_iff h p R a b).mpr (Or.inr ⟨heq, r⟩))
      · exact Or.inr (Or.inl ⟨heq, e⟩)
      · exact Or.inr (Or.inr ((lexThen_true_iff h p R b a).mpr (Or.inr ⟨heq.symm, r⟩)))
    · exact Or.inr (Or.inr ((lexThen_true_iff h p R b a).mpr (Or.inl hgt)))

theorem strictTotalB_of_lexGood {T : Type} {R : T → T → Bool} {E : T → T → Prop}
    (g : LexGood R E) (hE : ∀ a b, E a b → a = b) : StrictTotalB R where
  irrefl := g.irrefl
  trans := g.trans
  tri := by
    intro a b
    rcases g.tri a b with r | e | r
    · exact Or.inl r
    · exact Or.inr (Or.inl (hE a b e))
    · exact Or.inr (Or.inr r)

theorem chain_eq_decide_lt {α : Type} [LinearOrder α] (x y : α) :
    (if x < y then true else if y < x then false else false) = decide (x < y) := by
  by_cases h : x < y
  · simp [h]
  · simp [h]

theorem babylon_vector2_lt_chain :
    (babylon_vector2.lt : babylon_vector2 F → babylon_vector2 F → Bool) =
      lexThen ltB (fun v => v.x) (lexThen ltB (fun v => v.y) (fun _ _ => false)) := by
  funext a b
  simp only [babylon_vector2.lt, lexThen, ltB, decide_eq_true_eq, chain_eq_decide_lt]

theorem babylon_vector3_lt_chain :
    (babylon_vector3.lt : babylon_vector3 F → babylon_vector3 F → Bool) =
      lexThen ltB (fun v => v.x) (lexThen ltB (fun v => v.y)
        (lexThen ltB (fun v => v.z) (fun _ _ => false))) := by
  funext a b
  simp only [babylon_vector3.lt, lexThen, ltB, decide_eq_true_eq, chain_eq_decide_lt]

theorem babylon_color_lt_chain :
    (babylon_color.lt : babylon_color F → babylon_color F → Bool) =
      lexThen ltB (fun v => v.r) (lexThen ltB (fun v => v.g)
        (lexThen ltB (fun v => v.b) (lexThen ltB (fun v => v.a) (fun _ _ => false)))) := by
  funext a b
  simp only [babylon_color.lt, lexThen, ltB, decide_eq_true_eq, chain_eq_decide_lt]

theorem strictTotalB_vector2 :
    StrictTotalB (babylon_vector2.lt : babylon_vector2 F → babylon_vector2 F → Bool) := by
  rw [babylon_vector2_lt_chain]
  apply strictTotalB_of_lexGood
    (lexGood_step strictTotalB_ltB _ (lexGood_step strictTotalB_ltB _ lexGood_base))
  rintro ⟨x, y⟩ ⟨x2, y2⟩ ⟨e1, e2, _⟩
  simp only at e1 e2
  rw [e1, e2]

theorem strictTotalB_vector3 :
    StrictTotalB (babylon_vector3.lt : babylon_vector3 F → babylon_vector3 F → Bool) := by
  rw [babylon_vector3_lt_chain]
  apply strictTotalB_of_lexGood
    (lexGood_step strictTotalB_ltB _ (lexGood_step strictTotalB_ltB _
      (lexGood_step strictTotalB_ltB _ lexGood_base)))
  rintro ⟨x, y, z⟩ ⟨x2, y2, z2⟩ ⟨e1, e2, e3, _⟩
  simp only at e1 e2 e3
  rw [e1, e2, e3]

theorem strictTotalB_color :
    StrictTotalB (babylon_color.lt : babylon_color F → babylon_color F → Bool) := by
  rw [babylon_color_lt_chain]
  apply strictTotalB_of_lexGood
    (lexGood_step strictTotalB_ltB _ (lexGood_step strictTotalB_ltB _
      (lexGood_step strictTotalB_ltB _ (lexGood_step strictTotalB_ltB _ lexGood_base))))
  rintro ⟨r, g, b, a⟩ ⟨r2, g2, b2, a2⟩ ⟨e1, e2, e3, e4, _⟩
  simp only at e1 e2 e3 e4
  rw [e1, e2, e3, e4]

theorem BabylonVertex_lt_chain :
    (BabylonVertex.lt : BabylonVertex F → BabylonVertex F → Bool) =
      lexThen babylon_vector3.lt (fun v => v.position)
      (lexThen babylon_vector3.lt (fun v => v.normal)
      (lexThen babylon_vector2.lt (fun v => v.uv)
      (lexThen babylon_vector2.lt (fun v => v.uv2)
      (lexThen babylon_color.lt (fun v => v.color)
      (lexThen ltB (fun v => v.boneIndices.e0)
      (lexThen ltB (fun v => v.boneIndices.e1)
      (lexThen ltB (fun v => v.boneIndices.e2)
      (lexThen ltB (fun v => v.boneIndices.e3)
      (lexThen ltB (fun v => v.boneWeights.e0)
      (lexThen ltB (fun v => v.boneWeights.e1)
      (lexThen ltB (fun v => v.boneWeights.e2)
      (lexThen ltB (fun v => v.boneWeights.e3) (fun _ _ => false))))))))))))) := by
  funext a b
  simp only [BabylonVertex.lt, lexThen, ltB, decide_eq_true_eq]

theorem strictTotalB_vertex :
    StrictTotalB (BabylonVertex.lt : BabylonVertex F → BabylonVertex F → Bool) := by
  rw [BabylonVertex_lt_chain]
  apply strictTotalB_of_lexGood
    (lexGood_step strictTotalB_vector3 _ (lexGood_step strictTotalB_vector3 _
    (lexGood_step strictTotalB_vector2 _ (lexGood_step strictTotalB_vector2 _
    (lexGood_step strictTotalB_color _
    (lexGood_step strictTotalB_ltB _ (lexGood_step strictTotalB_ltB _
    (lexGood_step strictTotalB_ltB _ (lexGood_step strictTotalB_ltB _
    (lexGood_step strictTotalB_ltB _ (lexGood_step strictTotalB_ltB _
    (lexGood_step strictTotalB_ltB _ (lexGood_step strictTotalB_ltB _
      lexGood_base)))))))))))))
  rintro ⟨p, n, u, u2, c, ⟨i0, i1, i2, i3⟩, ⟨w0, w1, w2, w3⟩⟩
    ⟨p', n', u', u2', c', ⟨j0, j1, j2, j3⟩, ⟨x0, x1, x2, x3⟩⟩
    ⟨e1, e2, e3, e4, e5, e6, e7, e8, e9, e10, e11, e12, e13, _⟩
  simp only at e1 e2 e3 e4 e5 e6 e7 e8 e9 e10 e11 e12 e13
  rw [e1, e2, e3, e4, e5, e6, e7, e8, e9, e10, e11, e12, e13]


theorem BabylonVertex_lt_iff_lexLt (a b : BabylonVertex F) :
    a.lt b = true ↔ a.lexLt b := by
  unfold BabylonVertex.lexLt
  rw [BabylonVertex_lt_chain]
  simp only [lexThen_true_iff strictTotalB_vector3, lexThen_true_iff strictTotalB_vector2,
    lexThen_true_iff strictTotalB_color, lexThen_true_iff strictTotalB_ltB, ltB,
    decide_eq_true_eq, and_false, or_false, Bool.false_eq_true]

/-- C18. The comparison of vertex keys is the lexicographic strict order over the
field sequence position, normal, uv, uv2, color, `boneIndices[0..3]`,
`boneWeights[0..3]`; it is irreflexive, transitive and total; and two keys are
unordered in both directions exactly when they are equal, that is, when every field is
equal. -/
theorem vertex_order_is_lexicographic (a b c : BabylonVertex F) :
    (a.lt b = true ↔ a.lexLt b) ∧
    a.lt a = false ∧
    (a.lt b = true → b.lt c = true → a.lt c = true) ∧
    (a.lt b = true ∨ a = b ∨ b.lt a = true) ∧
    ((a.lt b = false ∧ b.lt a = false) ↔ a = b) ∧
    (a = b ↔
      (a.position = b.position ∧ a.normal = b.normal ∧ a.uv = b.uv ∧ a.uv2 = b.uv2 ∧
        a.color = b.color ∧ a.boneIndices.e0 = b.boneIndices.e0 ∧
        a.boneIndices.e1 = b.boneIndices.e1 ∧ a.boneIndices.e2 = b.boneIndices.e2 ∧
        a.boneIndices.e3 = b.boneIndices.e3 ∧ a.boneWeights.e0 = b.boneWeights.e0 ∧
        a.boneWeights.e1 = b.boneWeights.e1 ∧ a.boneWeights.e2 = b.boneWeights.e2 ∧
        a.boneWeights.e3 = b.boneWeights.e3)) := by
  have hs := strictTotalB_vertex (F := F)
  refine ⟨BabylonVertex_lt_iff_lexLt a b, hs.irrefl a, hs.trans a b c, hs.tri a b,
    BabylonVertex_lt_equiv a b, ?_⟩
  obtain ⟨p, n, u, u2, c, ⟨i0, i1, i2, i3⟩, ⟨w0, w1, w2, w3⟩⟩ := a
  obtain ⟨p', n', u', u2', c', ⟨j0, j1, j2, j3⟩, ⟨x0, x1, x2, x3⟩⟩ := b
  simp only [BabylonVertex.mk.injEq, Array4.mk.injEq, and_assoc]


/-! ## Bone slots of a vertex key -/

/-- C19. Bone slots of a vertex key (the bone count and the supplied bone indices are
`std::uint32_t` values). With a skin, slot `i < 4` holds the `i`-th supplied pair when
the control point supplies more than `i` influences, and the bone count with weight 0
otherwise; influences beyond the fourth do not change the key. Without a skin all four
bone indices and all four bone weights are zero. -/
theorem bone_slots_filled (src : SourceMesh F) (c : SourceCorner F)
    (hb : src.bonesCount < 2 ^ 32) (hi : ∀ p ∈ c.skinData, p.index < 2 ^ 32) :
    (src.hasSkin = true →
      (∀ (i : Nat) (p : BoneIndexAndWeight F), i < 4 → c.skinData[i]? = some p →
        (makeVertex src c).boneIndices.get i = p.index ∧
        (makeVertex src c).boneWeights.get i = p.weight) ∧
      (∀ i : Nat, i < 4 → c.skinData.length ≤ i →
        (makeVertex src c).boneIndices.get i = src.bonesCount ∧
        (makeVertex src c).boneWeights.get i = 0) ∧
      makeVertex src { c with skinData := c.skinData.take 4 } = makeVertex src c) ∧
    (src.hasSkin = false →
      (makeVertex src c).boneIndices = { e0 := 0, e1 := 0, e2 := 0, e3 := 0 } ∧
      (makeVertex src c).boneWeights = { e0 := 0, e1 := 0, e2 := 0, e3 := 0 }) := by
  constructor
  · intro hs
    have hslot : ∀ i : Nat, i < 4 →
        (makeVertex src c).boneIndices.get i = boneIndexSlot src.bonesCount c.skinData i ∧
        (makeVertex src c).boneWeights.get i = boneWeightSlot c.skinData i := by
      intro i hi4
      have : i = 0 ∨ i = 1 ∨ i = 2 ∨ i = 3 := by omega
      rcases this with rfl | rfl | rfl | rfl <;> simp [makeVertex, hs, Array4.get]
    refine ⟨?_, ?_, ?_⟩
    · intro i p hi4 hp
      obtain ⟨h1, h2⟩ := hslot i hi4
      rw [h1, h2]
      simp only [boneIndexSlot, boneWeightSlot, hp]
      exact ⟨u32_of_lt (hi p (List.getElem?_mem hp)), trivial⟩
    · intro i hi4 hlen
      obtain ⟨h1, h2⟩ := hslot i hi4
      rw [h1, h2]
      have hn : c.skinData[i]? = none := List.getElem?_eq_none hlen
      simp only [boneIndexSlot, boneWeightSlot, hn]
      exact ⟨u32_of_lt hb, trivial⟩
    · have ht : ∀ i : Nat, i < 4 → (c.skinData.take 4)[i]? = c.skinData[i]? := by
        intro i hi4
        exact List.getElem?_take_of_lt hi4
      simp [makeVertex, boneIndexSlot, boneWeightSlot, ht]
  · intro hs
    simp [makeVertex, hs]

/-- Witness of C19 on the third corner of the skinned sample mesh, which supplies five
influences: slot 3 holds the fourth pair, bone 0 with weight 1. -/
theorem bone_slots_filled_witness :
    sampleMeshSkin.hasSkin = true ∧
    (makeVertex sampleMeshSkin (skinnedCorner 2
      [{ index := 0, weight := 1 }, { index := 1, weight := 1 }, { index := 2, weight := 1 },
       { index := 0, weight := 1 }, { index := 1, weight := 1 }])).boneIndices.get 3 = 0 ∧
    (makeVertex sampleMeshSkin (skinnedCorner 2
      [{ index := 0, weight := 1 }, { index := 1, weight := 1 }, { index := 2, weight := 1 },
       { index := 0, weight := 1 }, { index := 1, weight := 1 }])).boneWeights.get 3 = 1 :=
  ⟨rfl,
    ((bone_slots_filled sampleMeshSkin (skinnedCorner 2
      [{ index := 0, weight := 1 }, { index := 1, weight := 1 }, { index := 2, weight := 1 },
       { index := 0, weight := 1 }, { index := 1, weight := 1 }]) (by decide) (by decide)).1
      rfl).1 3 { index := 0, weight := 1 } (by decide) (by decide)⟩


/-! ## Every source polygon is in the flattened mesh -/

theorem mem_routedTo (src : SourceMesh G) (m : Nat) (tris : List (SourceTriangle G)) :
    ∀ (start n : Nat) (tri : SourceTriangle G), tris[n]? = some tri →
      materialIndexOf src (start + n) = (m : Int) → tri ∈ routedTo src m start tris := by
  induction tris with
  | nil => intro start n tri h; simp at h
  | cons t rest ih =>
    intro start n tri h hm
    cases n with
    | zero =>
      simp only [List.getElem?_cons_zero, Option.some.injEq] at h
      subst h
      rw [Nat.add_zero] at hm
      rw [routedTo, if_pos hm]
      exact List.mem_cons_self _ _
    | succ n =>
      simp only [List.getElem?_cons_succ] at h
      have e : start + (n + 1) = start + 1 + n := by omega
      rw [e] at hm
      have := ih (start + 1) n tri h hm
      rw [routedTo]
      split
      · exact List.mem_cons_of_mem _ this
      · exact this

theorem flatMap_toList_getElem? (l : List triangle) :
    ∀ (q : Nat) (t : triangle), l[q]? = some t →
      3 * q + 3 ≤ (l.flatMap triangle.toList).length ∧
      (l.flatMap triangle.toList)[3 * q]? = some t.i0 ∧
      (l.flatMap triangle.toList)[3 * q + 1]? = some t.i1 ∧
      (l.flatMap triangle.toList)[3 * q + 2]? = some t.i2 := by
  induction l with
  | nil => intro q t h; simp at h
  | cons t0 rest ih =>
    intro q t h
    have e : (t0 :: rest).flatMap triangle.toList =
        t0.i0 :: t0.i1 :: t0.i2 :: rest.flatMap triangle.toList := by
      simp [triangle.toList]
    rw [e]
    cases q with
    | zero =>
      simp only [List.getElem?_cons_zero, Option.some.injEq] at h
      subst h
      simp
    | succ q =>
      simp only [List.getElem?_cons_succ] at h
      obtain ⟨h0, h1, h2, h3⟩ := ih q t h
      have e0 : 3 * (q + 1) = 3 * q + 1 + 1 + 1 := by omega
      have e1 : 3 * (q + 1) + 1 = 3 * q + 1 + 1 + 1 + 1 := by omega
      have e2 : 3 * (q + 1) + 2 = 3 * q + 2 + 1 + 1 + 1 := by omega
      rw [e1, e2, e0]
      simp only [List.getElem?_cons_succ, List.length_cons]
      exact ⟨by omega, h1, h2, h3⟩

/-- A vertex of slot `m` at local index `i` that is the key of a corner is stored at
global index `vertexTotal (take m) + i`, in every array. -/
theorem vertex_stored (src : SourceMesh G) (submeshes : List (SubmeshData G)) (m : Nat)
    (sm : SubmeshData G) (i : Nat) (c : SourceCorner G) (hm : submeshes[m]? = some sm)
    (hv : sm.vertices[i]? = some (makeVertex src c)) :
    storedAt src (flatten src submeshes) (vertexTotal (submeshes.take m) + i) c := by
  obtain ⟨a1, a2, a3, a4, a5, a6⟩ := flatten_attributes src submeshes
  have hp := (flatten_fields src submeshes).1
  rw [globalPositions_eq] at hp
  refine ⟨?_, ?_, ?_, ?_, ?_, ?_⟩
  · rw [hp, globalAttribute_getElem? _ submeshes m sm i _ hm hv]
    rfl
  · intro hf
    rw [a1, hf, if_pos rfl, globalAttribute_getElem? _ submeshes m sm i _ hm hv]
    rfl
  · intro hf
    rw [a3, hf, if_pos rfl, globalAttribute_getElem? _ submeshes m sm i _ hm hv]
    rfl
  · intro hf
    rw [a4, hf, if_pos rfl, globalAttribute_getElem? _ submeshes m sm i _ hm hv]
    rfl
  · intro hf
    rw [a2, hf, if_pos rfl, globalAttribute_getElem? _ submeshes m sm i _ hm hv]
    rfl
  · intro hf
    have g5 := globalAttribute_getElem? packBoneWeights submeshes m sm i _ hm hv
    have g6 := globalAttribute_getElem? packBoneIndices submeshes m sm i _ hm hv
    rw [a5, a6, hf, if_pos rfl, if_pos rfl]
    exact ⟨g5, g6⟩

/-! ## Every vertex is referenced -/

theorem firstOccurrences_append_of_subset {α : Type} [DecidableEq α] (ks l : List α)
    (h : ∀ k ∈ l, k ∈ ks) : firstOccurrences (ks ++ l) = firstOccurrences ks := by
  induction l using List.reverseRecOn with
  | nil => simp
  | append_singleton l a ih =>
    have h1 : ∀ k ∈ l, k ∈ ks := fun k hk => h k (by simp [hk])
    have h2 : a ∈ ks ++ l := List.mem_append_left _ (h a (by simp))
    rw [← List.append_assoc, firstOccurrences_snoc, if_pos h2, ih h1]

/-- One submesh, from the empty submesh: every position of the vertex buffer occurs in
the index list. -/
theorem processTriangles_referenced (src : SourceMesh F) (tris : List (SourceTriangle F))
    (hb : 3 * tris.length < 2 ^ 32) (j : Nat)
    (hj : j < (processTriangles src SubmeshData.empty tris).vertices.length) :
    j ∈ (processTriangles src SubmeshData.empty tris).indices := by
  obtain ⟨ht, _⟩ := processTriangles_empty src tris hb
  rw [ht.vertices] at hj
  rw [ht.indices]
  have hnd := nodup_firstOccurrences (cornerKeys src tris)
  have hidx := List.indexOf_getElem hnd j hj
  have hk : (firstOccurrences (cornerKeys src tris))[j] ∈ cornerKeys src tris :=
    (mem_firstOccurrences _ _).mp (List.getElem_mem hj)
  obtain ⟨tri, htri, hkt⟩ := List.mem_flatMap.mp hk
  apply List.mem_flatMap.mpr
  refine ⟨positionTriple src (firstOccurrences (cornerKeys src tris)) tri, ?_, ?_⟩
  · rw [mem_firstOccurrences]
    exact List.mem_map.mpr ⟨tri, htri, rfl⟩
  · simp only [triangleKeys, List.mem_cons, List.mem_singleton, List.not_mem_nil,
      or_false] at hkt
    simp only [triangle.toList, positionTriple, List.mem_cons, List.mem_singleton,
      List.not_mem_nil, or_false]
    rcases hkt with e | e | e
    · exact Or.inl (by rw [← e, hidx])
    · exact Or.inr (Or.inl (by rw [← e, hidx]))
    · exact Or.inr (Or.inr (by rw [← e, hidx]))

/-- One submesh, after the polygons `pre`: a polygon that adds a vertex to the vertex
buffer is accepted by the de-duplication step, and its three indices are appended. -/
theorem new_vertex_accepted (src : SourceMesh F) (pre : List (SourceTriangle F))
    (tri : SourceTriangle F) (hb : 3 * (pre.length + 1) < 2 ^ 32)
    (hnew : (processTriangles src SubmeshData.empty pre).vertices.length <
      (addTriangle src (processTriangles src SubmeshData.empty pre) tri).vertices.length) :
    accepts
        (weldCorners (processTriangles src SubmeshData.empty pre) (makeVertex src tri.corner0)
          (makeVertex src tri.corner1) (makeVertex src tri.corner2)).1
        (weldCorners (processTriangles src SubmeshData.empty pre) (makeVertex src tri.corner0)
          (makeVertex src tri.corner1) (makeVertex src tri.corner2)).2 = true ∧
      (addTriangle src (processTriangles src SubmeshData.empty pre) tri).indices =
        (processTriangles src SubmeshData.empty pre).indices ++
          (weldCorners (processTriangles src SubmeshData.empty pre)
            (makeVertex src tri.corner0) (makeVertex src tri.corner1)
            (makeVertex src tri.corner2)).2.toList := by
  obtain ⟨ht, _⟩ := processTriangles_empty src pre (by omega)
  have hlen := length_cornerKeys src pre
  obtain ⟨hw, _⟩ := weldCorners_tracks ht (by omega) (makeVertex src tri.corner0)
    (makeVertex src tri.corner1) (makeVertex src tri.corner2)
  obtain ⟨ha, he⟩ := addTriangle_tracks src ht (by omega) tri
  rw [ha.vertices, ht.vertices] at hnew
  -- some key of the polygon is new
  have hex : ∃ k ∈ triangleKeys src tri, k ∉ cornerKeys src pre := by
    by_contra hc
    have hall : ∀ k ∈ triangleKeys src tri, k ∈ cornerKeys src pre := by
      intro k hk
      by_contra hk2
      exact hc ⟨k, hk, hk2⟩
    rw [firstOccurrences_append_of_subset _ _ hall] at hnew
    exact absurd hnew (Nat.lt_irrefl _)
  obtain ⟨k, hk, hknew⟩ := hex
  obtain ⟨e, hV⟩ := firstOccurrences_append_prefix (cornerKeys src pre) (triangleKeys src tri)
  have hkV : k ∉ firstOccurrences (cornerKeys src pre) :=
    fun hh => hknew ((mem_firstOccurrences _ _).mp hh)
  have hidx : (firstOccurrences (cornerKeys src pre)).length ≤
      (firstOccurrences (cornerKeys src pre ++ triangleKeys src tri)).indexOf k := by
    rw [hV, List.indexOf_append_of_not_mem hkV]
    omega
  -- the welded triple is not among the triples accepted before
  have hnot : positionTriple src
      (firstOccurrences (cornerKeys src pre ++ triangleKeys src tri)) tri ∉
      pre.map (positionTriple src (firstOccurrences (cornerKeys src pre))) := by
    intro hmem
    obtain ⟨tri2, htri2, heq⟩ := List.mem_map.mp hmem
    have hlt : ∀ k2 ∈ triangleKeys src tri2,
        (firstOccurrences (cornerKeys src pre)).indexOf k2 <
          (firstOccurrences (cornerKeys src pre)).length := by
      intro k2 hk2
      apply List.indexOf_lt_length.mpr
      rw [mem_firstOccurrences]
      exact List.mem_flatMap.mpr ⟨tri2, htri2, hk2⟩
    have h0 := hlt (makeVertex src tri2.corner0) (by simp [triangleKeys])
    have h1 := hlt (makeVertex src tri2.corner1) (by simp [triangleKeys])
    have h2 := hlt (makeVertex src tri2.corner2) (by simp [triangleKeys])
    simp only [positionTriple, triangle.mk.injEq] at heq
    obtain ⟨q0, q1, q2⟩ := heq
    simp only [triangleKeys, List.mem_cons, List.mem_singleton, List.not_mem_nil,
      or_false] at hk
    rcases hk with rfl | rfl | rfl
    · omega
    · omega
    · omega
  rw [← he] at hnot
  have hacc : accepts
      (weldCorners (processTriangles src SubmeshData.empty pre) (makeVertex src tri.corner0)
        (makeVertex src tri.corner1) (makeVertex src tri.corner2)).1
      (weldCorners (processTriangles src SubmeshData.empty pre) (makeVertex src tri.corner0)
        (makeVertex src tri.corner1) (makeVertex src tri.corner2)).2 = true := by
    rw [accepts_tracks hw]
    simpa using hnot
  refine ⟨hacc, ?_⟩
  have hadd : addTriangle src (processTriangles src SubmeshData.empty pre) tri =
      insertTriangle
        (weldCorners (processTriangles src SubmeshData.empty pre)
          (makeVertex src tri.corner0) (makeVertex src tri.corner1)
          (makeVertex src tri.corner2)).1
        (weldCorners (processTriangles src SubmeshData.empty pre)
          (makeVertex src tri.corner0) (makeVertex src tri.corner1)
          (makeVertex src tri.corner2)).2 := rfl
  have hkt : (weldCorners (processTriangles src SubmeshData.empty pre)
        (makeVertex src tri.corner0) (makeVertex src tri.corner1)
        (makeVertex src tri.corner2)).2 ∉
      (weldCorners (processTriangles src SubmeshData.empty pre)
        (makeVertex src tri.corner0) (makeVertex src tri.corner1)
        (makeVertex src tri.corner2)).1.knownTriangles := by
    rw [hw.knownTriangles, mem_firstOccurrences]
    exact hnot
  rw [hadd, (insertTriangle_cases _ _).2 hkt,
    (weldCorners_frame_fields _ _ _ _).2.2]
  rfl


/-- C21. Every vertex is referenced (fewer than `2 ^ 32` corners). After a submesh has
processed any polygon sequence, every position of its vertex buffer occurs in its index
list; at every step of the sequence, a polygon that adds a vertex to the vertex buffer
is accepted by the de-duplication step and its three indices are appended; and after
the polygon pass of a mesh this holds for the submesh of every slot. -/
theorem every_vertex_referenced (src : SourceMesh F) (tris : List (SourceTriangle F))
    (hb : 3 * tris.length < 2 ^ 32) :
    (∀ j, j < (processTriangles src SubmeshData.empty tris).vertices.length →
      j ∈ (processTriangles src SubmeshData.empty tris).indices) ∧
    (∀ (pre : List (SourceTriangle F)) (tri : SourceTriangle F)
      (post : List (SourceTriangle F)), tris = pre ++ tri :: post →
      (processTriangles src SubmeshData.empty pre).vertices.length <
        (addTriangle src (processTriangles src SubmeshData.empty pre) tri).vertices.length →
      accepts
          (weldCorners (processTriangles src SubmeshData.empty pre)
            (makeVertex src tri.corner0) (makeVertex src tri.corner1)
            (makeVertex src tri.corner2)).1
          (weldCorners (processTriangles src SubmeshData.empty pre)
            (makeVertex src tri.corner0) (makeVertex src tri.corner1)
            (makeVertex src tri.corner2)).2 = true ∧
        (addTriangle src (processTriangles src SubmeshData.empty pre) tri).indices =
          (processTriangles src SubmeshData.empty pre).indices ++
            (weldCorners (processTriangles src SubmeshData.empty pre)
              (makeVertex src tri.corner0) (makeVertex src tri.corner1)
              (makeVertex src tri.corner2)).2.toList) ∧
    (∀ submeshes : List (SubmeshData F), tris = src.triangles →
      polygonPass src = some submeshes →
      ∀ sm ∈ submeshes, ∀ j, j < sm.vertices.length → j ∈ sm.indices) := by
  refine ⟨fun j hj => processTriangles_referenced src tris hb j hj, ?_, ?_⟩
  · intro pre tri post hsplit hnew
    have hlen : pre.length + 1 ≤ tris.length := by
      rw [hsplit]
      simp
    exact new_vertex_accepted src pre tri (by omega) hnew
  · intro submeshes htris hpass sm hsm j hj
    obtain ⟨hl, hslot⟩ := polygonPass_slot hpass
    obtain ⟨m, hm⟩ := List.mem_iff_getElem?.mp hsm
    have hlt : m < submeshCount src := by
      rw [← hl]
      exact (List.getElem?_eq_some.mp hm).1
    have e := hslot m hlt
    rw [hm, Option.some.injEq] at e
    have hr := length_routedTo_le src m src.triangles 0
    rw [← htris] at hr
    rw [e] at hj ⊢
    rw [htris] at hr hb
    exact processTriangles_referenced src _ (by omega) j hj

/-- Witness of C21 on the sample mesh: polygon 2 repeats polygon 0 and is rejected,
and still each of the three vertices of slot 0 and of slot 1 occurs in the index list
of its submesh. -/
theorem every_vertex_referenced_witness :
    3 * sampleMesh.triangles.length < 2 ^ 32 ∧
    polygonPass sampleMesh =
      some [processTriangles sampleMesh SubmeshData.empty
          [sampleTriangle 0 1 2, sampleTriangle 0 1 2, sampleTriangle 2 1 0],
        processTriangles sampleMesh SubmeshData.empty [sampleTriangle 0 1 3]] ∧
    ∀ sm ∈ [processTriangles sampleMesh SubmeshData.empty
          [sampleTriangle 0 1 2, sampleTriangle 0 1 2, sampleTriangle 2 1 0],
        processTriangles sampleMesh SubmeshData.empty [sampleTriangle 0 1 3]],
      ∀ j, j < sm.vertices.length → j ∈ sm.indices :=
  ⟨by decide, rfl,
    (every_vertex_referenced sampleMesh sampleMesh.triangles (by decide)).2.2 _ rfl rfl⟩


/-! ## No triangle occurs twice in the flattened mesh -/

theorem submeshOk_processTriangles (src : SourceMesh F) (tris : List (SourceTriangle F))
    (hb : 3 * tris.length < 2 ^ 32) :
    SubmeshOk (processTriangles src SubmeshData.empty tris) := by
  obtain ⟨ht, _⟩ := processTriangles_empty src tris hb
  have hT : indexTriples (processTriangles src SubmeshData.empty tris).indices =
      firstOccurrences (tris.map
        (positionTriple src (firstOccurrences (cornerKeys src tris)))) := by
    rw [ht.indices, indexTriples_flatMap]
  refine ⟨?_, ?_, ?_⟩
  · rw [hT]
    exact ht.indices
  · rw [hT]
    exact nodup_firstOccurrences _
  · exact fun i hi => processTriangles_index_lt src tris hb i hi

theorem length_flatMap_toList (l : List triangle) :
    (l.flatMap triangle.toList).length = 3 * l.length := by
  induction l with
  | nil => rfl
  | cons t rest ih =>
    rw [List.flatMap_cons, List.length_append, ih]
    simp [triangle.toList]
    omega

theorem map_shift_flatMap (vs : Nat) (l : List triangle) :
    (l.flatMap triangle.toList).map (fun i => i + vs) =
      (l.map (triangle.shift vs)).flatMap triangle.toList := by
  induction l with
  | nil => rfl
  | cons t rest ih =>
    rw [List.flatMap_cons, List.map_append, ih, List.map_cons, List.flatMap_cons]
    rfl

theorem globalIndices_eq_flatMap (submeshes : List (SubmeshData G)) :
    ∀ vs : Nat, (∀ s ∈ submeshes, SubmeshOk s) → vs + vertexTotal submeshes < 2 ^ 32 →
      globalIndices vs submeshes = (globalTriangles vs submeshes).flatMap triangle.toList := by
  induction submeshes with
  | nil => intro vs _ _; rfl
  | cons s rest ih =>
    intro vs hok hb
    simp only [vertexTotal] at hb
    have hs := hok s (by simp)
    have hrest := ih (vs + s.vertices.length)
      (fun s2 hs2 => hok s2 (List.mem_cons_of_mem _ hs2)) (by omega)
    have hmap : s.indices.map (fun i => u32 (i + u32 vs)) =
        s.indices.map (fun i => i + vs) := by
      apply List.map_congr_left
      intro i hi
      have := hs.bound i hi
      rw [u32_of_lt (show vs < 2 ^ 32 by omega), u32_of_lt (by omega)]
    rw [globalIndices, globalTriangles, List.flatMap_append, hrest, hmap,
      ← map_shift_flatMap, ← hs.triples]

theorem mem_indexTriples_bound {s : SubmeshData G} (hs : SubmeshOk s) (t : triangle)
    (ht : t ∈ indexTriples s.indices) : t.i0 < s.vertices.length := by
  apply hs.bound
  rw [hs.triples]
  exact List.mem_flatMap.mpr ⟨t, ht, by simp [triangle.toList]⟩

theorem globalTriangles_nodup (submeshes : List (SubmeshData G)) :
    ∀ vs : Nat, (∀ s ∈ submeshes, SubmeshOk s) →
      (globalTriangles vs submeshes).Nodup ∧
      ∀ t ∈ globalTriangles vs submeshes, vs ≤ t.i0 := by
  induction submeshes with
  | nil =>
    intro vs _
    exact ⟨List.nodup_nil, fun t ht => by simp [globalTriangles] at ht⟩
  | cons s rest ih =>
    intro vs hok
    have hs := hok s (by simp)
    obtain ⟨hnd, hge⟩ := ih (vs + s.vertices.length)
      (fun s2 hs2 => hok s2 (List.mem_cons_of_mem _ hs2))
    have hblock : ((indexTriples s.indices).map (triangle.shift vs)).Nodup := by
      apply List.Nodup.map _ hs.nodup
      intro t1 t2 e
      simp only [triangle.shift, triangle.mk.injEq] at e
      obtain ⟨e0, e1, e2⟩ := e
      cases t1
      cases t2
      simp only [triangle.mk.injEq] at *
      exact ⟨by omega, by omega, by omega⟩
    have hlt : ∀ t ∈ (indexTriples s.indices).map (triangle.shift vs),
        vs ≤ t.i0 ∧ t.i0 < vs + s.vertices.length := by
      intro t ht
      obtain ⟨t0, ht0, rfl⟩ := List.mem_map.mp ht
      have := mem_indexTriples_bound hs t0 ht0
      simp only [triangle.shift]
      omega
    rw [globalTriangles]
    refine ⟨List.Nodup.append hblock hnd ?_, ?_⟩
    · intro t h1 h2
      have a := (hlt t h1).2
      have b := hge t h2
      omega
    · intro t ht
      rcases List.mem_append.mp ht with h1 | h2
      · exact (hlt t h1).1
      · have := hge t h2
        omega

/-- The global index array of a successful conversion with fewer than `2 ^ 32` corners
is a list of pairwise distinct ordered triples. -/
theorem convert_triples_nodup {src : SourceMesh F} {out : BabylonMesh F}
    (hb : 3 * src.triangles.length < 2 ^ 32) (h : convert src = some out) :
    ∃ T : List triangle, T.Nodup ∧ out.indices = T.flatMap triangle.toList := by
  obtain ⟨submeshes, hpass, rfl⟩ := convert_eq_some h
  obtain ⟨hl, hslot⟩ := polygonPass_slot hpass
  have hok : ∀ s ∈ submeshes, SubmeshOk s := by
    intro s hs
    obtain ⟨m, hm⟩ := List.mem_iff_getElem?.mp hs
    have hlt : m < submeshCount src := by
      rw [← hl]
      exact (List.getElem?_eq_some.mp hm).1
    have e := hslot m hlt
    rw [hm, Option.some.injEq] at e
    have hr := length_routedTo_le src m src.triangles 0
    rw [e]
    exact submeshOk_processTriangles src _ (by omega)
  have htot := polygonPass_vertexTotal_le hpass
  refine ⟨globalTriangles 0 submeshes, (globalTriangles_nodup submeshes 0 hok).1, ?_⟩
  rw [(flatten_fields src submeshes).2.1]
  exact globalIndices_eq_flatMap submeshes 0 hok (by omega)


/-- C22. No triangle occurs twice in the flattened mesh (fewer than `2 ^ 32` corners).
The global index array is the concatenation of its ordered triples, these triples are
pairwise distinct, and so for any two distinct triangle-aligned positions `3a` and `3b`
of the array the triples stored there differ in at least one entry, whether they
belong to the same submesh or to different submeshes. -/
theorem no_identical_triangles (src : SourceMesh F) (out : BabylonMesh F)
    (hb : 3 * src.triangles.length < 2 ^ 32) (h : convert src = some out) :
    out.indices = (indexTriples out.indices).flatMap triangle.toList ∧
    (indexTriples out.indices).Nodup ∧
    ∀ a b : Nat, a ≠ b → 3 * a + 2 < out.indices.length → 3 * b + 2 < out.indices.length →
      ¬ (out.indices[3 * a]? = out.indices[3 * b]? ∧
        out.indices[3 * a + 1]? = out.indices[3 * b + 1]? ∧
        out.indices[3 * a + 2]? = out.indices[3 * b + 2]?) := by
  obtain ⟨T, hnd, hT⟩ := convert_triples_nodup hb h
  have hidx : indexTriples out.indices = T := by rw [hT, indexTriples_flatMap]
  refine ⟨by rw [hidx]; exact hT, by rw [hidx]; exact hnd, ?_⟩
  intro a b hab ha hb2 heq
  rw [hT, length_flatMap_toList] at ha hb2
  have hla : a < T.length := by omega
  have hlb : b < T.length := by omega
  obtain ⟨_, a0, a1, a2⟩ := flatMap_toList_getElem? T a T[a] (List.getElem?_eq_getElem hla)
  obtain ⟨_, b0, b1, b2⟩ := flatMap_toList_getElem? T b T[b] (List.getElem?_eq_getElem hlb)
  rw [hT, a0, a1, a2, b0, b1, b2] at heq
  simp only [Option.some.injEq] at heq
  have hsame : T[a] = T[b] := by
    obtain ⟨e0, e1, e2⟩ := heq
    cases hta : T[a]
    cases htb : T[b]
    rw [hta, htb] at e0 e1 e2
    simp only at e0 e1 e2
    rw [e0, e1, e2]
  exact hab ((List.Nodup.getElem_inj_iff hnd).mp hsame)

/-- Witness of C22 on the sample mesh: the triples at positions 0 and 3, `(0,1,2)` and
`(2,1,0)`, differ. -/
theorem no_identical_triangles_witness :
    convert sampleMesh = some sampleOut ∧
    ¬ (sampleOut.indices[3 * 0]? = sampleOut.indices[3 * 1]? ∧
      sampleOut.indices[3 * 0 + 1]? = sampleOut.indices[3 * 1 + 1]? ∧
      sampleOut.indices[3 * 0 + 2]? = sampleOut.indices[3 * 1 + 2]?) :=
  ⟨by decide,
    (no_identical_triangles sampleMesh sampleOut (by decide) (by decide)).2.2 0 1 (by decide)
      (by decide) (by decide)⟩


/-! ## Keys with a NaN component -/

theorem num_lt_num (x y : F) : (WithNaN.num x < WithNaN.num y) ↔ x < y :=
  Iff.rfl

theorem lex_step_num (a b : WithNaN F) (ha : a.isNum = true) (hb : b.isNum = true)
    (r s : Bool) :
    ((if a < b then true else if b < a then false else r) = false ∧
      (if b < a then true else if a < b then false else s) = false) ↔
    (a = b ∧ r = false ∧ s = false) := by
  cases a with
  | nan => simp [WithNaN.isNum] at ha
  | num x =>
    cases b with
    | nan => simp [WithNaN.isNum] at hb
    | num y =>
      rw [WithNaN.num.injEq]
      exact lex_step_iff x y r s

theorem lex_last_num (a b : WithNaN F) (ha : a.isNum = true) (hb : b.isNum = true) :
    (decide (a < b) = false ∧ decide (b < a) = false) ↔ a = b := by
  cases a with
  | nan => simp [WithNaN.isNum] at ha
  | num x =>
    cases b with
    | nan => simp [WithNaN.isNum] at hb
    | num y =>
      rw [WithNaN.num.injEq]
      exact lex_last_iff x y

theorem lex_stepB_at {α : Type} (lt : α → α → Bool) (a b : α)
    (h : (lt a b = false ∧ lt b a = false) ↔ a = b) (r s : Bool) :
    ((if lt a b = true then true else if lt b a = true then false else r) = false ∧
      (if lt b a = true then true else if lt a b = true then false else s) = false) ↔
    (a = b ∧ r = false ∧ s = false) := by
  cases hab : lt a b <;> cases hba : lt b a <;> simp [hab, hba] at h ⊢
  · simp [h]
  · exact fun e => absurd e h
  · exact fun e => absurd e h
  · exact fun e => absurd e h

theorem babylon_vector2_lt_equiv_num (a b : babylon_vector2 (WithNaN F))
    (ha : a.noNaN = true) (hb : b.noNaN = true) :
    (a.lt b = false ∧ b.lt a = false) ↔ a = b := by
  simp only [babylon_vector2.noNaN, Bool.and_eq_true] at ha hb
  unfold babylon_vector2.lt
  rw [lex_step_num _ _ ha.1 hb.1, lex_last_num _ _ ha.2 hb.2]
  cases a; cases b; simp

theorem babylon_vector3_lt_equiv_num (a b : babylon_vector3 (WithNaN F))
    (ha : a.noNaN = true) (hb : b.noNaN = true) :
    (a.lt b = false ∧ b.lt a = false) ↔ a = b := by
  simp only [babylon_vector3.noNaN, Bool.and_eq_true] at ha hb
  unfold babylon_vector3.lt
  rw [lex_step_num _ _ ha.1.1 hb.1.1, lex_step_num _ _ ha.1.2 hb.1.2,
    lex_last_num _ _ ha.2 hb.2]
  cases a; cases b; simp

theorem babylon_color_lt_equiv_num (a b : babylon_color (WithNaN F))
    (ha : a.noNaN = true) (hb : b.noNaN = true) :
    (a.lt b = false ∧ b.lt a = false) ↔ a = b := by
  simp only [babylon_color.noNaN, Bool.and_eq_true] at ha hb
  unfold babylon_color.lt
  rw [lex_step_num _ _ ha.1.1.1 hb.1.1.1, lex_step_num _ _ ha.1.1.2 hb.1.1.2,
    lex_step_num _ _ ha.1.2 hb.1.2, lex_last_num _ _ ha.2 hb.2]
  cases a; cases b; simp

theorem BabylonVertex_lt_equiv_num (a b : BabylonVertex (WithNaN F))
    (ha : a.noNaN = true) (hb : b.noNaN = true) :
    (a.lt b = false ∧ b.lt a = false) ↔ a = b := by
  simp only [BabylonVertex.noNaN, Bool.and_eq_true] at ha hb
  obtain ⟨⟨⟨⟨⟨⟨⟨⟨ap, an⟩, au⟩, au2⟩, ac⟩, a0⟩, a1⟩, a2⟩, a3⟩ := ha
  obtain ⟨⟨⟨⟨⟨⟨⟨⟨bp, bn⟩, bu⟩, bu2⟩, bc⟩, b0⟩, b1⟩, b2⟩, b3⟩ := hb
  unfold BabylonVertex.lt
  rw [lex_stepB_at _ _ _ (babylon_vector3_lt_equiv_num _ _ ap bp),
    lex_stepB_at _ _ _ (babylon_vector3_lt_equiv_num _ _ an bn),
    lex_stepB_at _ _ _ (babylon_vector2_lt_equiv_num _ _ au bu),
    lex_stepB_at _ _ _ (babylon_vector2_lt_equiv_num _ _ au2 bu2),
    lex_stepB_at _ _ _ (babylon_color_lt_equiv_num _ _ ac bc), lex_step_iff, lex_step_iff,
    lex_step_iff, lex_step_iff, lex_step_num _ _ a0 b0, lex_step_num _ _ a1 b1,
    lex_step_num _ _ a2 b2, lex_step_num _ _ a3 b3]
  obtain ⟨p, n, u, u2, c, ⟨i0, i1, i2, i3⟩, ⟨w0, w1, w2, w3⟩⟩ := a
  obtain ⟨p', n', u', u2', c', ⟨j0, j1, j2, j3⟩, ⟨x0, x1, x2, x3⟩⟩ := b
  simp only [BabylonVertex.mk.injEq, Array4.mk.injEq, and_true, and_assoc]

/-- On keys without a NaN component, the equivalence that `operator<` induces in
`knownVertices` is equality. -/
theorem keyEquiv_vertex_num (a b : BabylonVertex (WithNaN F)) (ha : a.noNaN = true)
    (hb : b.noNaN = true) : keyEquiv BabylonVertex.lt a b = decide (a = b) := by
  have h := BabylonVertex_lt_equiv_num a b ha hb
  unfold keyEquiv
  by_cases e : a = b
  · subst e
    have h2 := h.mpr rfl
    simp [h2.1]
  · have h3 : ¬ (a.lt b = false ∧ b.lt a = false) := fun hh => e (h.mp hh)
    cases hab : a.lt b <;> cases hba : b.lt a <;> simp_all

theorem stdMapFind_numberFrom_num (n : Nat) (vs : List (BabylonVertex (WithNaN F)))
    (k : BabylonVertex (WithNaN F)) (hvs : ∀ v ∈ vs, v.noNaN = true)
    (hk : k.noNaN = true) :
    stdMapFind BabylonVertex.lt (numberFrom n vs) k =
      if k ∈ vs then some (n + vs.indexOf k) else none := by
  induction vs generalizing n with
  | nil => simp [numberFrom, stdMapFind]
  | cons b l ih =>
    have hb : b.noNaN = true := hvs b (List.mem_cons_self _ _)
    have hl : ∀ v ∈ l, v.noNaN = true := fun v hv => hvs v (List.mem_cons_of_mem _ hv)
    simp only [numberFrom, stdMapFind, keyEquiv_vertex_num b k hb hk, ih _ hl, List.mem_cons]
    by_cases hbk : b = k
    · subst hbk
      simp
    · have hkb : ¬ k = b := fun e => hbk e.symm
      simp only [hbk, decide_False, hkb, false_or, List.indexOf_cons_ne _ hbk]
      by_cases hkl : k ∈ l
      · simp [hkl]
        omega
      · simp [hkl]

theorem stdMapAssign_numberFrom_num (n : Nat) (vs : List (BabylonVertex (WithNaN F)))
    (k : BabylonVertex (WithNaN F)) (i : Nat) (hvs : ∀ v ∈ vs, v.noNaN = true)
    (hk : k.noNaN = true) (h : k ∉ vs) :
    stdMapAssign BabylonVertex.lt (numberFrom n vs) k i = numberFrom n vs ++ [(k, i)] := by
  induction vs generalizing n with
  | nil => simp [numberFrom, stdMapAssign]
  | cons b l ih =>
    have hb : b.noNaN = true := hvs b (List.mem_cons_self _ _)
    have hl : ∀ v ∈ l, v.noNaN = true := fun v hv => hvs v (List.mem_cons_of_mem _ hv)
    simp only [List.mem_cons, not_or] at h
    have hbk : ¬ b = k := fun e => h.1 e.symm
    simp [numberFrom, stdMapAssign, keyEquiv_vertex_num b k hb hk, hbk, ih _ hl h.2]

theorem weld_tracks_num {submesh : SubmeshData (WithNaN F)}
    {ks : List (BabylonVertex (WithNaN F))} {ts : List triangle} (h : Tracks submesh ks ts)
    (hb : ks.length < 2 ^ 32) (k : BabylonVertex (WithNaN F))
    (hks : ∀ v ∈ ks, v.noNaN = true) (hkn : k.noNaN = true) :
    Tracks (weld submesh k).1 (ks ++ [k]) ts ∧
      (weld submesh k).2 = (firstOccurrences (ks ++ [k])).indexOf k := by
  have hlen : (firstOccurrences ks).length < 2 ^ 32 :=
    lt_of_le_of_lt (length_firstOccurrences_le ks) hb
  have hfo : ∀ v ∈ firstOccurrences ks, v.noNaN = true :=
    fun v hv => hks v ((mem_firstOccurrences v ks).mp hv)
  have hsn := firstOccurrences_snoc ks k
  unfold weld
  rw [h.knownVertices, stdMapFind_numberFrom_num _ _ _ hfo hkn]
  by_cases hk : k ∈ ks
  · have hk2 : k ∈ firstOccurrences ks := (mem_firstOccurrences k ks).mpr hk
    rw [if_pos hk] at hsn
    simp only [hk2, if_true, Nat.zero_add]
    refine ⟨⟨?_, ?_, h.knownTriangles, h.indices⟩, ?_⟩
    · rw [hsn]
      exact h.vertices
    · rw [hsn]
      exact h.knownVertices
    · rw [hsn]
  · have hk2 : k ∉ firstOccurrences ks := fun hh => hk ((mem_firstOccurrences k ks).mp hh)
    rw [if_neg hk] at hsn
    simp only [hk2, if_false]
    rw [stdMapAssign_numberFrom_num _ _ _ _ hfo hkn hk2, h.vertices, u32_of_lt hlen]
    refine ⟨⟨?_, ?_, h.knownTriangles, h.indices⟩, ?_⟩
    · rw [hsn]
    · rw [hsn, numberFrom_snoc]
      simp
    · rw [hsn, List.indexOf_append_of_not_mem hk2]
      simp

theorem weldCorners_tracks_num {submesh : SubmeshData (WithNaN F)}
    {ks : List (BabylonVertex (WithNaN F))} {ts : List triangle} (h : Tracks submesh ks ts)
    (hb : ks.length + 3 ≤ 2 ^ 32) (v0 v1 v2 : BabylonVertex (WithNaN F))
    (hks : ∀ v ∈ ks, v.noNaN = true) (h0 : v0.noNaN = true) (h1 : v1.noNaN = true)
    (h2 : v2.noNaN = true) :
    Tracks (weldCorners submesh v0 v1 v2).1 (ks ++ [v0, v1, v2]) ts ∧
      (weldCorners submesh v0 v1 v2).2 =
        { i0 := (firstOccurrences (ks ++ [v0, v1, v2])).indexOf v0
          i1 := (firstOccurrences (ks ++ [v0, v1, v2])).indexOf v1
          i2 := (firstOccurrences (ks ++ [v0, v1, v2])).indexOf v2 } := by
  have hks0 : ∀ v ∈ ks ++ [v0], v.noNaN = true := by
    intro v hv
    rcases List.mem_append.mp hv with hv | hv
    · exact hks v hv
    · rw [List.mem_singleton.mp hv]
      exact h0
  have hks1 : ∀ v ∈ ks ++ [v0] ++ [v1], v.noNaN = true := by
    intro v hv
    rcases List.mem_append.mp hv with hv | hv
    · exact hks0 v hv
    · rw [List.mem_singleton.mp hv]
      exact h1
  obtain ⟨t0, e0⟩ := weld_tracks_num h (by omega) v0 hks h0
  obtain ⟨t1, e1⟩ := weld_tracks_num t0 (by simp; omega) v1 hks0 h1
  obtain ⟨t2, e2⟩ := weld_tracks_num t1 (by simp; omega) v2 hks1 h2
  have a1 : ks ++ [v0] ++ [v1] ++ [v2] = ks ++ [v0, v1, v2] := by simp
  have a2 : ks ++ [v0, v1, v2] = (ks ++ [v0]) ++ [v1, v2] := by simp
  have a3 : ks ++ [v0, v1, v2] = (ks ++ [v0] ++ [v1]) ++ [v2] := by simp
  unfold weldCorners
  refine ⟨a1 ▸ t2, ?_⟩
  simp only [e0, e1, e2, triangle.mk.injEq]
  refine ⟨?_, ?_, ?_⟩
  · rw [a2, indexOf_firstOccurrences_append (ks ++ [v0]) [v1, v2] v0 (by simp)]
  · rw [a3, indexOf_firstOccurrences_append (ks ++ [v0] ++ [v1]) [v2] v1 (by simp)]
  · rw [a1]

theorem addTriangle_tracks_num (src : SourceMesh (WithNaN F))
    {submesh : SubmeshData (WithNaN F)} {ks : List (BabylonVertex (WithNaN F))}
    {ts : List triangle} (h : Tracks submesh ks ts) (hb : ks.length + 3 ≤ 2 ^ 32)
    (tri : SourceTriangle (WithNaN F)) (hks : ∀ v ∈ ks, v.noNaN = true)
    (htri : ∀ v ∈ triangleKeys src tri, v.noNaN = true) :
    Tracks (addTriangle src submesh tri) (ks ++ triangleKeys src tri)
        (ts ++ [positionTriple src (firstOccurrences (ks ++ triangleKeys src tri)) tri]) ∧
      (weldCorners submesh (makeVertex src tri.corner0) (makeVertex src tri.corner1)
          (makeVertex src tri.corner2)).2 =
        positionTriple src (firstOccurrences (ks ++ triangleKeys src tri)) tri := by
  obtain ⟨t, e⟩ := weldCorners_tracks_num h hb (makeVertex src tri.corner0)
    (makeVertex src tri.corner1) (makeVertex src tri.corner2) hks
    (htri _ (by simp [triangleKeys])) (htri _ (by simp [triangleKeys]))
    (htri _ (by simp [triangleKeys]))
  have e2 : (weldCorners submesh (makeVertex src tri.corner0) (makeVertex src tri.corner1)
      (makeVertex src tri.corner2)).2 =
        positionTriple src (firstOccurrences (ks ++ triangleKeys src tri)) tri := e
  refine ⟨?_, e2⟩
  have h3 := insertTriangle_tracks t (weldCorners submesh (makeVertex src tri.corner0)
    (makeVertex src tri.corner1) (makeVertex src tri.corner2)).2
  have hadd : insertTriangle (weldCorners submesh (makeVertex src tri.corner0)
      (makeVertex src tri.corner1) (makeVertex src tri.corner2)).1
      (weldCorners submesh (makeVertex src tri.corner0)
      (makeVertex src tri.corner1) (makeVertex src tri.corner2)).2 =
      addTriangle src submesh tri := rfl
  rw [hadd, e2] at h3
  exact h3

theorem processTriangles_tracks_num (src : SourceMesh (WithNaN F))
    (tris : List (SourceTriangle (WithNaN F))) :
    ∀ (submesh : SubmeshData (WithNaN F)) (ks : List (BabylonVertex (WithNaN F)))
      (ts : List triangle),
      Tracks submesh ks ts → ks.length + 3 * tris.length ≤ 2 ^ 32 →
      (∀ v ∈ ks, v.noNaN = true) → (∀ v ∈ cornerKeys src tris, v.noNaN = true) →
      Tracks (processTriangles src submesh tris) (ks ++ cornerKeys src tris)
          (ts ++ tris.map (positionTriple src (firstOccurrences (ks ++ cornerKeys src tris)))) ∧
        weldedTriangles src submesh tris =
          tris.map (positionTriple src (firstOccurrences (ks ++ cornerKeys src tris))) := by
  induction tris with
  | nil =>
    intro submesh ks ts h _ _ _
    simpa [processTriangles, cornerKeys, weldedTriangles] using h
  | cons tri rest ih =>
    intro submesh ks ts h hb hks hnum
    simp only [List.length_cons] at hb
    have hck : cornerKeys src (tri :: rest) = triangleKeys src tri ++ cornerKeys src rest := by
      simp [cornerKeys]
    have htri : ∀ v ∈ triangleKeys src tri, v.noNaN = true :=
      fun v hv => hnum v (by rw [hck]; exact List.mem_append_left _ hv)
    have hrest : ∀ v ∈ cornerKeys src rest, v.noNaN = true :=
      fun v hv => hnum v (by rw [hck]; exact List.mem_append_right _ hv)
    have hks1 : ∀ v ∈ ks ++ triangleKeys src tri, v.noNaN = true := by
      intro v hv
      rcases List.mem_append.mp hv with hv | hv
      · exact hks v hv
      · exact htri v hv
    obtain ⟨t1, e1⟩ := addTriangle_tracks_num src h (by omega) tri hks htri
    have hlen : (ks ++ triangleKeys src tri).length = ks.length + 3 := by
      simp [triangleKeys]
    obtain ⟨t2, e2⟩ := ih _ _ _ t1 (by rw [hlen]; omega) hks1 hrest
    have hk : ks ++ cornerKeys src (tri :: rest) =
        ks ++ triangleKeys src tri ++ cornerKeys src rest := by
      simp [cornerKeys]
    have hp := positionTriple_append src ks (cornerKeys src rest) tri
    rw [hk]
    constructor
    · have : processTriangles src submesh (tri :: rest) =
          processTriangles src (addTriangle src submesh tri) rest := rfl
      rw [this, List.map_cons, hp]
      simpa using t2
    · rw [weldedTriangles, e1, e2, List.map_cons, hp]

/-- The state of one submesh after a polygon sequence without NaN in its keys, from
the empty submesh. -/
theorem processTriangles_empty_num (src : SourceMesh (WithNaN F))
    (tris : List (SourceTriangle (WithNaN F))) (hb : 3 * tris.length < 2 ^ 32)
    (hnum : ∀ v ∈ cornerKeys src tris, v.noNaN = true) :
    Tracks (processTriangles src SubmeshData.empty tris) (cornerKeys src tris)
        (tris.map (positionTriple src (firstOccurrences (cornerKeys src tris)))) ∧
      weldedTriangles src SubmeshData.empty tris =
        tris.map (positionTriple src (firstOccurrences (cornerKeys src tris))) := by
  have h := processTriangles_tracks_num src tris SubmeshData.empty [] [] tracks_empty
    (by simp; omega) (by simp) hnum
  simpa using h

theorem stdMapFind_of_mem_num (m : List (BabylonVertex (WithNaN F) × Nat))
    (k : BabylonVertex (WithNaN F)) (hm : ∀ p ∈ m, p.1.noNaN = true) (hk : k.noNaN = true)
    (h : ∃ p ∈ m, p.1 = k) :
    ∃ i, (k, i) ∈ m ∧ stdMapFind BabylonVertex.lt m k = some i := by
  induction m with
  | nil => simp at h
  | cons q rest ih =>
    obtain ⟨key, value⟩ := q
    have hkey : key.noNaN = true := hm (key, value) (List.mem_cons_self _ _)
    have hrest : ∀ p ∈ rest, p.1.noNaN = true := fun p hp => hm p (List.mem_cons_of_mem _ hp)
    by_cases hq : key = k
    · subst hq
      exact ⟨value, by simp, by simp [stdMapFind, keyEquiv_vertex_num key key hkey hkey]⟩
    · have h2 : ∃ p ∈ rest, p.1 = k := by
        obtain ⟨p, hp, e⟩ := h
        rcases List.mem_cons.mp hp with hp | hp
        · subst hp
          exact absurd e hq
        · exact ⟨p, hp, e⟩
      obtain ⟨i, hi, e⟩ := ih hrest h2
      exact ⟨i, List.mem_cons_of_mem _ hi,
        by simp [stdMapFind, keyEquiv_vertex_num key k hkey hk, hq, e]⟩

theorem stdMapFind_eq_none_num (m : List (BabylonVertex (WithNaN F) × Nat))
    (k : BabylonVertex (WithNaN F)) (hm : ∀ p ∈ m, p.1.noNaN = true) (hk : k.noNaN = true)
    (h : ∀ p ∈ m, p.1 ≠ k) : stdMapFind BabylonVertex.lt m k = none := by
  induction m with
  | nil => rfl
  | cons q rest ih =>
    obtain ⟨key, value⟩ := q
    have hkey : key.noNaN = true := hm (key, value) (List.mem_cons_self _ _)
    have hrest : ∀ p ∈ rest, p.1.noNaN = true := fun p hp => hm p (List.mem_cons_of_mem _ hp)
    have hq : key ≠ k := h (key, value) (by simp)
    have h2 : ∀ p ∈ rest, p.1 ≠ k := fun p hp => h p (List.mem_cons_of_mem _ hp)
    simp [stdMapFind, keyEquiv_vertex_num key k hkey hk, hq, ih hrest h2]

theorem stdMapFind_assign_self_num (m : List (BabylonVertex (WithNaN F) × Nat))
    (k : BabylonVertex (WithNaN F)) (i : Nat) (hm : ∀ p ∈ m, p.1.noNaN = true)
    (hk : k.noNaN = true) :
    stdMapFind BabylonVertex.lt (stdMapAssign BabylonVertex.lt m k i) k = some i := by
  induction m with
  | nil => simp [stdMapAssign, stdMapFind, keyEquiv_vertex_num k k hk hk]
  | cons q rest ih =>
    obtain ⟨key, value⟩ := q
    have hkey : key.noNaN = true := hm (key, value) (List.mem_cons_self _ _)
    have hrest : ∀ p ∈ rest, p.1.noNaN = true := fun p hp => hm p (List.mem_cons_of_mem _ hp)
    by_cases hq : key = k
    · subst hq
      simp [stdMapAssign, stdMapFind, keyEquiv_vertex_num key key hkey hkey]
    · simp [stdMapAssign, stdMapFind, keyEquiv_vertex_num key k hkey hk, hq, ih hrest]

theorem stdMapFind_assign_ne_num (m : List (BabylonVertex (WithNaN F) × Nat))
    (k k2 : BabylonVertex (WithNaN F)) (i : Nat) (hm : ∀ p ∈ m, p.1.noNaN = true)
    (hk : k.noNaN = true) (hk2 : k2.noNaN = true) (h : k2 ≠ k) :
    stdMapFind BabylonVertex.lt (stdMapAssign BabylonVertex.lt m k i) k2 =
      stdMapFind BabylonVertex.lt m k2 := by
  induction m with
  | nil =>
    have h2 : ¬ k = k2 := fun e => h e.symm
    simp [stdMapAssign, stdMapFind, keyEquiv_vertex_num k k2 hk hk2, h2]
  | cons q rest ih =>
    obtain ⟨key, value⟩ := q
    have hkey : key.noNaN = true := hm (key, value) (List.mem_cons_self _ _)
    have hrest : ∀ p ∈ rest, p.1.noNaN = true := fun p hp => hm p (List.mem_cons_of_mem _ hp)
    by_cases hq : key = k
    · subst hq
      have h2 : ¬ key = k2 := fun e => h e.symm
      simp [stdMapAssign, stdMapFind, keyEquiv_vertex_num key key hkey hkey,
        keyEquiv_vertex_num key k2 hkey hk2, h2]
    · by_cases hq2 : key = k2
      · subst hq2
        simp [stdMapAssign, stdMapFind, keyEquiv_vertex_num key k hkey hk,
          keyEquiv_vertex_num key key hkey hkey, hq]
      · simp [stdMapAssign, stdMapFind, keyEquiv_vertex_num key k hkey hk,
          keyEquiv_vertex_num key k2 hkey hk2, hq, hq2, ih hrest]

theorem mem_of_mem_routedTo (src : SourceMesh G) (m : Nat) (tris : List (SourceTriangle G)) :
    ∀ (start : Nat) (tri : SourceTriangle G), tri ∈ routedTo src m start tris → tri ∈ tris := by
  induction tris with
  | nil => intro start tri h; simp [routedTo] at h
  | cons t rest ih =>
    intro start tri h
    rw [routedTo] at h
    split at h
    · rcases List.mem_cons.mp h with h | h
      · rw [h]
        exact List.mem_cons_self _ _
      · exact List.mem_cons_of_mem _ (ih _ _ h)
    · exact List.mem_cons_of_mem _ (ih _ _ h)

theorem cornerKeys_routedTo_subset (src : SourceMesh G) (m : Nat) (v : BabylonVertex G)
    (h : v ∈ cornerKeys src (routedTo src m 0 src.triangles)) :
    v ∈ cornerKeys src src.triangles := by
  obtain ⟨tri, htri, hv⟩ := List.mem_flatMap.mp h
  exact List.mem_flatMap.mpr ⟨tri, mem_of_mem_routedTo src m _ _ _ htri, hv⟩

/-- Every local index of a submesh whose keys have no NaN component is a position of
its vertex buffer. -/
theorem processTriangles_index_lt_num (src : SourceMesh (WithNaN F))
    (tris : List (SourceTriangle (WithNaN F))) (hb : 3 * tris.length < 2 ^ 32)
    (hnum : ∀ v ∈ cornerKeys src tris, v.noNaN = true) (i : Nat)
    (hi : i ∈ (processTriangles src SubmeshData.empty tris).indices) :
    i < (processTriangles src SubmeshData.empty tris).vertices.length := by
  obtain ⟨ht, _⟩ := processTriangles_empty_num src tris hb hnum
  rw [ht.indices] at hi
  rw [ht.vertices]
  obtain ⟨t, htm, hit⟩ := List.mem_flatMap.mp hi
  rw [mem_firstOccurrences] at htm
  obtain ⟨tri, htri, rfl⟩ := List.mem_map.mp htm
  have hkey : ∀ k ∈ triangleKeys src tri,
      (firstOccurrences (cornerKeys src tris)).indexOf k <
        (firstOccurrences (cornerKeys src tris)).length := by
    intro k hk
    apply List.indexOf_lt_length.mpr
    rw [mem_firstOccurrences]
    exact List.mem_flatMap.mpr ⟨tri, htri, hk⟩
  simp only [triangle.toList, positionTriple, List.mem_cons, List.mem_singleton,
    List.not_mem_nil, or_false] at hit
  rcases hit with rfl | rfl | rfl
  · exact hkey _ (by simp [triangleKeys])
  · exact hkey _ (by simp [triangleKeys])
  · exact hkey _ (by simp [triangleKeys])

/-- The global index of every local index of slot `m`, after a polygon pass with
fewer than `2 ^ 32` corners and no NaN in a vertex key. -/
theorem flatten_rebased_num {src : SourceMesh (WithNaN F)}
    {submeshes : List (SubmeshData (WithNaN F))}
    (h : polygonPass src = some submeshes) (hb : 3 * src.triangles.length < 2 ^ 32)
    (hnum : ∀ v ∈ cornerKeys src src.triangles, v.noNaN = true)
    (m : Nat) (sm : SubmeshData (WithNaN F)) (hm : submeshes[m]? = some sm) (j i : Nat)
    (hj : sm.indices[j]? = some i) :
    i < sm.vertices.length ∧
      (flatten src submeshes).indices[indexTotal (submeshes.take m) + j]? =
        some (i + vertexTotal (submeshes.take m)) := by
  obtain ⟨hl, hslot⟩ := polygonPass_slot h
  have hlt : m < submeshCount src := by
    rw [← hl]
    exact (List.getElem?_eq_some.mp hm).1
  have hsm := hslot m hlt
  rw [hm, Option.some.injEq] at hsm
  have hr := length_routedTo_le src m src.triangles 0
  have hi : i < sm.vertices.length := by
    rw [hsm]
    apply processTriangles_index_lt_num src _ (by omega)
      (fun v hv => hnum v (cornerKeys_routedTo_subset src m v hv))
    rw [← hsm]
    exact List.getElem?_mem hj
  have htot := polygonPass_vertexTotal_le h
  have htake := vertexTotal_take_le submeshes m sm hm
  have e1 : u32 (vertexTotal (submeshes.take m)) = vertexTotal (submeshes.take m) :=
    u32_of_lt (by omega)
  have e2 : u32 (i + vertexTotal (submeshes.take m)) = i + vertexTotal (submeshes.take m) :=
    u32_of_lt (by omega)
  refine ⟨hi, ?_⟩
  rw [(flatten_fields src submeshes).2.1, globalIndices_getElem? submeshes 0 m sm j i hm hj,
    Nat.zero_add, e1, e2]

/-- C1, as stated, fails. The polygon of `sampleMeshNaN` has the corners `(NaN, 0, 0)`,
`(5, 0, 0)` and `(7, 0, 0)`: three different keys. No comparison with NaN is true, so
the key at `(5, 0, 0)` is equivalent in `knownVertices` to the stored key at
`(NaN, 0, 0)`, and so is the key at `(7, 0, 0)`: the three corners receive the one
index 0. The same happens in `sampleMeshNaNWeight`, whose keys differ in the first bone
weight alone (NaN, 5 and 7), a field that `operator<` of `BabylonVertex` compares
itself (lines 127-132). -/
theorem nan_key_same_index_counterexample :
    (cornerIndices sampleMeshNaN SubmeshData.empty sampleMeshNaN.triangles = [0, 0, 0] ∧
      (cornerKeys sampleMeshNaN sampleMeshNaN.triangles).map (fun k => k.position.x) =
        [.nan, .num 5, .num 7] ∧
      ¬ ((cornerIndices sampleMeshNaN SubmeshData.empty sampleMeshNaN.triangles)[1]? =
            (cornerIndices sampleMeshNaN SubmeshData.empty sampleMeshNaN.triangles)[2]? ↔
          (cornerKeys sampleMeshNaN sampleMeshNaN.triangles)[1]? =
            (cornerKeys sampleMeshNaN sampleMeshNaN.triangles)[2]?)) ∧
    (cornerIndices sampleMeshNaNWeight SubmeshData.empty sampleMeshNaNWeight.triangles =
        [0, 0, 0] ∧
      (cornerKeys sampleMeshNaNWeight sampleMeshNaNWeight.triangles).map
          (fun k => k.boneWeights.e0) = [.nan, .num 5, .num 7] ∧
      ¬ ((cornerIndices sampleMeshNaNWeight SubmeshData.empty
              sampleMeshNaNWeight.triangles)[1]? =
            (cornerIndices sampleMeshNaNWeight SubmeshData.empty
              sampleMeshNaNWeight.triangles)[2]? ↔
          (cornerKeys sampleMeshNaNWeight sampleMeshNaNWeight.triangles)[1]? =
            (cornerKeys sampleMeshNaNWeight sampleMeshNaNWeight.triangles)[2]?)) := by
  decide

/-- C1, amended. Welding determinism within one submesh: while a submesh processes any
sequence of polygons (fewer than `2 ^ 32` corners) none of whose vertex keys has a NaN
component, two corners receive the same local vertex index if and only if their vertex
keys are equal, that is, equal in every field. -/
theorem weld_same_index_iff_same_key_without_nan (src : SourceMesh (WithNaN F))
    (tris : List (SourceTriangle (WithNaN F))) (hb : 3 * tris.length < 2 ^ 32)
    (hnum : ∀ v ∈ cornerKeys src tris, v.noNaN = true) (i j : Nat)
    (hi : i < 3 * tris.length) (hj : j < 3 * tris.length) :
    (cornerIndices src SubmeshData.empty tris)[i]? =
        (cornerIndices src SubmeshData.empty tris)[j]? ↔
      (cornerKeys src tris)[i]? = (cornerKeys src tris)[j]? := by
  obtain ⟨_, hw⟩ := processTriangles_empty_num src tris hb hnum
  have hlen := length_cornerKeys src tris
  have hi2 : i < (cornerKeys src tris).length := by omega
  have hj2 : j < (cornerKeys src tris).length := by omega
  unfold cornerIndices
  rw [hw, flatMap_positionTriple, List.getElem?_map, List.getElem?_map,
    List.getElem?_eq_getElem hi2, List.getElem?_eq_getElem hj2]
  simp only [Option.map_some', Option.some.injEq]
  have mi : (cornerKeys src tris)[i] ∈ firstOccurrences (cornerKeys src tris) :=
    (mem_firstOccurrences _ _).mpr (List.getElem_mem hi2)
  have mj : (cornerKeys src tris)[j] ∈ firstOccurrences (cornerKeys src tris) :=
    (mem_firstOccurrences _ _).mpr (List.getElem_mem hj2)
  exact List.indexOf_inj mi mj

/-- Witness of the amended C1 on the three polygons `(0,1,2)`, `(0,1,3)`, `(2,1,0)` of
`float` corners without NaN: corners 2 and 6 carry the same key and get the same
index, corners 2 and 5 carry different keys and get different indices. -/
theorem weld_same_index_iff_same_key_without_nan_witness :
    ((cornerIndices sampleMeshNumbers SubmeshData.empty
        [floatTriangle (.num 0) (.num 1) (.num 2), floatTriangle (.num 0) (.num 1) (.num 3),
          floatTriangle (.num 2) (.num 1) (.num 0)])[2]? =
      (cornerIndices sampleMeshNumbers SubmeshData.empty
        [floatTriangle (.num 0) (.num 1) (.num 2), floatTriangle (.num 0) (.num 1) (.num 3),
          floatTriangle (.num 2) (.num 1) (.num 0)])[6]? ↔
    (cornerKeys sampleMeshNumbers
        [floatTriangle (.num 0) (.num 1) (.num 2), floatTriangle (.num 0) (.num 1) (.num 3),
          floatTriangle (.num 2) (.num 1) (.num 0)])[2]? =
      (cornerKeys sampleMeshNumbers
        [floatTriangle (.num 0) (.num 1) (.num 2), floatTriangle (.num 0) (.num 1) (.num 3),
          floatTriangle (.num 2) (.num 1) (.num 0)])[6]?) ∧
    cornerIndices sampleMeshNumbers SubmeshData.empty
        [floatTriangle (.num 0) (.num 1) (.num 2), floatTriangle (.num 0) (.num 1) (.num 3),
          floatTriangle (.num 2) (.num 1) (.num 0)] = [0, 1, 2, 0, 1, 3, 2, 1, 0] ∧
    ∀ v ∈ cornerKeys sampleMeshNumbers
        [floatTriangle (.num 0) (.num 1) (.num 2), floatTriangle (.num 0) (.num 1) (.num 3),
          floatTriangle (.num 2) (.num 1) (.num 0)], v.noNaN = true :=
  ⟨weld_same_index_iff_same_key_without_nan sampleMeshNumbers
    [floatTriangle (.num 0) (.num 1) (.num 2), floatTriangle (.num 0) (.num 1) (.num 3),
      floatTriangle (.num 2) (.num 1) (.num 0)] (by decide) (by decide) 2 6
    (by decide) (by decide), by decide, by decide⟩

/-- C8, as stated, fails. The submesh `submeshWithNaN` holds the one key `(NaN, 0, 0)`
at index 0. Its lookup map holds no key equal to the key at `(5, 0, 0)`, yet welding
that key returns the index 0 of the NaN key, not the buffer length 1, and appends
nothing. The same happens in `submeshWithNaNWeight`, whose one key has the first bone
weight NaN, when the key with the weight 5 is welded. -/
theorem nan_key_weld_frame_counterexample :
    (submeshWithNaN.vertices.map (fun k => k.position.x) = [.nan] ∧
      submeshWithNaN.vertices.length = 1 ∧
      (∀ p ∈ submeshWithNaN.knownVertices, p.1 ≠ floatKey (.num 5)) ∧
      (weld submeshWithNaN (floatKey (.num 5))).2 = 0 ∧
      (weld submeshWithNaN (floatKey (.num 5))).1.vertices = submeshWithNaN.vertices ∧
      (weld submeshWithNaN (floatKey (.num 5))).1.vertices[1]? = none) ∧
    (submeshWithNaNWeight.vertices.map (fun k => k.boneWeights.e0) = [.nan] ∧
      submeshWithNaNWeight.vertices.length = 1 ∧
      (∀ p ∈ submeshWithNaNWeight.knownVertices, p.1 ≠ weightKey (.num 5)) ∧
      (weld submeshWithNaNWeight (weightKey (.num 5))).2 = 0 ∧
      (weld submeshWithNaNWeight (weightKey (.num 5))).1.vertices =
        submeshWithNaNWeight.vertices ∧
      (weld submeshWithNaNWeight (weightKey (.num 5))).1.vertices[1]? = none) := by
  decide

/-- C8, amended. Frame of the welding step on any submesh state whose vertex buffer has
fewer than `2 ^ 32` entries, when neither a key of the lookup map nor the welded key
has a NaN component. When the lookup map holds an equal key, the step returns the
index stored for it and the submesh is unchanged. Otherwise it returns the length of
the vertex buffer, appends the key at that position, records it under that index, and
every other key without NaN keeps its lookup result and every earlier buffer entry its
place; the triangle set and the index list are untouched. -/
theorem weld_frame_without_nan (submesh : SubmeshData (WithNaN F))
    (v : BabylonVertex (WithNaN F)) (hb : submesh.vertices.length < 2 ^ 32)
    (hks : ∀ p ∈ submesh.knownVertices, p.1.noNaN = true) (hv : v.noNaN = true) :
    ((∃ p ∈ submesh.knownVertices, p.1 = v) →
      ∃ i, (v, i) ∈ submesh.knownVertices ∧
        stdMapFind BabylonVertex.lt submesh.knownVertices v = some i ∧
        weld submesh v = (submesh, i)) ∧
    ((∀ p ∈ submesh.knownVertices, p.1 ≠ v) →
      (weld submesh v).2 = submesh.vertices.length ∧
      (weld submesh v).1.vertices = submesh.vertices ++ [v] ∧
      (weld submesh v).1.vertices[submesh.vertices.length]? = some v ∧
      stdMapFind BabylonVertex.lt (weld submesh v).1.knownVertices v =
        some submesh.vertices.length ∧
      (∀ k, k.noNaN = true → k ≠ v →
        stdMapFind BabylonVertex.lt (weld submesh v).1.knownVertices k =
          stdMapFind BabylonVertex.lt submesh.knownVertices k) ∧
      (∀ j, j < submesh.vertices.length →
        (weld submesh v).1.vertices[j]? = submesh.vertices[j]?) ∧
      (weld submesh v).1.knownTriangles = submesh.knownTriangles ∧
      (weld submesh v).1.indices = submesh.indices) := by
  constructor
  · intro h
    obtain ⟨i, hi, e⟩ := stdMapFind_of_mem_num submesh.knownVertices v hks hv h
    exact ⟨i, hi, e, by simp [weld, e]⟩
  · intro h
    have e := stdMapFind_eq_none_num submesh.knownVertices v hks hv h
    have hw : weld submesh v =
        ({ submesh with
            vertices := submesh.vertices ++ [v]
            knownVertices := stdMapAssign BabylonVertex.lt submesh.knownVertices v
              submesh.vertices.length },
          submesh.vertices.length) := by
      simp [weld, e, u32_of_lt hb]
    rw [hw]
    refine ⟨rfl, rfl, by simp, stdMapFind_assign_self_num _ _ _ hks hv,
      fun k hk hne => stdMapFind_assign_ne_num _ _ _ _ hks hv hk hne, ?_, rfl, rfl⟩
    intro j hj
    exact List.getElem?_append_left hj

/-- Witness of the amended C8 on `submeshTwoKeys`, which holds the keys at `(0, 0, 0)`
and `(1, 0, 0)`. Welding the key at `(0, 0, 0)` again finds it and changes nothing;
welding the new key at `(2, 0, 0)` returns the buffer length 2, appends the key, and
the key at `(1, 0, 0)` keeps its index 1. -/
theorem weld_frame_without_nan_witness :
    (submeshTwoKeys.vertices.length < 2 ^ 32 ∧
      (∀ p ∈ submeshTwoKeys.knownVertices, p.1.noNaN = true) ∧
      (floatKey (.num 0)).noNaN = true ∧ (floatKey (.num 2)).noNaN = true ∧
      (∃ p ∈ submeshTwoKeys.knownVertices, p.1 = floatKey (.num 0)) ∧
      (∀ p ∈ submeshTwoKeys.knownVertices, p.1 ≠ floatKey (.num 2))) ∧
    (∃ i, (floatKey (.num 0), i) ∈ submeshTwoKeys.knownVertices ∧
      stdMapFind BabylonVertex.lt submeshTwoKeys.knownVertices (floatKey (.num 0)) = some i ∧
      weld submeshTwoKeys (floatKey (.num 0)) = (submeshTwoKeys, i)) ∧
    ((weld submeshTwoKeys (floatKey (.num 2))).2 = 2 ∧
      (weld submeshTwoKeys (floatKey (.num 2))).1.vertices =
        submeshTwoKeys.vertices ++ [floatKey (.num 2)] ∧
      stdMapFind BabylonVertex.lt (weld submeshTwoKeys (floatKey (.num 2))).1.knownVertices
        (floatKey (.num 1)) = some 1 ∧
      stdMapFind BabylonVertex.lt (weld submeshTwoKeys (floatKey (.num 2))).1.knownVertices
        (floatKey (.num 1)) =
        stdMapFind BabylonVertex.lt submeshTwoKeys.knownVertices (floatKey (.num 1))) :=
  ⟨⟨by decide, by decide, by decide, by decide, by decide, by decide⟩,
    (weld_frame_without_nan submeshTwoKeys (floatKey (.num 0)) (by decide) (by decide)
      (by decide)).1 (by decide),
    ((weld_frame_without_nan submeshTwoKeys (floatKey (.num 2)) (by decide) (by decide)
      (by decide)).2 (by decide)).1,
    ((weld_frame_without_nan submeshTwoKeys (floatKey (.num 2)) (by decide) (by decide)
      (by decide)).2 (by decide)).2.1,
    by decide,
    ((weld_frame_without_nan submeshTwoKeys (floatKey (.num 2)) (by decide) (by decide)
      (by decide)).2 (by decide)).2.2.2.2.1 (floatKey (.num 1)) (by decide) (by decide)⟩

/-- C9, as stated, fails. The polygon of `sampleMeshNaN` has three distinct keys, at
`(NaN, 0, 0)`, `(5, 0, 0)` and `(7, 0, 0)`, but the vertex buffer after the polygon
holds the NaN key alone, and the indices returned are `0, 0, 0`, not the positions
`0, 1, 2` of the keys among the distinct keys. The same happens in
`sampleMeshNaNWeight`, whose three keys differ in the first bone weight alone (NaN, 5
and 7). -/
theorem nan_key_first_seen_counterexample :
    ((firstOccurrences (cornerKeys sampleMeshNaN sampleMeshNaN.triangles)).map
          (fun k => k.position.x) = [.nan, .num 5, .num 7] ∧
      (processTriangles sampleMeshNaN SubmeshData.empty sampleMeshNaN.triangles).vertices.map
          (fun k => k.position.x) = [.nan] ∧
      (processTriangles sampleMeshNaN SubmeshData.empty sampleMeshNaN.triangles).vertices ≠
        firstOccurrences (cornerKeys sampleMeshNaN sampleMeshNaN.triangles) ∧
      cornerIndices sampleMeshNaN SubmeshData.empty sampleMeshNaN.triangles ≠
        (cornerKeys sampleMeshNaN sampleMeshNaN.triangles).map
          (fun k =>
            (firstOccurrences (cornerKeys sampleMeshNaN sampleMeshNaN.triangles)).indexOf k)) ∧
    ((firstOccurrences (cornerKeys sampleMeshNaNWeight sampleMeshNaNWeight.triangles)).map
          (fun k => k.boneWeights.e0) = [.nan, .num 5, .num 7] ∧
      (processTriangles sampleMeshNaNWeight SubmeshData.empty
          sampleMeshNaNWeight.triangles).vertices.map (fun k => k.boneWeights.e0) = [.nan] ∧
      (processTriangles sampleMeshNaNWeight SubmeshData.empty
          sampleMeshNaNWeight.triangles).vertices ≠
        firstOccurrences (cornerKeys sampleMeshNaNWeight sampleMeshNaNWeight.triangles) ∧
      cornerIndices sampleMeshNaNWeight SubmeshData.empty sampleMeshNaNWeight.triangles ≠
        (cornerKeys sampleMeshNaNWeight sampleMeshNaNWeight.triangles).map
          (fun k =>
            (firstOccurrences
              (cornerKeys sampleMeshNaNWeight sampleMeshNaNWeight.triangles)).indexOf k)) := by
  decide

/-- C9, amended. First-seen refinement for one submesh (fewer than `2 ^ 32` corners)
when no vertex key has a NaN component: after any such polygon sequence the vertex
buffer is the list of distinct keys in order of first occurrence, the index returned
for each corner is the position of its key in that list, and the index list is the
concatenation of the welded triples, in processing order, with every later repeat of
an earlier ordered triple removed. -/
theorem first_seen_refinement_without_nan (src : SourceMesh (WithNaN F))
    (tris : List (SourceTriangle (WithNaN F))) (hb : 3 * tris.length < 2 ^ 32)
    (hnum : ∀ v ∈ cornerKeys src tris, v.noNaN = true) :
    (processTriangles src SubmeshData.empty tris).vertices =
      firstOccurrences (cornerKeys src tris) ∧
    cornerIndices src SubmeshData.empty tris =
      (cornerKeys src tris).map
        (fun k => (firstOccurrences (cornerKeys src tris)).indexOf k) ∧
    weldedTriangles src SubmeshData.empty tris =
      tris.map (positionTriple src (firstOccurrences (cornerKeys src tris))) ∧
    (processTriangles src SubmeshData.empty tris).indices =
      (firstOccurrences (weldedTriangles src SubmeshData.empty tris)).flatMap
        triangle.toList := by
  obtain ⟨ht, hw⟩ := processTriangles_empty_num src tris hb hnum
  refine ⟨ht.vertices, ?_, hw, ?_⟩
  · unfold cornerIndices
    rw [hw, flatMap_positionTriple]
  · rw [hw]
    exact ht.indices

/-- Witness of the amended C9 on the polygons of `sampleMeshNumbers`, `(0,1,2)`,
`(0,1,3)`, `(0,1,2)`, `(2,1,0)`, in one submesh: four distinct keys, and the repeated
third polygon leaves no indices. -/
theorem first_seen_refinement_without_nan_witness :
    ((processTriangles sampleMeshNumbers SubmeshData.empty
        sampleMeshNumbers.triangles).vertices.map (fun v => v.position.x) =
      [.num 0, .num 1, .num 2, .num 3]) ∧
    (processTriangles sampleMeshNumbers SubmeshData.empty
        sampleMeshNumbers.triangles).indices = [0, 1, 2, 0, 1, 3, 2, 1, 0] ∧
    (processTriangles sampleMeshNumbers SubmeshData.empty
        sampleMeshNumbers.triangles).vertices =
      firstOccurrences (cornerKeys sampleMeshNumbers sampleMeshNumbers.triangles) ∧
    (processTriangles sampleMeshNumbers SubmeshData.empty
        sampleMeshNumbers.triangles).indices =
      (firstOccurrences (weldedTriangles sampleMeshNumbers SubmeshData.empty
        sampleMeshNumbers.triangles)).flatMap triangle.toList ∧
    ∀ v ∈ cornerKeys sampleMeshNumbers sampleMeshNumbers.triangles, v.noNaN = true :=
  ⟨by decide, by decide,
    (first_seen_refinement_without_nan sampleMeshNumbers sampleMeshNumbers.triangles
      (by decide) (by decide)).1,
    (first_seen_refinement_without_nan sampleMeshNumbers sampleMeshNumbers.triangles
      (by decide) (by decide)).2.2.2, by decide⟩

/-- C20, as stated, fails, in the skin channel and for a key with a NaN component. The
third corner of the skinned sample mesh has a fourth bone weight of 1; the only
triangle of the flattened mesh is `(0, 1, 2)`, and the bone weight stored at global
vertex 2 has the fourth component `-2`. The polygon of `sampleMeshNaN` has the corners
`(NaN, 0, 0)`, `(5, 0, 0)` and `(7, 0, 0)`; the flattened mesh has the one vertex
`(NaN, 0, 0)` and the triangle `(0, 0, 0)`, so the positions of the second and third
corner are not in the position array. The polygon of `sampleMeshNaNWeight` has corners
that differ in the first bone weight alone (NaN, 5 and 7); the flattened mesh has one
vertex, whose skin entry is the packed form of the NaN corner, not that of the second
corner. -/
theorem stored_corner_differs_counterexample :
    ((convert sampleMeshSkin).map (fun out => (out.indices, out.boneWeights[2]?)) =
        some ([0, 1, 2], some { x := 1, y := 1, z := 1, w := -2 }) ∧
      (boneWeightSlot (skinnedCorner 2
        [{ index := 0, weight := 1 }, { index := 1, weight := 1 }, { index := 2, weight := 1 },
         { index := 0, weight := 1 }, { index := 1, weight := 1 }]).skinData 3 = (1 : Int)) ∧
      (makeVertex sampleMeshSkin (skinnedCorner 2
        [{ index := 0, weight := 1 }, { index := 1, weight := 1 }, { index := 2, weight := 1 },
         { index := 0, weight := 1 }, { index := 1, weight := 1 }])).boneWeights =
        { e0 := 1, e1 := 1, e2 := 1, e3 := 1 }) ∧
    ((convert sampleMeshNaN).map (fun out => (out.positions, out.indices)) =
        some ([{ x := .nan, y := .num 0, z := .num 0 }], [0, 0, 0]) ∧
      (convert sampleMeshNaN).map
          (fun out => decide ((floatCorner (.num 5)).position ∈ out.positions)) =
        some false ∧
      (convert sampleMeshNaN).map
          (fun out => decide ((floatCorner (.num 7)).position ∈ out.positions)) =
        some false) ∧
    ((convert sampleMeshNaNWeight).map
          (fun out => (out.positions.length, out.indices, out.boneWeights)) =
        some (1, [0, 0, 0], [{ x := .nan, y := .num 0, z := .num 0, w := .nan }]) ∧
      packBoneWeights (weightKey (.num 5)) =
        { x := .num 5, y := .num 0, z := .num 0, w := .num (-4) }) := by
  decide

/-- C20, amended. Every source polygon is in the flattened mesh (fewer than `2 ^ 32`
corners) when no vertex key of the mesh has a NaN component: for the polygon with
index `n`, routed to slot `m`, the index range of submesh `m` holds at a
triangle-aligned position a triple `(g0, g1, g2)` of vertices of that submesh such
that, for each corner, the position and the normal, UV, second UV and colour in the
arrays that are present are those of the corner; when the mesh has a skin, the stored
skin entry is the packed form of the corner's four bone slots. -/
theorem polygons_preserved_without_nan (src : SourceMesh (WithNaN F))
    (out : BabylonMesh (WithNaN F)) (hb : 3 * src.triangles.length < 2 ^ 32)
    (hnum : ∀ v ∈ cornerKeys src src.triangles, v.noNaN = true)
    (h : convert src = some out) (n : Nat) (tri : SourceTriangle (WithNaN F))
    (hn : src.triangles[n]? = some tri) :
    ∃ (m : Nat) (S : BabylonSubmesh) (q g0 g1 g2 : Nat),
      materialIndexOf src n = (m : Int) ∧ out.submeshes[m]? = some S ∧
      S.materialIndex = m ∧ 3 * q + 3 ≤ S.indexCount ∧
      out.indices[S.indexStart + 3 * q]? = some g0 ∧
      out.indices[S.indexStart + 3 * q + 1]? = some g1 ∧
      out.indices[S.indexStart + 3 * q + 2]? = some g2 ∧
      (S.verticesStart ≤ g0 ∧ g0 < S.verticesStart + S.verticesCount) ∧
      (S.verticesStart ≤ g1 ∧ g1 < S.verticesStart + S.verticesCount) ∧
      (S.verticesStart ≤ g2 ∧ g2 < S.verticesStart + S.verticesCount) ∧
      storedAt src out g0 tri.corner0 ∧ storedAt src out g1 tri.corner1 ∧
      storedAt src out g2 tri.corner2 := by
  have hlt : n < src.triangles.length := (List.getElem?_eq_some.mp hn).1
  obtain ⟨hpos, hrange⟩ := convert_in_range h n hlt
  obtain ⟨submeshes, hpass, rfl⟩ := convert_eq_some h
  obtain ⟨hl, hslot⟩ := polygonPass_slot hpass
  have hmi : materialIndexOf src n = (((materialIndexOf src n).toNat : Nat) : Int) :=
    (Int.toNat_of_nonneg hpos).symm
  generalize (materialIndexOf src n).toNat = m at hmi hrange
  have hsm := hslot m hrange
  have hmem : tri ∈ routedTo src m 0 src.triangles :=
    mem_routedTo src m src.triangles 0 n tri hn (by simpa using hmi)
  have hr := length_routedTo_le src m src.triangles 0
  obtain ⟨ht, _⟩ := processTriangles_empty_num src (routedTo src m 0 src.triangles)
    (by omega) (fun v hv => hnum v (cornerKeys_routedTo_subset src m v hv))
  have htm : positionTriple src
      (firstOccurrences (cornerKeys src (routedTo src m 0 src.triangles))) tri ∈
      firstOccurrences ((routedTo src m 0 src.triangles).map (positionTriple src
        (firstOccurrences (cornerKeys src (routedTo src m 0 src.triangles))))) := by
    rw [mem_firstOccurrences]
    exact List.mem_map.mpr ⟨tri, hmem, rfl⟩
  obtain ⟨q, hq⟩ := List.mem_iff_getElem?.mp htm
  obtain ⟨q0, q1, q2, q3⟩ := flatMap_toList_getElem? _ q _ hq
  rw [← ht.indices] at q0 q1 q2 q3
  have hkey : ∀ c : SourceCorner (WithNaN F), makeVertex src c ∈ triangleKeys src tri →
      (processTriangles src SubmeshData.empty (routedTo src m 0 src.triangles)).vertices[
        (firstOccurrences (cornerKeys src (routedTo src m 0 src.triangles))).indexOf
          (makeVertex src c)]? = some (makeVertex src c) := by
    intro c hc
    rw [ht.vertices, ← List.get?_eq_getElem?]
    apply List.indexOf_get?
    rw [mem_firstOccurrences]
    exact List.mem_flatMap.mpr ⟨tri, hmem, hc⟩
  have r0 := flatten_rebased_num hpass hb hnum m _ hsm _ _ q1
  have r1 := flatten_rebased_num hpass hb hnum m _ hsm _ _ q2
  have r2 := flatten_rebased_num hpass hb hnum m _ hsm _ _ q3
  have s0 := vertex_stored src submeshes m _ _ tri.corner0 hsm
    (hkey tri.corner0 (by simp [triangleKeys]))
  have s1 := vertex_stored src submeshes m _ _ tri.corner1 hsm
    (hkey tri.corner1 (by simp [triangleKeys]))
  have s2 := vertex_stored src submeshes m _ _ tri.corner2 hsm
    (hkey tri.corner2 (by simp [triangleKeys]))
  have hd := flatten_descriptor src submeshes m
  rw [hsm, Option.map_some'] at hd
  simp only [positionTriple] at r0 r1 r2
  refine ⟨m, _, q,
    (firstOccurrences (cornerKeys src (routedTo src m 0 src.triangles))).indexOf
      (makeVertex src tri.corner0) + vertexTotal (submeshes.take m),
    (firstOccurrences (cornerKeys src (routedTo src m 0 src.triangles))).indexOf
      (makeVertex src tri.corner1) + vertexTotal (submeshes.take m),
    (firstOccurrences (cornerKeys src (routedTo src m 0 src.triangles))).indexOf
      (makeVertex src tri.corner2) + vertexTotal (submeshes.take m),
    hmi, hd, rfl, q0, ?_, ?_, ?_, ?_, ?_, ?_, ?_, ?_, ?_⟩
  · exact r0.2
  · rw [Nat.add_assoc]
    exact r1.2
  · rw [Nat.add_assoc]
    exact r2.2
  · exact ⟨by simp, by have := r0.1; simp only; omega⟩
  · exact ⟨by simp, by have := r1.1; simp only; omega⟩
  · exact ⟨by simp, by have := r2.1; simp only; omega⟩
  · rw [Nat.add_comm]
    exact s0
  · rw [Nat.add_comm]
    exact s1
  · rw [Nat.add_comm]
    exact s2

/-- Witness of the amended C20 on `sampleMeshNumbers`, whose keys have no NaN
component: polygon 2 repeats polygon 0 and is dropped as a duplicate, yet its triple is
in the index range of submesh 0 and its three corners are stored at the vertices the
triple names. -/
theorem polygons_preserved_without_nan_witness :
    (convert sampleMeshNumbers = some sampleOutNumbers ∧
      ∀ v ∈ cornerKeys sampleMeshNumbers sampleMeshNumbers.triangles, v.noNaN = true) ∧
    ∃ (m : Nat) (S : BabylonSubmesh) (q g0 g1 g2 : Nat),
      materialIndexOf sampleMeshNumbers 2 = (m : Int) ∧
      sampleOutNumbers.submeshes[m]? = some S ∧
      S.materialIndex = m ∧ 3 * q + 3 ≤ S.indexCount ∧
      sampleOutNumbers.indices[S.indexStart + 3 * q]? = some g0 ∧
      sampleOutNumbers.indices[S.indexStart + 3 * q + 1]? = some g1 ∧
      sampleOutNumbers.indices[S.indexStart + 3 * q + 2]? = some g2 ∧
      (S.verticesStart ≤ g0 ∧ g0 < S.verticesStart + S.verticesCount) ∧
      (S.verticesStart ≤ g1 ∧ g1 < S.verticesStart + S.verticesCount) ∧
      (S.verticesStart ≤ g2 ∧ g2 < S.verticesStart + S.verticesCount) ∧
      storedAt sampleMeshNumbers sampleOutNumbers g0
        (floatTriangle (.num 0) (.num 1) (.num 2)).corner0 ∧
      storedAt sampleMeshNumbers sampleOutNumbers g1
        (floatTriangle (.num 0) (.num 1) (.num 2)).corner1 ∧
      storedAt sampleMeshNumbers sampleOutNumbers g2
        (floatTriangle (.num 0) (.num 1) (.num 2)).corner2 :=
  ⟨⟨by decide, by decide⟩,
    polygons_preserved_without_nan sampleMeshNumbers sampleOutNumbers (by decide) (by decide)
      (by decide) 2 (floatTriangle (.num 0) (.num 1) (.num 2)) (by decide)⟩

end BabylonFbx
